import Mathlib

/-!
# Email lifecycle workflow: working set, optimistic send with rollback, auto-send batch

Shallow embedding of `src/frontend/src/stores/emailStore.js` (the zustand store), of the
version handling of `src/frontend/src/components/EmailDetailsModal.jsx`, and of the routes
and the cron job of `src/backend/index.js`.

Asynchronous functions are split at their `await` points.  Whatever other tasks do to the
store while a function is suspended is an explicit parameter of type `Store → Store`.
Values supplied by the environment (toast ids, the result of a `fetch`) are parameters too.
-/

namespace EmailClient

/-! ## Data model -/

/-- Message of the working set, in the shape built by the backend (index.js lines 60-69).
`Reply_of_email` is `none` when the property is missing or null. -/
structure Email where
  id : String
  sender : String
  senderName : String
  subject : String
  customerEmail : String
  createdAT : Nat
  customerEmailSummary : String
  Reply_of_email : Option String
deriving DecidableEq, Repr

/-- The `type` of a toast. -/
inductive ToastType where
  | loading
  | success
  | error
deriving DecidableEq, Repr

/-- Toast notification `{ id, type, message }`.  The id is the number
`Date.now() + Math.random()`; the store only ever compares it with `!==`. -/
structure Toast where
  id : Nat
  type : ToastType
  message : String
deriving DecidableEq, Repr

/-- The part of the zustand state that the send and poll operations read or write. -/
structure Store where
  emails : List Email
  selectedEmail : Option Email
  isModalOpen : Bool
  suggestedReply : Option String
  userCustomizationText : String
  toasts : List Toast
  isAutoSending : Bool
deriving DecidableEq, Repr

/-- Initial state of the store (emailStore.js lines 4-23, 150). -/
def initialStore : Store :=
  { emails := [], selectedEmail := none, isModalOpen := false, suggestedReply := some "",
    userCustomizationText := "", toasts := [], isAutoSending := false }

/-- JavaScript truthiness of a value that is a string, null or undefined. -/
def truthy : Option String → Bool
  | some t => t != ""
  | none => false

/-- JavaScript `a || b` on such values. -/
def jsOr (a b : Option String) : Option String :=
  if truthy a then a else b

/-! ## Toasts (emailStore.js lines 25-34) -/

/-- Source `addToast(toast)`: `id` is the value of `Date.now() + Math.random()` at the call. -/
def addToast (id : Nat) (type : ToastType) (message : String) (s : Store) : Nat × Store :=
  (id, { s with toasts := s.toasts ++ [{ id := id, type := type, message := message }] })

/-- Source `removeToast(id)`. -/
def removeToast (id : Nat) (s : Store) : Store :=
  { s with toasts := s.toasts.filter (fun t => t.id != id) }

/-! ## sendEmail (emailStore.js lines 74-147) -/

/-- What the `try` block of `sendEmail` gets back from the backend. -/
inductive Delivery where
  /-- The promise of `fetch` rejects (line 103). -/
  | fetchThrows
  /-- The promise of `res.json()` rejects (line 110). -/
  | jsonThrows
  /-- The body parsed to `data`; the flag is the truthiness of `data.success` (line 115).
  A body on which `data.success` itself throws reaches the `catch` block in the same state
  as `body false`, because `removeToast` has already run on line 113. -/
  | body (success : Bool)
deriving DecidableEq, Repr

/-- Observable points of a send. -/
inductive Event where
  /-- The POST to `/send-email/:id` with body `{ llm_reply }` (lines 103-109). -/
  | request (id : String) (llm_reply : Option String)
  /-- The success branch (lines 116-122). -/
  | sent (id : String)
  /-- The `catch` block (lines 126-146). -/
  | rolledBack (id : String)
deriving DecidableEq, Repr

/-- Local constants of a `sendEmail` call that is suspended in its `try` block. -/
structure InFlight where
  id : String
  emailToSend : Email
  replyToSend : Option String
  originalIndex : Nat
  loadingToastId : Nat
deriving DecidableEq, Repr

/-- Restoration expression of lines 134-138. -/
def restoreAt (originalIndex : Nat) (emailToSend : Email) (currentEmails : List Email) :
    List Email :=
  currentEmails.take originalIndex ++ [emailToSend] ++ currentEmails.drop originalIndex

/-- Lines 75-100 of `sendEmail`, up to the first `await`.  `none` is the early return of
line 81.  `findIndex` is only evaluated when `find` succeeded, so it never yields `-1`. -/
def sendStart (loadingToastId : Nat) (id : String) (customReplyText : Option String)
    (s : Store) : Option (InFlight × Store) :=
  let emails := s.emails
  match emails.find? (fun e => e.id == id) with
  | none => none
  | some emailToSend =>
    let replyToSend := jsOr customReplyText emailToSend.Reply_of_email
    let originalIndex := emails.findIdx (fun e => e.id == id)
    let updatedEmails := emails.filter (fun email => email.id != id)
    let s1 := { s with emails := updatedEmails }
    let r := addToast loadingToastId ToastType.loading "Sending email..." s1
    some ({ id := id, emailToSend := emailToSend, replyToSend := replyToSend,
            originalIndex := originalIndex, loadingToastId := r.1 }, r.2)

/-- The `catch` block, lines 126-146. -/
def sendCatch (resultToastId : Nat) (p : InFlight) (s : Store) : Store :=
  let s1 := removeToast p.loadingToastId s
  let currentEmails := s1.emails
  let restoredEmails := restoreAt p.originalIndex p.emailToSend currentEmails
  let s2 := { s1 with emails := restoredEmails }
  (addToast resultToastId ToastType.error "Failed to send email. Please try again." s2).2

/-- Lines 110-146 of `sendEmail`: what runs once the delivery call has settled. -/
def sendFinish (resultToastId : Nat) (d : Delivery) (p : InFlight) (s : Store) :
    Store × Event :=
  match d with
  | Delivery.fetchThrows => (sendCatch resultToastId p s, Event.rolledBack p.id)
  | Delivery.jsonThrows => (sendCatch resultToastId p s, Event.rolledBack p.id)
  | Delivery.body true =>
    let s1 := removeToast p.loadingToastId s
    ((addToast resultToastId ToastType.success ("Email sent to " ++ p.emailToSend.sender) s1).2,
      Event.sent p.id)
  | Delivery.body false =>
    (sendCatch resultToastId p (removeToast p.loadingToastId s), Event.rolledBack p.id)

/-- Environment of one `sendEmail` call. -/
structure SendEnv where
  /-- Id drawn by the `addToast` of line 95. -/
  loadingToastId : Nat
  /-- Id drawn by the `addToast` of line 119 or 142. -/
  resultToastId : Nat
  /-- Outcome of the delivery call. -/
  delivery : Delivery
  /-- What other tasks do to the store while the call is suspended on lines 103-110. -/
  duringFetch : Store → Store

/-- Source `sendEmail(id, customReplyText)`: final store and the events of the call. -/
def sendEmail (env : SendEnv) (id : String) (customReplyText : Option String) (s : Store) :
    Store × List Event :=
  match sendStart env.loadingToastId id customReplyText s with
  | none => (s, [])
  | some (p, s1) =>
    let r := sendFinish env.resultToastId env.delivery p (env.duringFetch s1)
    (r.1, [Event.request id p.replyToSend, r.2])

/-! ## Auto-send (emailStore.js lines 149-193) -/

/-- Source `stopAutoSend()`. -/
def stopAutoSend (s : Store) : Store :=
  { s with isAutoSending := false }

/-- Environment of one iteration of the loop of `autoSendAllEmails`. -/
structure LoopEnv where
  send : SendEnv
  /-- What other tasks do to the store during the 800 ms pause of line 187. -/
  duringDelay : Store → Store

/-- The `for` loop of lines 177-188.  The environment of an iteration may depend on the
position in the snapshot and on the id at that position. -/
def autoSendLoop (env : Nat → String → LoopEnv) : Nat → List String → Store → Store × List Event
  | _, [], s => (s, [])
  | i, id :: rest, s =>
    if !s.isAutoSending then (s, [])
    else
      let r1 := sendEmail (env i id).send id none s
      let s2 := (env i id).duringDelay r1.1
      let r2 := autoSendLoop env (i + 1) rest s2
      (r2.1, r1.2 ++ r2.2)

/-- Source `autoSendAllEmails()`.  `guardToastId` is the id drawn by the `addToast` of line 163. -/
def autoSendAllEmails (guardToastId : Nat) (env : Nat → String → LoopEnv) (s : Store) :
    Store × List Event :=
  let emails := s.emails
  if emails.length = 0 then
    ((addToast guardToastId ToastType.error "No emails to auto-send!" s).2, [])
  else
    let s1 := { s with isAutoSending := true }
    let emailIds := emails.map (fun e => e.id)
    let r := autoSendLoop env 0 emailIds s1
    ({ r.1 with isAutoSending := false }, r.2)

/-! ## The promises of the send and of the batch (emailStore.js lines 74-193)

`sendEmail` and `autoSendAllEmails` above give the state in which a call ends.  The
functions of this section keep apart the two ways in which an `async` function ends: its
promise is fulfilled (`Except.ok`), or it is rejected by an exception that leaves the body
(`Except.error`, with the store at that moment). -/

/-- An exception thrown in the body of `sendEmail`. -/
inductive Thrown where
  /-- The promise of `fetch` rejected (line 103). -/
  | fetchRejected
  /-- The promise of `res.json()` rejected (line 110). -/
  | jsonRejected
  /-- The `new Error(data.message || "Failed to send email")` of line 124, or the exception
  of `data.success` on line 115. -/
  | sendFailed
deriving DecidableEq, Repr

/-- The `try` block of `sendEmail`, lines 102-125, once the delivery call has settled: the
store at its end, or the exception that leaves the block with the store at the throw. -/
def sendTry (resultToastId : Nat) (d : Delivery) (p : InFlight) (s : Store) :
    Except (Thrown × Store) Store :=
  match d with
  | Delivery.fetchThrows => Except.error (Thrown.fetchRejected, s)
  | Delivery.jsonThrows => Except.error (Thrown.jsonRejected, s)
  | Delivery.body success =>
    let s1 := removeToast p.loadingToastId s
    if success then
      Except.ok
        (addToast resultToastId ToastType.success ("Email sent to " ++ p.emailToSend.sender)
          s1).2
    else Except.error (Thrown.sendFailed, s1)

/-- Source `sendEmail(id, customReplyText)` as the promise it returns.  The statements
before the `try` block and those of the `catch` block read and write lists and the toast
queue, and none of them throws; an exception of the `try` block is handled by the `catch`
block of lines 126-146. -/
def sendEmailPromise (env : SendEnv) (id : String) (customReplyText : Option String)
    (s : Store) : Except (Thrown × Store) (Store × List Event) :=
  match sendStart env.loadingToastId id customReplyText s with
  | none => Except.ok (s, [])
  | some (p, s1) =>
    match sendTry env.resultToastId env.delivery p (env.duringFetch s1) with
    | Except.ok s2 => Except.ok (s2, [Event.request id p.replyToSend, Event.sent p.id])
    | Except.error (_, s2) =>
      Except.ok (sendCatch env.resultToastId p s2,
        [Event.request id p.replyToSend, Event.rolledBack p.id])

/-- The `for` loop of lines 177-188 as a computation that may throw: `await sendEmail(id)`
throws when the promise of `sendEmail` is rejected, and nothing in the loop catches it. -/
def autoSendLoopPromise (env : Nat → String → LoopEnv) :
    Nat → List String → Store → Except (Thrown × Store) (Store × List Event)
  | _, [], s => Except.ok (s, [])
  | i, id :: rest, s =>
    if !s.isAutoSending then Except.ok (s, [])
    else
      match sendEmailPromise (env i id).send id none s with
      | Except.error err => Except.error err
      | Except.ok r1 =>
        let s2 := (env i id).duringDelay r1.1
        match autoSendLoopPromise env (i + 1) rest s2 with
        | Except.error err => Except.error err
        | Except.ok r2 => Except.ok (r2.1, r1.2 ++ r2.2)

/-- Source `autoSendAllEmails()` as the promise it returns.  The reset of line 191 follows
the loop and is not in a `finally` block: an exception that leaves the loop rejects the
promise with `isAutoSending` still true. -/
def autoSendAllEmailsPromise (guardToastId : Nat) (env : Nat → String → LoopEnv)
    (s : Store) : Except (Thrown × Store) (Store × List Event) :=
  let emails := s.emails
  if emails.length = 0 then
    Except.ok ((addToast guardToastId ToastType.error "No emails to auto-send!" s).2, [])
  else
    let s1 := { s with isAutoSending := true }
    let emailIds := emails.map (fun e => e.id)
    match autoSendLoopPromise env 0 emailIds s1 with
    | Except.error err => Except.error err
    | Except.ok r => Except.ok ({ r.1 with isAutoSending := false }, r.2)

/-! ## Full refresh and poll (emailStore.js lines 38-72) -/

/-- The `set({ emails })` of line 43, for a fetch that returned the list `emails`. -/
def setEmailsWrite (emails : List Email) (s : Store) : Store :=
  { s with emails := emails }

/-- Source `Map.prototype.set` on an insertion-ordered list of entries: an existing key keeps its
position and gets the new value, a new key is appended. -/
def mapSet : List (String × Email) → String → Email → List (String × Email)
  | [], k, v => [(k, v)]
  | (k', v') :: rest, k, v =>
    if k' == k then (k', v) :: rest else (k', v') :: mapSet rest k v

/-- Source `new Map(entries)`. -/
def mapOfEntries (entries : List (String × Email)) : List (String × Email) :=
  entries.foldl (fun m kv => mapSet m kv.1 kv.2) []

/-- Line 64: `Array.from(new Map(merged.map(e => [e.id, e])).values())`. -/
def uniqueEmails (merged : List Email) : List Email :=
  (mapOfEntries (merged.map (fun e => (e.id, e)))).map (fun kv => kv.2)

/-- Lines 59-68 of `fetchNewEmails`: `emails` is the list read on line 53, `newMsgs` the
parsed response. -/
def fetchNewEmailsWrite (emails newMsgs : List Email) (s : Store) : Store :=
  if newMsgs.length > 0 then
    let merged := emails ++ newMsgs
    { s with emails := uniqueEmails merged }
  else s

/-- Source `fetchNewEmails()`.  `newMsgs` is `none` when the fetch or the parse throws, and
when the body is the `{ error }` object of a response with status 500, whose `length` is
undefined so that the test of line 59 fails; `duringFetch` is what other tasks do to the store while the call is suspended. -/
def fetchNewEmails (newMsgs : Option (List Email)) (duringFetch : Store → Store) (s : Store) :
    Store :=
  let emails := s.emails
  match newMsgs with
  | none => duringFetch s
  | some newMsgs => fetchNewEmailsWrite emails newMsgs (duringFetch s)

/-! ## Modal and regeneration write-back (emailStore.js lines 195-201, 296-313) -/

/-- Source `openModal(email)`. -/
def openModal (email : Email) (s : Store) : Store :=
  { s with selectedEmail := some email, isModalOpen := true,
           suggestedReply := email.Reply_of_email }

/-- Source `closeModal()`, restricted to the fields of `Store`. -/
def closeModal (s : Store) : Store :=
  { s with selectedEmail := none, isModalOpen := false, suggestedReply := some "",
           userCustomizationText := "" }

/-- Source `updateReply(text)`. -/
def updateReply (text : Option String) (s : Store) : Store :=
  { s with suggestedReply := text }

/-- Lines 296-313 of `regenerateWithBackend`: `selectedEmail` and `emails` are the values
read on line 245, `newReply` the reply text of the response. -/
def regenerateWrite (toastId : Nat) (selectedEmail : Email) (emails : List Email)
    (newReply : String) (s : Store) : Store :=
  let updatedEmails := emails.map (fun email =>
    if email.id == selectedEmail.id then { email with Reply_of_email := some newReply }
    else email)
  let s1 := { s with emails := updatedEmails }
  let s2 := { s1 with suggestedReply := some newReply }
  let s3 := (addToast toastId ToastType.success "Reply regenerated successfully!" s2).2
  { s3 with userCustomizationText := "" }

/-! ## Interleaved client steps -/

/-- Client state together with the local constants of the calls that are suspended. -/
structure Client where
  store : Store
  /-- Source `emails` of each suspended `fetchNewEmails`. -/
  polls : List (List Email)
  /-- Suspended `sendEmail` calls. -/
  sends : List InFlight
  /-- Source `selectedEmail` and `emails` of each suspended `regenerateWithBackend`. -/
  regens : List (Email × List Email)
deriving DecidableEq, Repr

/-- Synchronous segments of the operations that write the working set. -/
inductive Action where
  /-- Source `setEmails`: the fetch returned this list. -/
  | refresh (emails : List Email)
  /-- Source `fetchNewEmails` up to its `await`. -/
  | pollRead
  /-- The suspended poll number `i` resumes with this batch. -/
  | pollWrite (i : Nat) (newMsgs : List Email)
  /-- Source `sendEmail` up to its `await`. -/
  | sendStart (loadingToastId : Nat) (id : String) (customReplyText : Option String)
  /-- The suspended send number `i` resumes with this outcome. -/
  | sendFinish (i : Nat) (resultToastId : Nat) (d : Delivery)
  /-- Source `openModal(email)`. -/
  | openModal (email : Email)
  /-- Source `regenerateWithBackend` up to its `await`. -/
  | regenRead
  /-- The suspended regeneration number `i` resumes with this reply text. -/
  | regenWrite (i : Nat) (toastId : Nat) (newReply : String)
deriving DecidableEq, Repr

/-- Ids of a working set, in order. -/
def ids (l : List Email) : List String :=
  l.map (fun e => e.id)

/-- One step.  `none` when the step cannot happen: no such suspended call, no selected
email, or a refresh list in which two messages share an id (the store never returns one). -/
def step (c : Client) : Action → Option Client
  | Action.refresh emails =>
    if (ids emails).Nodup then some { c with store := setEmailsWrite emails c.store } else none
  | Action.pollRead => some { c with polls := c.polls ++ [c.store.emails] }
  | Action.pollWrite i newMsgs =>
    match c.polls.get? i with
    | none => none
    | some emails =>
      some { c with store := fetchNewEmailsWrite emails newMsgs c.store,
                    polls := c.polls.eraseIdx i }
  | Action.sendStart loadingToastId id customReplyText =>
    match sendStart loadingToastId id customReplyText c.store with
    | none => some c
    | some (p, s1) => some { c with store := s1, sends := c.sends ++ [p] }
  | Action.sendFinish i resultToastId d =>
    match c.sends.get? i with
    | none => none
    | some p =>
      some { c with store := (sendFinish resultToastId d p c.store).1,
                    sends := c.sends.eraseIdx i }
  | Action.openModal email => some { c with store := openModal email c.store }
  | Action.regenRead =>
    match c.store.selectedEmail with
    | none => none
    | some selectedEmail => some { c with regens := c.regens ++ [(selectedEmail, c.store.emails)] }
  | Action.regenWrite i toastId newReply =>
    match c.regens.get? i with
    | none => none
    | some (selectedEmail, emails) =>
      some { c with store := regenerateWrite toastId selectedEmail emails newReply c.store,
                    regens := c.regens.eraseIdx i }

/-- Client at session start. -/
def initialClient : Client :=
  { store := initialStore, polls := [], sends := [], regens := [] }

/-- A sequence of steps from a state. -/
def run : Client → List Action → Option Client
  | c, [] => some c
  | c, a :: rest =>
    match step c a with
    | none => none
    | some c1 => run c1 rest

/-- Whether the action writes a list that was fetched or read earlier into the working set. -/
def Action.isWriteBack : Action → Bool
  | Action.refresh _ => true
  | Action.pollWrite _ _ => true
  | Action.regenWrite _ _ _ => true
  | _ => false

/-- No suspended send has its id in the working set. -/
def sendsAbsent (c : Client) : Bool :=
  c.sends.all (fun p => !(ids c.store.emails).contains p.id)

/-- Like `run`, but a write-back that leaves the id of a suspended send in the working set
is refused. -/
def runNoResurrect : Client → List Action → Option Client
  | c, [] => some c
  | c, a :: rest =>
    match step c a with
    | none => none
    | some c1 =>
      if a.isWriteBack && !sendsAbsent c1 then none else runNoResurrect c1 rest

/-! ## Backend send route (index.js lines 115-160) -/

/-- Document of the message collection.  The schema of the collection is empty with
`strict: false` (index.js line 15), so a document holds whatever the upstream pipeline
stored: `client_email` is `none` for a document without that property. -/
structure Doc where
  _id : String
  client_email : Option String
  email_subject : Option String
  orignal_email : String
  summaryOfOrignal_email : String
  llm_reply : Option String
  status : String
  createdAT : Nat
deriving DecidableEq, Repr

/-- Parsed body of the webhook response; only its `success` flag is modelled. -/
structure WebhookResult where
  success : Bool
deriving DecidableEq, Repr

/-- What the `fetch` of line 144 and the `json()` of line 150 give. -/
inductive WebhookOutcome where
  /-- The promise of `fetch` rejects. -/
  | networkError
  /-- A response with this HTTP status; `body` is `none` when it does not parse as JSON. -/
  | response (status : Nat) (body : Option WebhookResult)
deriving DecidableEq, Repr

/-- Response of the route. -/
inductive SendResponse where
  /-- Status 404, `{ error: "Message not found" }`. -/
  | notFound
  /-- Status 200, `{ success: true, n8nResult: result }`. -/
  | ok (n8nResult : WebhookResult)
  /-- Status 500, `{ error }`. -/
  | serverError
deriving DecidableEq, Repr

/-- Source `Data.findOne({ _id: messageId })`. -/
def findOne (messageId : String) (db : List Doc) : Option Doc :=
  db.find? (fun d => d._id == messageId)

/-- Source `Data.updateOne({ _id: messageId }, { $set: ... })`: the first match is updated. -/
def updateOne (messageId : String) (f : Doc → Doc) : List Doc → List Doc
  | [] => []
  | d :: rest => if d._id == messageId then f d :: rest else d :: updateOne messageId f rest

/-- Result of handling one request. -/
structure SendResult where
  db : List Doc
  /-- The message posted to the webhook, when the call is made. -/
  posted : Option Doc
  response : SendResponse
deriving DecidableEq, Repr

/-- Source `POST /send-email/:id` with body `{ llm_reply }`.  `messageId` ranges over the
strings that cast to an `_id` of the collection: for any other string the `findOne` of line
120 rejects and the route answers with status 500 where this function answers `notFound`;
the store is unchanged and nothing is posted in both cases. -/
def postSendEmail (webhook : WebhookOutcome) (messageId : String) (llm_reply : Option String)
    (db : List Doc) : SendResult :=
  match findOne messageId db with
  | none => { db := db, posted := none, response := SendResponse.notFound }
  | some msg0 =>
    let db1 := if truthy llm_reply then
        updateOne messageId (fun d => { d with llm_reply := llm_reply }) db
      else db
    let msg := if truthy llm_reply then { msg0 with llm_reply := llm_reply } else msg0
    match webhook with
    | WebhookOutcome.networkError =>
      { db := db1, posted := some msg, response := SendResponse.serverError }
    | WebhookOutcome.response _ none =>
      { db := db1, posted := some msg, response := SendResponse.serverError }
    | WebhookOutcome.response _ (some result) =>
      let db2 := updateOne messageId (fun d => { d with status := "sent" }) db1
      { db := db2, posted := some msg, response := SendResponse.ok result }

/-- Status of a message in the store. -/
def statusOf (messageId : String) (db : List Doc) : Option String :=
  (findOne messageId db).map (fun d => d.status)

/-- The Delivery Channel reported success: a 2xx response whose body parses and carries a
true `success` flag. -/
def WebhookOutcome.reportedSuccess : WebhookOutcome → Bool
  | WebhookOutcome.response status (some result) =>
    decide (200 ≤ status) && decide (status < 300) && result.success
  | _ => false

/-- The webhook call settled with a body that parses as JSON. -/
def WebhookOutcome.parsed : WebhookOutcome → Bool
  | WebhookOutcome.response _ (some _) => true
  | _ => false

/-! ## Backend read routes (index.js lines 55-107) -/

/-- Source `address.split('@')[0]`: the text before the first `@`. -/
def beforeAt (address : String) : String :=
  String.mk (address.data.takeWhile (fun ch => ch != '@'))

/-- Lines 60-69 and 92-101: the message in the shape sent to the client.  `none` is the
`TypeError` thrown by `email.client_email.split('@')` for a document without
`client_email`. -/
def transform (email : Doc) : Option Email :=
  match email.client_email with
  | none => none
  | some client_email =>
    some
      { id := email._id,
        sender := client_email,
        senderName := if beforeAt client_email != "" then beforeAt client_email else "Unknown",
        subject :=
          match email.email_subject with
          | some t => if t != "" then t else "No Subject"
          | none => "No Subject",
        customerEmail := email.orignal_email,
        createdAT := email.createdAT,
        customerEmailSummary := email.summaryOfOrignal_email,
        Reply_of_email := email.llm_reply }

/-- Source `emails.map(email => ({ ... }))` of lines 60 and 92: the callback runs on the
documents in order, and the first exception leaves the `map`. -/
def transformAll : List Doc → Option (List Email)
  | [] => some []
  | email :: rest =>
    match transform email with
    | none => none
    | some e =>
      match transformAll rest with
      | none => none
      | some es => some (e :: es)

/-- Source `.sort({ createdAT: 1 })`.  The store does not fix the order of messages with
equal creation time; here they keep the order in which they are stored. -/
def sortByCreatedAT (l : List Doc) : List Doc :=
  l.insertionSort (fun a b => a.createdAT ≤ b.createdAT)

/-- Source `GET /messages/onscreen`: the list sent with status 200, or `none` when the
`catch` block of line 72 answers with status 500 and `{ error }`; the store is not written. -/
def getMessagesOnscreen (db : List Doc) : Option (List Email) :=
  transformAll (sortByCreatedAT (db.filter (fun d => d.status == "onscreen")))

/-- Line 81: `Data.find({ status: "pending" }).sort({ createdAT: 1 })`. -/
def findPending (db : List Doc) : List Doc :=
  sortByCreatedAT (db.filter (fun d => d.status == "pending"))

/-- Lines 84-90: `updateMany({ _id: { $in: ids } }, { $set: { status: "onscreen" } })` for
the ids of the messages read on line 81, skipped when there is none. -/
def markOnscreen (pendingEmails : List Doc) (db : List Doc) : List Doc :=
  let ids := pendingEmails.map (fun email => email._id)
  if ids.length > 0 then
    db.map (fun d => if ids.contains d._id then { d with status := "onscreen" } else d)
  else db

/-- Result of one pending poll: the store afterwards, and the list sent with status 200, or
`none` when the `catch` block of line 104 answers with status 500 and `{ error }`. -/
structure PollResult where
  db : List Doc
  response : Option (List Email)
deriving DecidableEq, Repr

/-- Source `GET /messages/pending`.  `duringRead` is what other requests do to the store
between the read of line 81 and the update of line 86.  The update of lines 84-90 has run
when the `map` of line 92 throws. -/
def getMessagesPending (duringRead : List Doc → List Doc) (db : List Doc) : PollResult :=
  let pendingEmails := findPending db
  { db := markOnscreen pendingEmails (duringRead db),
    response := transformAll pendingEmails }

/-! ## Archival sweep (index.js lines 186-208) -/

/-- Record of the `customer_history` collection.  For a message without `client_email` the
filter of line 196 is `{ email: undefined }`; it is taken here as one more key, `none`. -/
structure HistoryRecord where
  email : Option String
  conversations : List Doc
deriving DecidableEq, Repr

/-- Source `CustomerHistory.updateOne({ email }, { $push: { conversations: msg } },
{ upsert: true })`: the first record with this address gets the message appended; when
there is none a record is inserted. -/
def pushConversation (email : Option String) (msg : Doc) :
    List HistoryRecord → List HistoryRecord
  | [] => [{ email := email, conversations := [msg] }]
  | r :: rest =>
    if r.email == email then { r with conversations := r.conversations ++ [msg] } :: rest
    else r :: pushConversation email msg rest

/-- The `for` loop of lines 192-200, from iteration number `i`.  `failAt` is the number
of the iteration whose `updateOne` throws, if any; `Except.error` carries the history at
the throw. -/
def archiveLoop (failAt : Option Nat) :
    Nat → List Doc → List HistoryRecord → Except (List HistoryRecord) (List HistoryRecord)
  | _, [], history => Except.ok history
  | i, msg :: rest, history =>
    if failAt = some i then Except.error history
    else archiveLoop failAt (i + 1) rest (pushConversation msg.client_email msg history)

/-- Line 202: `Data.deleteMany({ status: "sent" })`. -/
def deleteManySent (db : List Doc) : List Doc :=
  db.filter (fun d => d.status != "sent")

/-- Message collection and history collection. -/
structure Backend where
  db : List Doc
  history : List HistoryRecord
deriving DecidableEq, Repr

/-- The cron job of lines 186-208.  `duringArchive` is what other requests do to the message
collection between the read of line 190 and the delete of line 202; they do not write the
history collection, so it does not matter between which appends they land. -/
def sweep (failAt : Option Nat) (duringArchive : List Doc → List Doc) (b : Backend) :
    Backend :=
  let sentMessages := b.db.filter (fun d => d.status == "sent")
  match archiveLoop failAt 0 sentMessages b.history with
  | Except.error history => { db := duringArchive b.db, history := history }
  | Except.ok history => { db := deleteManySent (duringArchive b.db), history := history }

/-! ## Complete backend operations -/

/-- A backend operation that runs from start to end with no other write in between. -/
inductive BackendOp where
  /-- The onscreen refresh. -/
  | onscreen
  /-- The pending poll. -/
  | pending
  /-- A send request. -/
  | send (webhook : WebhookOutcome) (messageId : String) (llm_reply : Option String)
  /-- The archival sweep. -/
  | sweep
  /-- The upstream pipeline, which is outside the repository, stores a new message.  The
  store refuses a document whose id is already taken. -/
  | insert (d : Doc)
deriving DecidableEq, Repr

/-- Effect of a complete operation on the two collections. -/
def applyOp (op : BackendOp) (b : Backend) : Backend :=
  match op with
  | BackendOp.onscreen => b
  | BackendOp.pending => { b with db := (getMessagesPending (fun d => d) b.db).db }
  | BackendOp.send webhook messageId llm_reply =>
    { b with db := (postSendEmail webhook messageId llm_reply b.db).db }
  | BackendOp.sweep => sweep none (fun d => d) b
  | BackendOp.insert d =>
    if (b.db.map (fun x => x._id)).contains d._id then b else { b with db := b.db ++ [d] }

/-- Messages returned by a complete operation to a poll of pending messages; a poll
answered with status 500 returns none. -/
def polled (op : BackendOp) (b : Backend) : List Email :=
  match op with
  | BackendOp.pending =>
    match (getMessagesPending (fun d => d) b.db).response with
    | some transformed => transformed
    | none => []
  | _ => []

/-- A sequence of complete operations: final collections and all messages returned to
polls of pending messages, in order. -/
def runOps : List BackendOp → Backend → Backend × List Email
  | [], b => (b, [])
  | op :: rest, b =>
    let r := runOps rest (applyOp op b)
    (r.1, polled op b ++ r.2)

/-- Position of a status in the order pending, onscreen, sent. -/
def rank (status : String) : Option Nat :=
  if status = "pending" then some 0
  else if status = "onscreen" then some 1
  else if status = "sent" then some 2
  else none

/-- Conversations archived for a sender: those of the first record with this address. -/
def conversationsOf (email : Option String) (history : List HistoryRecord) : List Doc :=
  match history.find? (fun r => r.email == email) with
  | some r => r.conversations
  | none => []

/-- The interference leaves the notification queue alone. -/
def KeepsToasts (f : Store → Store) : Prop :=
  ∀ t, (f t).toasts = t.toasts

/-- Every request among the events is directly followed by the success or the rollback of
the same id: each send that started has run to its end. -/
def settled : List Event → Bool
  | [] => true
  | Event.request id _ :: Event.sent id1 :: rest => id == id1 && settled rest
  | Event.request id _ :: Event.rolledBack id1 :: rest => id == id1 && settled rest
  | _ => false

/-! ## Regeneration (emailStore.js lines 244-324) -/

/-- What the `try` block of `regenerateWithBackend` gets back from the Draft Service. -/
inductive DraftOutcome where
  /-- The promise of `fetch` rejects. -/
  | fetchThrows
  /-- The response has `ok` false, so line 281 throws. -/
  | notOk
  /-- The promise of `response.json()` rejects. -/
  | jsonThrows
  /-- The body parsed; `newReply` is the value of `data?.llm_reply?.llm_reply`. -/
  | body (newReply : Option String)
deriving DecidableEq, Repr

/-- Lines 281-323 of `regenerateWithBackend`: what runs once the Draft Service call has
settled.  `selectedEmail` and `emails` are the values read on line 245.  The result is the
store and the return value, `none` standing for `false` and `null`. -/
def regenerateResume (toastId : Nat) (d : DraftOutcome) (selectedEmail : Email)
    (emails : List Email) (s : Store) : Store × Option String :=
  match d with
  | DraftOutcome.body (some newReply) =>
    if newReply != "" then
      (regenerateWrite toastId selectedEmail emails newReply s, some newReply)
    else
      ((addToast toastId ToastType.error "Failed to regenerate reply. No response from AI."
        s).2, none)
  | DraftOutcome.body none =>
    ((addToast toastId ToastType.error "Failed to regenerate reply. No response from AI."
      s).2, none)
  | _ =>
    ((addToast toastId ToastType.error "Error regenerating reply. Please try again." s).2,
      none)

/-- Source `regenerateWithBackend()`.  `duringFetch` is what other tasks do to the store
while the call is suspended. -/
def regenerateWithBackend (toastId : Nat) (d : DraftOutcome) (duringFetch : Store → Store)
    (s : Store) : Store × Option String :=
  match s.selectedEmail with
  | none => ((addToast toastId ToastType.error "No email selected for regeneration" s).2, none)
  | some selectedEmail => regenerateResume toastId d selectedEmail s.emails (duringFetch s)

/-! ## Reply versions in the modal (EmailDetailsModal.jsx lines 30-32, 88-105) -/

/-- Store, version state of the modal component and browser storage.  A stored value is the
array that was passed to `JSON.stringify`; `JSON.parse` gives it back. -/
structure Session where
  store : Store
  replyHistory : List (Option String)
  currentVersionIndex : Int
  isRegenerating : Bool
  isSending : Bool
  showConfirmation : Bool
  localStorage : String → Option (List (Option String))

/-- The key `reply_history_<id>`. -/
def storageKey (id : String) : String :=
  "reply_history_" ++ id

/-- Source `localStorage.setItem(key, JSON.stringify(value))`. -/
def setItem (key : String) (value : List (Option String))
    (localStorage : String → Option (List (Option String))) :
    String → Option (List (Option String)) :=
  fun k => if k = key then some value else localStorage k

/-- Source `handleRegenerateWithCustomization()`.  `replyHistory` and `selectedEmail` are
the values of the render in which the handler was created; `during` is what other
handlers and tasks do to the session while the call is suspended. -/
def handleRegenerateWithCustomization (toastId : Nat) (d : DraftOutcome)
    (during : Session → Session) (u : Session) : Session :=
  let replyHistory := u.replyHistory
  let u1 := { u with isRegenerating := true }
  match u1.store.selectedEmail with
  | none =>
    let r := regenerateWithBackend toastId d (fun t => t) u1.store
    { u1 with store := r.1, isRegenerating := false }
  | some selectedEmail =>
    let u2 := during u1
    let r := regenerateResume toastId d selectedEmail u1.store.emails u2.store
    let u3 := { u2 with store := r.1 }
    match r.2 with
    | some newReply =>
      let newHistory := replyHistory ++ [some newReply]
      { u3 with
        replyHistory := newHistory,
        currentVersionIndex := (newHistory.length : Int) - 1,
        localStorage := setItem (storageKey selectedEmail.id) newHistory u3.localStorage,
        isRegenerating := false }
    | none => { u3 with isRegenerating := false }

/-! ## Version handlers of the modal (EmailDetailsModal.jsx lines 35-72, 107-172) -/

/-- Source `localStorage.removeItem(key)`. -/
def removeItem (key : String) (localStorage : String → Option (List (Option String))) :
    String → Option (List (Option String)) :=
  fun k => if k = key then none else localStorage k

/-- Source `array[index]`: `undefined` outside the array. -/
def jsGet (array : List (Option String)) (index : Int) : Option String :=
  if index < 0 then none
  else
    match array[index.toNat]? with
    | some v => v
    | none => none

/-- Source `array[index] = value` on a copy of the array: inside the array the entry is
replaced; beyond its end the array grows, the entries in between being empty; a negative
index sets a property and leaves the entries as they are. -/
def jsArraySet (array : List (Option String)) (index : Int) (value : Option String) :
    List (Option String) :=
  if index < 0 then array
  else if index.toNat < array.length then array.set index.toNat value
  else array ++ List.replicate (index.toNat - array.length) none ++ [value]

/-- The effect of lines 35-60, run after a render in which `isModalOpen` or `selectedEmail`
changed.  A stored value is an array written by `setItem`, so `JSON.parse` does not throw
and the `catch` branch of lines 45-51, which does what the `else` branch does, is not
taken. -/
def loadHistoryEffect (u : Session) : Session :=
  match u.store.isModalOpen, u.store.selectedEmail with
  | true, some selectedEmail =>
    match u.localStorage (storageKey selectedEmail.id) with
    | some history =>
      { u with replyHistory := history,
               currentVersionIndex := (history.length : Int) - 1 }
    | none =>
      let initialHistory := [u.store.suggestedReply]
      { u with replyHistory := initialHistory,
               currentVersionIndex := 0,
               localStorage :=
                 setItem (storageKey selectedEmail.id) initialHistory u.localStorage }
  | _, _ => u

/-- The cleanup returned by the effect of lines 63-72; `selectedEmail` is the value of the
render in which that effect ran. -/
def cleanupVersionHistory (selectedEmail : Option Email) (u : Session) : Session :=
  match selectedEmail with
  | some email => { u with localStorage := removeItem (storageKey email.id) u.localStorage }
  | none => u

/-- What follows a write of `selectedEmail` in the store: the render, then the cleanup of
the effect of the previous render, then the effects. `previous` is the selected email of
the previous render. -/
def afterRender (previous : Option Email) (u : Session) : Session :=
  loadHistoryEffect (cleanupVersionHistory previous u)

/-- The operator opens a message: `openModal(email)` and the render that follows. -/
def openReview (email : Email) (u : Session) : Session :=
  afterRender u.store.selectedEmail { u with store := openModal email u.store }

/-- The operator abandons the review: `closeModal()` and the render that follows. -/
def closeReview (u : Session) : Session :=
  afterRender u.store.selectedEmail { u with store := closeModal u.store }

/-- Source `handlePreviousVersion()`. -/
def handlePreviousVersion (u : Session) : Session :=
  if u.currentVersionIndex > 0 then
    let newIndex := u.currentVersionIndex - 1
    { u with currentVersionIndex := newIndex,
             store := updateReply (jsGet u.replyHistory newIndex) u.store }
  else u

/-- Source `handleNextVersion()`. -/
def handleNextVersion (u : Session) : Session :=
  if u.currentVersionIndex < (u.replyHistory.length : Int) - 1 then
    let newIndex := u.currentVersionIndex + 1
    { u with currentVersionIndex := newIndex,
             store := updateReply (jsGet u.replyHistory newIndex) u.store }
  else u

/-- Source `handleReplyChange(newText)`. -/
def handleReplyChange (newText : String) (u : Session) : Session :=
  let u1 := { u with store := updateReply (some newText) u.store }
  let updatedHistory := jsArraySet u.replyHistory u.currentVersionIndex (some newText)
  let u2 := { u1 with replyHistory := updatedHistory }
  match u.store.selectedEmail with
  | some selectedEmail =>
    { u2 with localStorage :=
        setItem (storageKey selectedEmail.id) updatedHistory u2.localStorage }
  | none => u2

/-- Source `confirmSend()`.  `selectedEmail` and `suggestedReply` are the values of the
render in which the handler was created; `duringDelay` is what happens to the session
during the pause of line 159.  `sendReply` starts `sendEmail`, which runs up to its
`await`; the suspended send, if any, is returned with the session. -/
def confirmSend (loadingToastId : Nat) (duringDelay : Session → Session) (u : Session) :
    Session × Option InFlight :=
  match u.store.selectedEmail with
  | none => (u, none)
  | some selectedEmail =>
    let suggestedReply := u.store.suggestedReply
    let u1 := duringDelay { u with isSending := true }
    let started := sendStart loadingToastId selectedEmail.id suggestedReply u1.store
    let store2 :=
      match started with
      | some r => r.2
      | none => u1.store
    let u2 := { u1 with
      store := store2,
      localStorage := removeItem (storageKey selectedEmail.id) u1.localStorage,
      isSending := false,
      showConfirmation := false }
    (closeReview u2, started.map (fun r => r.1))

/-- An operation on the reply versions of an open review. -/
inductive LedgerOp where
  /-- The operator edits the reply text. -/
  | edit (text : String)
  /-- The operator asks for a regeneration, which runs to its end. -/
  | regenerate (toastId : Nat) (d : DraftOutcome)
  /-- The operator goes to the previous version. -/
  | previous
  /-- The operator goes to the next version. -/
  | next
deriving DecidableEq, Repr

/-- Effect of an operation on the session. -/
def applyLedgerOp (op : LedgerOp) (u : Session) : Session :=
  match op with
  | LedgerOp.edit text => handleReplyChange text u
  | LedgerOp.regenerate toastId d => handleRegenerateWithCustomization toastId d (fun v => v) u
  | LedgerOp.previous => handlePreviousVersion u
  | LedgerOp.next => handleNextVersion u

/-- A sequence of operations on the reply versions. -/
def runLedger (ops : List LedgerOp) (u : Session) : Session :=
  ops.foldl (fun v op => applyLedgerOp op v) u

/-- Every stored ledger has at least one entry. -/
def StoredNonEmpty (localStorage : String → Option (List (Option String))) : Prop :=
  ∀ key history, localStorage key = some history → history ≠ []

/-- The regeneration fails: the call throws, the status is not ok, or the body carries no
reply text. -/
def DraftOutcome.failed : DraftOutcome → Bool
  | DraftOutcome.body (some newReply) => newReply == ""
  | _ => true

/-! ## Full refresh with any response body (emailStore.js lines 38-50) -/

/-- What `state.emails` holds after `set({ emails })`: the parsed body, a list of messages
or the object `{ error }` that the backend sends with status 500 (index.js line 73). -/
inductive EmailsValue where
  | list (emails : List Email)
  | errorObject (error : String)
deriving DecidableEq, Repr

/-- Outcome of the fetch and the parse of lines 40-41. -/
inductive OnscreenFetch where
  /-- The promise of `fetch` rejects. -/
  | fetchThrows
  /-- The promise of `res.json()` rejects. -/
  | jsonThrows
  /-- The body parsed to this value. -/
  | body (v : EmailsValue)
deriving DecidableEq, Repr

/-- Source `setEmails()`: the value of `state.emails` afterwards and the return value.
For a body that is a list the write is `setEmailsWrite`. -/
def setEmails (o : OnscreenFetch) (current : EmailsValue) : EmailsValue × EmailsValue :=
  match o with
  | OnscreenFetch.body emails => (emails, emails)
  | _ => (current, EmailsValue.list [])

/-! ## Vocabulary for a message that has left the working set -/

/-- The id is neither in the working set nor in a list held by a suspended poll or
regeneration, and no suspended send holds a message with this id. -/
def IdGone (id : String) (c : Client) : Prop :=
  id ∉ ids c.store.emails ∧
    (∀ snapshot ∈ c.polls, id ∉ ids snapshot) ∧
    (∀ r ∈ c.regens, id ∉ ids r.2) ∧
    (∀ p ∈ c.sends, p.emailToSend.id ≠ id)

/-- The action brings no message with this id from the backend: a refresh list or a poll
batch does not contain it. -/
def Action.avoids (id : String) : Action → Bool
  | Action.refresh emails => !(ids emails).contains id
  | Action.pollWrite _ newMsgs => !(ids newMsgs).contains id
  | _ => true

/-- Text of the error notification of a failed regeneration. -/
def regenerateErrorMessage : DraftOutcome → String
  | DraftOutcome.body _ => "Failed to regenerate reply. No response from AI."
  | _ => "Error regenerating reply. Please try again."

/-- Invariant of the reply versions: the history is not empty, the cursor is an index of
the history, and every stored ledger has at least one entry. -/
def LedgerInv (u : Session) : Prop :=
  u.replyHistory ≠ [] ∧ 0 ≤ u.currentVersionIndex ∧
    u.currentVersionIndex < (u.replyHistory.length : Int) ∧
    StoredNonEmpty u.localStorage

/-! ## Specification-side functions for the merge -/

/-- Specification side: the distinct elements of a list of ids, each kept at its first
occurrence. -/
def firstOccurrences : List String → List String
  | [] => []
  | a :: l => a :: (firstOccurrences l).filter (fun b => b != a)

/-- Specification side: the last entry of a list that carries the given id. -/
def lastWithId (id : String) (l : List Email) : Option Email :=
  l.reverse.find? (fun e => e.id == id)

/-- Keys of a map, in insertion order. -/
def keys (m : List (String × Email)) : List String :=
  m.map (fun kv => kv.1)

/-- Events of a send of a message that is in the working set. -/
def outcomeEvent (d : Delivery) (id : String) : Event :=
  if d = Delivery.body true then Event.sent id else Event.rolledBack id

/-! ## Vocabulary for the batch claims -/

/-- The interference leaves the working set alone. -/
def KeepsEmails (f : Store → Store) : Prop :=
  ∀ t, (f t).emails = t.emails

/-- The interference leaves the `isAutoSending` flag alone. -/
def KeepsFlag (f : Store → Store) : Prop :=
  ∀ t, (f t).isAutoSending = t.isAutoSending

/-- The interference clears the `isAutoSending` flag, as `stopAutoSend` does. -/
def ClearsFlag (f : Store → Store) : Prop :=
  ∀ t, (f t).isAutoSending = false

/-- The delivery for this message fails under the given assignment of outcomes to ids. -/
def failedOf (outcome : String → Delivery) (e : Email) : Bool :=
  decide (outcome e.id ≠ Delivery.body true)

/-- Events of complete sends of the given messages, one after the other, without override:
for each message its request, then its success or its rollback. -/
def sendEvents (outcome : String → Delivery) (l : List Email) : List Event :=
  l.flatMap (fun e => [Event.request e.id e.Reply_of_email, outcomeEvent (outcome e.id) e.id])

/-- Ids of the delivery calls among the events, in order. -/
def requestIds (evs : List Event) : List String :=
  evs.filterMap (fun ev =>
    match ev with
    | Event.request id _ => some id
    | _ => none)

/-- Invariant of the interleaved client: ids of the working set are pairwise distinct, no
suspended send has its id in the working set, suspended sends have pairwise distinct ids and
hold the message with their id, and the lists held by suspended regenerations have pairwise
distinct ids. -/
def ClientInv (c : Client) : Prop :=
  (ids c.store.emails).Nodup ∧
    (∀ p ∈ c.sends, p.id ∉ ids c.store.emails) ∧
    (c.sends.map (fun p => p.id)).Nodup ∧
    (∀ p ∈ c.sends, p.emailToSend.id = p.id) ∧
    (∀ r ∈ c.regens, (ids r.2).Nodup)

/-! ## Example data -/

/-- Message with the given id, sender address and draft. -/
def exampleEmail (id sender : String) (draft : Option String) : Email :=
  { id := id, sender := sender, senderName := "customer", subject := "No Subject",
    customerEmail := "", createdAT := 0, customerEmailSummary := "", Reply_of_email := draft }

/-- Messages A (id 1), B (id 2) and C (id 3). -/
def exampleA : Email := exampleEmail "1" "a@x.com" (some "draft A")

def exampleB : Email := exampleEmail "2" "b@x.com" (some "draft B")

def exampleC : Email := exampleEmail "3" "c@x.com" (some "draft C")

/-- Store whose working set is `[A, B, C]`. -/
def exampleStore : Store :=
  { initialStore with emails := [exampleA, exampleB, exampleC] }

/-- Document of message A as stored, on screen. -/
def exampleDoc : Doc :=
  { _id := "1", client_email := some "a@x.com", email_subject := none, orignal_email := "",
    summaryOfOrignal_email := "", llm_reply := some "draft A", status := "onscreen",
    createdAT := 0 }

/-- Environment with the given delivery outcome and no interference. -/
def quietEnv (d : Delivery) : SendEnv :=
  { loadingToastId := 1, resultToastId := 2, delivery := d, duringFetch := fun t => t }

/-- Assignment of outcomes in which only the delivery for id 2 fails. -/
def exampleOutcome (id : String) : Delivery :=
  if id = "2" then Delivery.jsonThrows else Delivery.body true

/-- Loop environment with the given outcomes and no interference. -/
def quietLoopEnv (outcome : String → Delivery) : Nat → String → LoopEnv :=
  fun i id =>
    { send := { loadingToastId := 2 * i + 1, resultToastId := 2 * i + 2,
                delivery := outcome id, duringFetch := fun t => t },
      duringDelay := fun t => t }

/-- Loop environment in which `stopAutoSend` runs during the delivery call of iteration
number `K` (counted from 0) and nothing else interferes. -/
def stopLoopEnv (outcome : String → Delivery) (K : Nat) : Nat → String → LoopEnv :=
  fun i id =>
    { send := { loadingToastId := 2 * i + 1, resultToastId := 2 * i + 2,
                delivery := outcome id,
                duringFetch := fun t => if i = K then stopAutoSend t else t },
      duringDelay := fun t => t }

/-- Store with a sent message, two pending ones and one on screen. -/
def exampleDb : List Doc :=
  [{ exampleDoc with status := "sent", createdAT := 5 },
   { exampleDoc with _id := "2", client_email := some "b@x.com", status := "pending",
                     createdAT := 9 },
   { exampleDoc with _id := "3", client_email := some "c@x.com", status := "pending",
                     createdAT := 4 },
   { exampleDoc with _id := "4", client_email := some "a@x.com", status := "onscreen",
                     createdAT := 7 }]

/-- Store with two pending messages, the older of which has no `client_email`. -/
def exampleDbNoSender : List Doc :=
  [{ exampleDoc with _id := "2", client_email := some "b@x.com", status := "pending",
                     createdAT := 9 },
   { exampleDoc with _id := "3", client_email := none, status := "pending", createdAT := 4 },
   { exampleDoc with _id := "4", client_email := some "a@x.com", status := "onscreen",
                     createdAT := 7 }]

/-- Session in which message A is open for review with two versions of the reply. -/
def exampleSession : Session :=
  { store := { exampleStore with selectedEmail := some exampleA,
                                 isModalOpen := true,
                                 suggestedReply := some "draft A" },
    replyHistory := [some "draft A", some "second"],
    currentVersionIndex := 0,
    isRegenerating := false,
    isSending := false,
    showConfirmation := false,
    localStorage := fun _ => none }

/-- Session with the working set `[A, B, C]`, no message open and nothing stored. -/
def exampleClosed : Session :=
  { exampleSession with store := exampleStore, replyHistory := [], currentVersionIndex := 0 }

/-- Message A is opened, a regeneration is started, the operator closes the modal while the
Draft Service call is pending, and the call then succeeds with the reply "new". -/
def closedWhileRegenerating : Session :=
  handleRegenerateWithCustomization 9 (DraftOutcome.body (some "new")) closeReview
    (openReview exampleA exampleClosed)

/-- A send request that succeeds for message 4, landing while a sweep is suspended. -/
def sendDuringSweep (db : List Doc) : List Doc :=
  (postSendEmail (WebhookOutcome.response 200 (some { success := true })) "4" none db).db

/-- Store with the single message 1, pending. -/
def examplePending : List Doc :=
  [{ exampleDoc with status := "pending" }]

/-- A second poll that runs from start to end while a first poll is suspended between its
read and its update. -/
def secondPoll (db : List Doc) : List Doc :=
  (getMessagesPending (fun d => d) db).db

/-- A second poll followed by a successful send of message 1, both while a first poll is
suspended between its read and its update. -/
def secondPollThenSend (db : List Doc) : List Doc :=
  (postSendEmail (WebhookOutcome.response 200 (some { success := true })) "1" none
    (secondPoll db)).db

/-- A send of message A that succeeds, landing while another send is suspended. -/
def sendADuring (t : Store) : Store :=
  (sendEmail (quietEnv (Delivery.body true)) "1" none t).1

/-! ## Lemmas on the working set -/

theorem find_eq_none_of_not_mem (id : String) (l : List Email) (h : id ∉ ids l) :
    l.find? (fun e => e.id == id) = none := by
  rw [List.find?_eq_none]
  intro e he hid
  exact h (List.mem_map.mpr ⟨e, he, by simpa using hid⟩)

theorem filter_eq_self_of_not_mem (id : String) (l : List Email) (h : id ∉ ids l) :
    l.filter (fun e => e.id != id) = l := by
  rw [List.filter_eq_self]
  intro e he
  have : e.id ≠ id := fun hid => h (List.mem_map.mpr ⟨e, he, hid⟩)
  simpa using this

theorem restoreAt_succ (n : Nat) (e a : Email) (l : List Email) :
    restoreAt (n + 1) e (a :: l) = a :: restoreAt n e l := by
  simp [restoreAt]

/-- Removing the entry with a given id and re-inserting it at its former index gives the
list back, when ids are pairwise distinct. -/
theorem restoreAt_filter (id : String) (l : List Email) (hnd : (ids l).Nodup)
    (hid : id ∈ ids l) :
    ∃ e, l.find? (fun e => e.id == id) = some e ∧ e.id = id ∧
      restoreAt (l.findIdx (fun e => e.id == id)) e (l.filter (fun e => e.id != id)) = l := by
  induction l with
  | nil => simp [ids] at hid
  | cons a l ih =>
    have hnd2 : a.id ∉ ids l ∧ (ids l).Nodup := by simpa [ids] using hnd
    by_cases ha : a.id = id
    · refine ⟨a, by simp [ha], ha, ?_⟩
      have hnot : id ∉ ids l := ha ▸ hnd2.1
      have hf := filter_eq_self_of_not_mem id l hnot
      simp [List.findIdx_cons, List.filter_cons, ha, hf, restoreAt]
    · have hid2 : id ∈ ids l := by
        have : id = a.id ∨ id ∈ ids l := by simpa [ids] using hid
        rcases this with h | h
        · exact absurd h.symm ha
        · exact h
      obtain ⟨e, hfind, heid, hres⟩ := ih hnd2.2 hid2
      refine ⟨e, by simp [List.find?_cons, ha, hfind], heid, ?_⟩
      have hb : (a.id == id) = false := by simpa using ha
      have hb2 : (a.id != id) = true := by simpa using ha
      rw [List.findIdx_cons, List.filter_cons, hb, hb2]
      simp only [cond_false, ite_true]
      rw [restoreAt_succ, hres]

theorem find_eq_some_of_mem (e : Email) (l : List Email) (hnd : (ids l).Nodup) (he : e ∈ l) :
    l.find? (fun x => x.id == e.id) = some e := by
  induction l with
  | nil => simp at he
  | cons a l ih =>
    have hnd2 : a.id ∉ ids l ∧ (ids l).Nodup := by simpa [ids] using hnd
    rcases List.mem_cons.mp he with h | h
    · subst h
      simp
    · have hne : a.id ≠ e.id := fun hae => hnd2.1 (hae ▸ List.mem_map.mpr ⟨e, h, rfl⟩)
      have hb : (a.id == e.id) = false := by simpa using hne
      rw [List.find?_cons, hb]
      exact ih hnd2.2 h

theorem mem_ids_of_mem {e : Email} {l : List Email} (he : e ∈ l) : e.id ∈ ids l :=
  List.mem_map.mpr ⟨e, he, rfl⟩

/-! ## A single send -/

/-- The first segment of `sendEmail` for a message that is present. -/
theorem sendStart_present (loadingToastId : Nat) (e : Email) (customReplyText : Option String)
    (s : Store) (hnd : (ids s.emails).Nodup) (he : e ∈ s.emails) :
    sendStart loadingToastId e.id customReplyText s =
      some ({ id := e.id, emailToSend := e,
              replyToSend := jsOr customReplyText e.Reply_of_email,
              originalIndex := s.emails.findIdx (fun x => x.id == e.id),
              loadingToastId := loadingToastId },
            (addToast loadingToastId ToastType.loading "Sending email..."
              { s with emails := s.emails.filter (fun x => x.id != e.id) }).2) := by
  simp only [sendStart, find_eq_some_of_mem e s.emails hnd he, addToast]

/-- Working set, flag and events of `sendEmail` for a message that is present, when other
tasks leave the working set alone during the delivery call. -/
theorem sendEmail_present (env : SendEnv) (e : Email) (customReplyText : Option String)
    (s : Store) (hnd : (ids s.emails).Nodup) (he : e ∈ s.emails)
    (hquiet : ∀ t, (env.duringFetch t).emails = t.emails) :
    (sendEmail env e.id customReplyText s).1.emails =
        (if env.delivery = Delivery.body true then
          s.emails.filter (fun x => x.id != e.id) else s.emails) ∧
      (∃ t, t.isAutoSending = s.isAutoSending ∧
        (sendEmail env e.id customReplyText s).1.isAutoSending =
          (env.duringFetch t).isAutoSending) ∧
      (sendEmail env e.id customReplyText s).2 =
        [Event.request e.id (jsOr customReplyText e.Reply_of_email),
          outcomeEvent env.delivery e.id] := by
  obtain ⟨e', hfind', _, hres⟩ := restoreAt_filter e.id s.emails hnd (mem_ids_of_mem he)
  have hfind := find_eq_some_of_mem e s.emails hnd he
  have hee : e' = e := by
    rw [hfind] at hfind'
    exact (Option.some.inj hfind').symm
  subst hee
  have hstart := sendStart_present env.loadingToastId e' customReplyText s hnd he
  simp only [sendEmail, hstart]
  refine ⟨?_, ⟨(addToast env.loadingToastId ToastType.loading "Sending email..."
        { s with emails := s.emails.filter (fun x => x.id != e'.id) }).2, rfl, ?_⟩, ?_⟩
  · cases hd : env.delivery with
    | fetchThrows => simp [sendFinish, sendCatch, removeToast, addToast, hquiet, hres]
    | jsonThrows => simp [sendFinish, sendCatch, removeToast, addToast, hquiet, hres]
    | body b =>
      cases b <;> simp [sendFinish, sendCatch, removeToast, addToast, hquiet, hres]
  · cases hd : env.delivery with
    | fetchThrows => simp [sendFinish, sendCatch, removeToast, addToast]
    | jsonThrows => simp [sendFinish, sendCatch, removeToast, addToast]
    | body b => cases b <;> simp [sendFinish, sendCatch, removeToast, addToast]
  · cases hd : env.delivery with
    | fetchThrows => simp [sendFinish, outcomeEvent]
    | jsonThrows => simp [sendFinish, outcomeEvent]
    | body b => cases b <;> simp [sendFinish, outcomeEvent]

/-! ## Claims on a single send -/

/-- C1: when the delivery fails (the fetch throws, the body does not parse, or the parsed
body has no truthy success flag) and nothing else touches the working set meanwhile, a send
of an id present in a working set with pairwise distinct ids leaves the working set exactly
as it was before the call, entry for entry. -/
theorem sendEmail_failure_restores_working_set (env : SendEnv) (id : String)
    (customReplyText : Option String) (s : Store)
    (hnd : (ids s.emails).Nodup) (hid : id ∈ ids s.emails)
    (hfail : env.delivery ≠ Delivery.body true)
    (hquiet : ∀ t, (env.duringFetch t).emails = t.emails) :
    (sendEmail env id customReplyText s).1.emails = s.emails := by
  obtain ⟨e, he, rfl⟩ := List.mem_map.mp hid
  have h := (sendEmail_present env e customReplyText s hnd he hquiet).1
  rw [h, if_neg hfail]

theorem sendEmail_failure_restores_working_set_witness :
    (sendEmail (quietEnv Delivery.jsonThrows) "2" none exampleStore).1.emails =
      [exampleA, exampleB, exampleC] :=
  sendEmail_failure_restores_working_set (quietEnv Delivery.jsonThrows) "2" none exampleStore
    (by decide) (by decide) (by decide) (fun _ => rfl)

/-- C10: for an id that no entry of the working set carries, `sendEmail` issues no delivery
call and returns the store unchanged: working set, notification queue and `isAutoSending`
flag are as before. -/
theorem sendEmail_absent_id_no_effect (env : SendEnv) (id : String)
    (customReplyText : Option String) (s : Store) (hid : id ∉ ids s.emails) :
    sendEmail env id customReplyText s = (s, []) := by
  simp [sendEmail, sendStart, find_eq_none_of_not_mem id s.emails hid]

theorem sendEmail_absent_id_no_effect_witness :
    sendEmail (quietEnv (Delivery.body true)) "9" (some "text") exampleStore =
      (exampleStore, []) :=
  sendEmail_absent_id_no_effect (quietEnv (Delivery.body true)) "9" (some "text") exampleStore
    (by decide)

/-- C9, counterexample: message A is in the working set with draft "draft A"; sending it
with the empty string as override posts the stored draft, not the override. -/
theorem sendEmail_empty_override_counterexample :
    exampleA ∈ exampleStore.emails ∧
      Event.request "1" (some "") ∉
        (sendEmail (quietEnv (Delivery.body true)) "1" (some "") exampleStore).2 ∧
      (sendEmail (quietEnv (Delivery.body true)) "1" (some "") exampleStore).2 =
        [Event.request "1" (some "draft A"), Event.sent "1"] := by
  decide

/-- C9, amended: for a message of a working set with distinct ids, the reply posted by
`sendEmail(id, override)` is the override when it is a non-empty string, and the message's
stored draft `Reply_of_email` when the override is absent or is the empty string; the
backend route forwards a non-empty posted reply to the webhook as the message's reply. -/
theorem sendEmail_reply_payload (env : SendEnv) (e : Email) (s : Store)
    (hnd : (ids s.emails).Nodup) (he : e ∈ s.emails) :
    (∀ t : String, t ≠ "" →
        (sendEmail env e.id (some t) s).2.head? = some (Event.request e.id (some t))) ∧
      (sendEmail env e.id (some "") s).2.head? = some (Event.request e.id e.Reply_of_email) ∧
      (sendEmail env e.id none s).2.head? = some (Event.request e.id e.Reply_of_email) ∧
      (∀ (w : WebhookOutcome) (db : List Doc) (d : Doc) (t : String), t ≠ "" →
        findOne e.id db = some d →
        (postSendEmail w e.id (some t) db).posted = some { d with llm_reply := some t }) := by
  refine ⟨?_, ?_, ?_, ?_⟩
  · intro t ht
    simp [sendEmail, sendStart_present env.loadingToastId e (some t) s hnd he, jsOr, truthy, ht]
  · simp [sendEmail, sendStart_present env.loadingToastId e (some "") s hnd he, jsOr, truthy]
  · simp [sendEmail, sendStart_present env.loadingToastId e none s hnd he, jsOr, truthy]
  · intro w db d t ht hfind
    have htr : truthy (some t) = true := by simp [truthy, ht]
    unfold postSendEmail
    rw [hfind]
    simp only [htr, if_true]
    cases w with
    | networkError => rfl
    | response st body => cases body <;> rfl

theorem sendEmail_reply_payload_witness :
    (sendEmail (quietEnv Delivery.fetchThrows) "2" (some "edited") exampleStore).2.head? =
        some (Event.request "2" (some "edited")) ∧
      (sendEmail (quietEnv Delivery.fetchThrows) "2" (some "") exampleStore).2.head? =
        some (Event.request "2" (some "draft B")) ∧
      (sendEmail (quietEnv Delivery.fetchThrows) "2" none exampleStore).2.head? =
        some (Event.request "2" (some "draft B")) ∧
      (postSendEmail WebhookOutcome.networkError "2" (some "edited")
          [{ exampleDoc with _id := "2" }]).posted =
        some { exampleDoc with _id := "2", llm_reply := some "edited" } :=
  have h := sendEmail_reply_payload (quietEnv Delivery.fetchThrows) exampleB exampleStore
    (by decide) (by decide)
  ⟨h.1 "edited" (by decide), h.2.1, h.2.2.1,
    h.2.2.2 WebhookOutcome.networkError [{ exampleDoc with _id := "2" }]
      { exampleDoc with _id := "2" } "edited" (by decide) (by decide)⟩

/-! ## Backend send route -/

theorem findOne_updateOne (messageId : String) (f : Doc → Doc) (hf : ∀ d, (f d)._id = d._id)
    (db : List Doc) :
    findOne messageId (updateOne messageId f db) = (findOne messageId db).map f := by
  induction db with
  | nil => rfl
  | cons d rest ih =>
    by_cases h : d._id = messageId
    · have hb : (d._id == messageId) = true := by simpa using h
      have hb2 : ((f d)._id == messageId) = true := by simpa [hf d] using h
      simp [findOne, updateOne, hb, hb2, List.find?_cons]
    · have hb : (d._id == messageId) = false := by simpa using h
      have hu : updateOne messageId f (d :: rest) = d :: updateOne messageId f rest := by
        simp [updateOne, hb]
      rw [hu]
      simp only [findOne, List.find?_cons, hb]
      exact ih

theorem postSendEmail_status_eq (w : WebhookOutcome) (messageId : String)
    (llm_reply : Option String) (db : List Doc) (d : Doc)
    (hfind : findOne messageId db = some d) :
    statusOf messageId (postSendEmail w messageId llm_reply db).db =
      some (if w.parsed then "sent" else d.status) := by
  have h1 : ∀ db1 : List Doc, findOne messageId db1 = some d ∨
      findOne messageId db1 = some { d with llm_reply := llm_reply } →
      statusOf messageId db1 = some d.status := by
    intro db1 h
    rcases h with h | h <;> simp [statusOf, h]
  have hdb1 : findOne messageId (if truthy llm_reply then
        updateOne messageId (fun d => { d with llm_reply := llm_reply }) db else db) = some d ∨
      findOne messageId (if truthy llm_reply then
        updateOne messageId (fun d => { d with llm_reply := llm_reply }) db else db) =
        some { d with llm_reply := llm_reply } := by
    by_cases ht : truthy llm_reply = true
    · right
      rw [if_pos ht,
        findOne_updateOne messageId (fun d => { d with llm_reply := llm_reply }) (fun _ => rfl),
        hfind]
      rfl
    · left
      rw [if_neg ht, hfind]
  unfold postSendEmail
  rw [hfind]
  cases w with
  | networkError => simpa [WebhookOutcome.parsed] using h1 _ hdb1
  | response st body =>
    cases body with
    | none => simpa [WebhookOutcome.parsed] using h1 _ hdb1
    | some result =>
      simp only [WebhookOutcome.parsed, if_true, statusOf]
      rw [findOne_updateOne messageId (fun d => { d with status := "sent" }) (fun _ => rfl)]
      rcases hdb1 with h | h <;> simp [h]

/-- C8, counterexample: the webhook answers with HTTP status 500 and a JSON body whose
success flag is false, which is no report of success; the stored message was on screen and
is marked sent all the same. -/
theorem postSendEmail_failed_delivery_counterexample :
    (WebhookOutcome.response 500 (some { success := false })).reportedSuccess = false ∧
      statusOf "1" [exampleDoc] = some "onscreen" ∧
      statusOf "1"
        (postSendEmail (WebhookOutcome.response 500 (some { success := false })) "1" none
          [exampleDoc]).db = some "sent" := by
  decide

/-- C8, amended: for a send request for a message present in the store, the status of the
message afterwards is `sent` when the webhook call returned a response whose body parses as
JSON, whatever its HTTP status and success flag, and it is the status before the request
when the call throws a network error or the body does not parse.  So for a message that was
not sent before the request, the status afterwards is `sent` if and only if the body of the
response parses. -/
theorem postSendEmail_status (w : WebhookOutcome) (messageId : String)
    (llm_reply : Option String) (db : List Doc) (d : Doc)
    (hfind : findOne messageId db = some d) :
    statusOf messageId (postSendEmail w messageId llm_reply db).db =
        some (if w.parsed then "sent" else d.status) ∧
      (d.status ≠ "sent" →
        (statusOf messageId (postSendEmail w messageId llm_reply db).db = some "sent" ↔
          w.parsed = true)) := by
  have hmain : statusOf messageId (postSendEmail w messageId llm_reply db).db =
      some (if w.parsed then "sent" else d.status) := by
    exact postSendEmail_status_eq w messageId llm_reply db d hfind
  refine ⟨hmain, ?_⟩
  intro hns
  rw [hmain]
  by_cases hp : w.parsed = true
  · simp [hp]
  · simp [hp, hns]

theorem postSendEmail_status_witness :
    statusOf "1" (postSendEmail (WebhookOutcome.response 200 none) "1" (some "edited")
        [exampleDoc]).db =
      some (if (WebhookOutcome.response 200 none).parsed then "sent" else exampleDoc.status) :=
  (postSendEmail_status (WebhookOutcome.response 200 none) "1" (some "edited") [exampleDoc]
    exampleDoc (by decide)).1

/-! ## The merge by id -/

theorem firstOccurrences_cons (a : String) (l : List String) :
    firstOccurrences (a :: l) = a :: (firstOccurrences l).filter (fun b => b != a) :=
  rfl

theorem mem_firstOccurrences (a : String) (l : List String) :
    a ∈ firstOccurrences l ↔ a ∈ l := by
  induction l with
  | nil => simp [firstOccurrences]
  | cons b l ih =>
    simp only [firstOccurrences, List.mem_cons, List.mem_filter, ih, bne_iff_ne, ne_eq]
    constructor
    · rintro (h | ⟨h, _⟩)
      · exact Or.inl h
      · exact Or.inr h
    · rintro (h | h)
      · exact Or.inl h
      · by_cases hab : a = b
        · exact Or.inl hab
        · exact Or.inr ⟨h, hab⟩

theorem nodup_firstOccurrences (l : List String) : (firstOccurrences l).Nodup := by
  induction l with
  | nil => simp [firstOccurrences]
  | cons b l ih =>
    simp only [firstOccurrences, List.nodup_cons, List.mem_filter, bne_self_eq_false,
      Bool.false_eq_true, and_false, not_false_eq_true, true_and]
    exact ih.filter _

theorem firstOccurrences_of_nodup (l : List String) (h : l.Nodup) : firstOccurrences l = l := by
  induction l with
  | nil => rfl
  | cons b l ih =>
    have h2 : b ∉ l ∧ l.Nodup := List.nodup_cons.mp h
    simp only [firstOccurrences, ih h2.2]
    congr 1
    rw [List.filter_eq_self]
    intro a ha
    have : a ≠ b := fun hab => h2.1 (hab ▸ ha)
    simpa using this

theorem firstOccurrences_append (l1 l2 : List String) :
    firstOccurrences (l1 ++ l2) =
      firstOccurrences l1 ++ (firstOccurrences l2).filter (fun k => decide (k ∉ l1)) := by
  induction l1 with
  | nil => simp [firstOccurrences]
  | cons a l1 ih =>
    show firstOccurrences (a :: (l1 ++ l2)) = _
    rw [firstOccurrences_cons, ih, firstOccurrences_cons, List.filter_append,
      List.filter_filter, List.cons_append]
    congr 2
    apply List.filter_congr
    intro x _
    by_cases hxa : x = a <;> simp [hxa]

theorem keys_mapSet (m : List (String × Email)) (k : String) (v : Email) :
    keys (mapSet m k v) = if k ∈ keys m then keys m else keys m ++ [k] := by
  induction m with
  | nil => simp [mapSet, keys]
  | cons kv rest ih =>
    obtain ⟨k', v'⟩ := kv
    by_cases h : k' = k
    · subst h
      simp [mapSet, keys]
    · have hb : (k' == k) = false := by simpa using h
      have hne : ¬ k = k' := fun hk => h hk.symm
      have hu : mapSet ((k', v') :: rest) k v = (k', v') :: mapSet rest k v := by
        simp [mapSet, hb]
      rw [hu]
      show k' :: keys (mapSet rest k v) = _
      rw [ih]
      by_cases hm : k ∈ keys rest
      · have hm2 : k ∈ keys ((k', v') :: rest) := List.mem_cons_of_mem _ hm
        rw [if_pos hm, if_pos hm2]
        rfl
      · have hm2 : k ∉ keys ((k', v') :: rest) := by
          intro hc
          rcases List.mem_cons.mp hc with h1 | h1
          · exact hne h1
          · exact hm h1
        rw [if_neg hm, if_neg hm2]
        rfl

theorem mapSet_of_not_mem (m : List (String × Email)) (k : String) (v : Email)
    (h : k ∉ keys m) : mapSet m k v = m ++ [(k, v)] := by
  induction m with
  | nil => rfl
  | cons kv rest ih =>
    obtain ⟨k', v'⟩ := kv
    have h2 : ¬ k = k' ∧ k ∉ keys rest := by simpa [keys] using h
    have hb : (k' == k) = false := by simpa using fun hk : k' = k => h2.1 hk.symm
    simp [mapSet, hb, ih h2.2]

theorem mapSet_of_mem (m : List (String × Email)) (k : String) (v : Email)
    (hnd : (keys m).Nodup) (h : (k, v) ∈ m) : mapSet m k v = m := by
  induction m with
  | nil => simp at h
  | cons kv rest ih =>
    obtain ⟨k', v'⟩ := kv
    have hnd2 : k' ∉ keys rest ∧ (keys rest).Nodup := by simpa [keys] using hnd
    by_cases hk : k' = k
    · subst hk
      rcases List.mem_cons.mp h with h1 | h1
      · have hv : v = v' := by injection h1
        simp [mapSet, hv]
      · exact absurd (List.mem_map.mpr ⟨(k', v), h1, rfl⟩) hnd2.1
    · have hb : (k' == k) = false := by simpa using hk
      rcases List.mem_cons.mp h with h1 | h1
      · exact absurd (by injection h1 with h2 _; exact h2.symm) hk
      · simp [mapSet, hb, ih hnd2.2 h1]

theorem mem_mapSet (m : List (String × Email)) (k : String) (v : Email)
    (hnd : (keys m).Nodup) (kv : String × Email) (h : kv ∈ mapSet m k v) :
    kv = (k, v) ∨ (kv ∈ m ∧ kv.1 ≠ k) := by
  induction m with
  | nil =>
    left
    simpa [mapSet] using h
  | cons kv0 rest ih =>
    obtain ⟨k', v'⟩ := kv0
    have hnd2 : k' ∉ keys rest ∧ (keys rest).Nodup := by simpa [keys] using hnd
    by_cases hk : k' = k
    · subst hk
      have hb : (k' == k') = true := by simp
      rw [mapSet, if_pos hb] at h
      rcases List.mem_cons.mp h with h1 | h1
      · exact Or.inl h1
      · right
        refine ⟨List.mem_cons_of_mem _ h1, ?_⟩
        intro hkv
        exact hnd2.1 (hkv ▸ List.mem_map.mpr ⟨kv, h1, rfl⟩)
    · have hb : ¬ (k' == k) = true := by simpa using hk
      rw [mapSet, if_neg hb] at h
      rcases List.mem_cons.mp h with h1 | h1
      · right
        subst h1
        exact ⟨List.mem_cons_self _ _, hk⟩
      · rcases ih hnd2.2 h1 with h2 | ⟨h2, h3⟩
        · exact Or.inl h2
        · exact Or.inr ⟨List.mem_cons_of_mem _ h2, h3⟩

theorem mapOfEntries_snoc (es : List (String × Email)) (kv : String × Email) :
    mapOfEntries (es ++ [kv]) = mapSet (mapOfEntries es) kv.1 kv.2 := by
  simp [mapOfEntries, List.foldl_append]

theorem lastWithId_snoc (id : String) (l : List Email) (e : Email) :
    lastWithId id (l ++ [e]) = if e.id = id then some e else lastWithId id l := by
  by_cases h : e.id = id <;> simp [lastWithId, List.find?_cons, h]

/-- The map built on line 64: its keys are the distinct ids in order of first occurrence,
and each key holds the last entry with that id. -/
theorem mapOfEntries_spec (l : List Email) :
    keys (mapOfEntries (l.map (fun e => (e.id, e)))) = firstOccurrences (ids l) ∧
      ∀ kv ∈ mapOfEntries (l.map (fun e => (e.id, e))), lastWithId kv.1 l = some kv.2 := by
  induction l using List.reverseRecOn with
  | nil => simp [mapOfEntries, keys, ids, firstOccurrences]
  | append_singleton l e ih =>
    obtain ⟨ihk, ihv⟩ := ih
    have hnd : (keys (mapOfEntries (l.map (fun e => (e.id, e))))).Nodup := by
      rw [ihk]
      exact nodup_firstOccurrences _
    rw [List.map_append, List.map_singleton, mapOfEntries_snoc]
    constructor
    · have hsn : ids (l ++ [e]) = ids l ++ [e.id] := by simp [ids]
      rw [keys_mapSet, ihk, hsn, firstOccurrences_append]
      by_cases hm : e.id ∈ ids l
      · rw [if_pos ((mem_firstOccurrences _ _).mpr hm)]
        simp [firstOccurrences, hm]
      · rw [if_neg (fun hc => hm ((mem_firstOccurrences _ _).mp hc))]
        simp [firstOccurrences, hm]
    · intro kv hkv
      rw [lastWithId_snoc]
      rcases mem_mapSet _ _ _ hnd kv hkv with h | ⟨h, hne⟩
      · subst h
        simp
      · have hne2 : ¬ e.id = kv.1 := fun h2 => hne h2.symm
        rw [if_neg hne2]
        exact ihv kv h

theorem lastWithId_id (id : String) (l : List Email) (e : Email)
    (h : lastWithId id l = some e) : e.id = id := by
  have := List.find?_some h
  simpa using this

/-- Ids and contents of the deduplicated list of line 64. -/
theorem uniqueEmails_spec (l : List Email) :
    ids (uniqueEmails l) = firstOccurrences (ids l) ∧
      ∀ e ∈ uniqueEmails l, lastWithId e.id l = some e := by
  obtain ⟨hk, hv⟩ := mapOfEntries_spec l
  have hid : ∀ kv ∈ mapOfEntries (l.map (fun e => (e.id, e))), kv.2.id = kv.1 :=
    fun kv hkv => lastWithId_id _ _ _ (hv kv hkv)
  constructor
  · rw [← hk]
    simp only [ids, uniqueEmails, keys, List.map_map]
    apply List.map_congr_left
    intro kv hkv
    exact hid kv hkv
  · intro e he
    obtain ⟨kv, hkv, rfl⟩ := List.mem_map.mp he
    rw [hid kv hkv]
    exact hv kv hkv

theorem nodup_ids_uniqueEmails (l : List Email) : (ids (uniqueEmails l)).Nodup := by
  rw [(uniqueEmails_spec l).1]
  exact nodup_firstOccurrences _

theorem keys_entries (l : List Email) : keys (l.map (fun e => (e.id, e))) = ids l := by
  simp [keys, ids, List.map_map, Function.comp_def]

theorem mapOfEntries_of_nodup (l : List Email) (hnd : (ids l).Nodup) :
    mapOfEntries (l.map (fun e => (e.id, e))) = l.map (fun e => (e.id, e)) := by
  induction l using List.reverseRecOn with
  | nil => rfl
  | append_singleton l e ih =>
    have hsn : ids (l ++ [e]) = ids l ++ [e.id] := by simp [ids]
    rw [hsn] at hnd
    have hnd1 : (ids l).Nodup := (List.nodup_append.mp hnd).1
    have hnot : e.id ∉ ids l := fun hc =>
      (List.nodup_append.mp hnd).2.2 hc (List.mem_singleton_self _)
    rw [List.map_append, List.map_singleton, mapOfEntries_snoc, ih hnd1]
    exact mapSet_of_not_mem _ _ _ (by rw [keys_entries]; exact hnot)

theorem foldl_mapSet_of_subset (m es : List (String × Email)) (hnd : (keys m).Nodup)
    (hsub : ∀ kv ∈ es, kv ∈ m) :
    es.foldl (fun m kv => mapSet m kv.1 kv.2) m = m := by
  induction es with
  | nil => rfl
  | cons kv es ih =>
    rw [List.foldl_cons, mapSet_of_mem m kv.1 kv.2 hnd (hsub kv (List.mem_cons_self _ _))]
    exact ih (fun x hx => hsub x (List.mem_cons_of_mem _ hx))

theorem uniqueEmails_self (l : List Email) (hnd : (ids l).Nodup) :
    uniqueEmails (l ++ l) = l := by
  have h1 := mapOfEntries_of_nodup l hnd
  have h2 : mapOfEntries ((l ++ l).map (fun e => (e.id, e))) = l.map (fun e => (e.id, e)) := by
    rw [List.map_append]
    unfold mapOfEntries at h1 ⊢
    rw [List.foldl_append, h1]
    exact foldl_mapSet_of_subset _ _ (by rw [keys_entries]; exact hnd) (fun _ h => h)
  unfold uniqueEmails
  rw [h2, List.map_map]
  simp [Function.comp_def]

/-! ## Claims on the poll merge -/

/-- C6: for a working set E with pairwise distinct ids and a polled batch B, with nothing
else writing the working set meanwhile: if B is empty the working set is unchanged;
otherwise its ids afterwards are the ids of E in their order followed by the ids of B that
are not in E, in order of first occurrence in B, and every entry is the last entry of
E ++ B that carries its id. -/
theorem fetchNewEmails_merge (B : List Email) (duringFetch : Store → Store) (s : Store)
    (hnd : (ids s.emails).Nodup) (hquiet : ∀ t, (duringFetch t).emails = t.emails) :
    (B = [] → (fetchNewEmails (some B) duringFetch s).emails = s.emails) ∧
      (B ≠ [] →
        ids (fetchNewEmails (some B) duringFetch s).emails =
            ids s.emails ++
              (firstOccurrences (ids B)).filter (fun k => decide (k ∉ ids s.emails)) ∧
          ∀ e ∈ (fetchNewEmails (some B) duringFetch s).emails,
            lastWithId e.id (s.emails ++ B) = some e) := by
  constructor
  · intro hB
    subst hB
    simp [fetchNewEmails, fetchNewEmailsWrite, hquiet]
  · intro hB
    have hlen : B.length > 0 := List.length_pos.mpr hB
    have hem : (fetchNewEmails (some B) duringFetch s).emails = uniqueEmails (s.emails ++ B) := by
      simp [fetchNewEmails, fetchNewEmailsWrite, hlen]
    rw [hem]
    obtain ⟨hk, hv⟩ := uniqueEmails_spec (s.emails ++ B)
    refine ⟨?_, hv⟩
    have happ : ids (s.emails ++ B) = ids s.emails ++ ids B := by simp [ids]
    rw [hk, happ, firstOccurrences_append, firstOccurrences_of_nodup _ hnd]

theorem fetchNewEmails_merge_witness :
    ids (fetchNewEmails (some [exampleC, { exampleA with subject := "updated" }, exampleC])
          (fun t => t) { initialStore with emails := [exampleA, exampleB] }).emails =
        ["1", "2", "3"] ∧
      lastWithId "1" ([exampleA, exampleB] ++
          [exampleC, { exampleA with subject := "updated" }, exampleC]) =
        some { exampleA with subject := "updated" } :=
  have h := (fetchNewEmails_merge [exampleC, { exampleA with subject := "updated" }, exampleC]
    (fun t => t) { initialStore with emails := [exampleA, exampleB] } (by decide)
    (fun _ => rfl)).2 (by decide)
  ⟨h.1, h.2 { exampleA with subject := "updated" } (by decide)⟩

/-- C7: merge(S, S) = S.  For a working set S with pairwise distinct ids, a poll whose
batch is S itself leaves the working set equal to S: same entries, same order, same
length. -/
theorem fetchNewEmails_self (duringFetch : Store → Store) (s : Store)
    (hnd : (ids s.emails).Nodup) (hquiet : ∀ t, (duringFetch t).emails = t.emails) :
    (fetchNewEmails (some s.emails) duringFetch s).emails = s.emails := by
  by_cases hlen : s.emails.length > 0
  · simp [fetchNewEmails, fetchNewEmailsWrite, hlen, uniqueEmails_self s.emails hnd]
  · simp [fetchNewEmails, fetchNewEmailsWrite, hlen, hquiet]

theorem fetchNewEmails_self_witness :
    (fetchNewEmails (some exampleStore.emails) (fun t => t) exampleStore).emails =
      exampleStore.emails :=
  fetchNewEmails_self (fun t => t) exampleStore (by decide) (fun _ => rfl)

/-! ## The auto-send loop -/

theorem filter_ne_of_nodup (kept rest : List Email) (e : Email)
    (hnd : (ids (kept ++ e :: rest)).Nodup) :
    (kept ++ e :: rest).filter (fun x => x.id != e.id) = kept ++ rest := by
  have happ : ids (kept ++ e :: rest) = ids kept ++ e.id :: ids rest := by simp [ids]
  rw [happ] at hnd
  have h1 := List.nodup_append.mp hnd
  have h2 : e.id ∉ ids rest := (List.nodup_cons.mp h1.2.1).1
  have h3 : e.id ∉ ids kept := fun hc => h1.2.2 hc (List.mem_cons_self _ _)
  rw [List.filter_append, List.filter_cons, filter_eq_self_of_not_mem e.id kept h3,
    filter_eq_self_of_not_mem e.id rest h2]
  simp

theorem requestIds_sendEvents (outcome : String → Delivery) (l : List Email) :
    requestIds (sendEvents outcome l) = ids l := by
  induction l with
  | nil => rfl
  | cons e l ih =>
    have ih2 : List.filterMap (fun ev =>
        match ev with
        | Event.request id _ => some id
        | _ => none) (sendEvents outcome l) = ids l := ih
    unfold outcomeEvent at *
    by_cases hd : outcome e.id = Delivery.body true <;>
      simp [requestIds, sendEvents, ids, hd, outcomeEvent] at ih2 ⊢ <;> exact ih2

theorem autoSendLoop_stopped (env : Nat → String → LoopEnv) (i : Nat) (l : List String)
    (s : Store) (h : s.isAutoSending = false) : autoSendLoop env i l s = (s, []) := by
  cases l with
  | nil => rfl
  | cons id rest => simp [autoSendLoop, h]

/-- One iteration of the loop on a message that is in the working set. -/
theorem autoSendLoop_cons (env : Nat → String → LoopEnv) (outcome : String → Delivery)
    (i : Nat) (l : List String) (kept rest : List Email) (e : Email) (s : Store)
    (hem : s.emails = kept ++ e :: rest) (hnd : (ids (kept ++ e :: rest)).Nodup)
    (hflag : s.isAutoSending = true)
    (hout : (env i e.id).send.delivery = outcome e.id)
    (hf : KeepsEmails (env i e.id).send.duringFetch) :
    ∃ r1 : Store,
      autoSendLoop env i (e.id :: l) s =
          ((autoSendLoop env (i + 1) l ((env i e.id).duringDelay r1)).1,
            sendEvents outcome [e] ++
              (autoSendLoop env (i + 1) l ((env i e.id).duringDelay r1)).2) ∧
        r1.emails = (kept ++ [e].filter (failedOf outcome)) ++ rest ∧
        ∃ t : Store, t.isAutoSending = true ∧
          r1.isAutoSending = ((env i e.id).send.duringFetch t).isAutoSending := by
  have hmem : e ∈ s.emails := by rw [hem]; simp
  have hnd2 : (ids s.emails).Nodup := by rw [hem]; exact hnd
  obtain ⟨h1, ⟨t, ht, hfl⟩, h3⟩ := sendEmail_present (env i e.id).send e none s hnd2 hmem hf
  refine ⟨(sendEmail (env i e.id).send e.id none s).1, ?_, ?_, t, ht.trans hflag, hfl⟩
  · rw [autoSendLoop]
    simp only [hflag, Bool.not_true, Bool.false_eq_true, if_false]
    rw [h3, hout]
    simp [sendEvents, jsOr, truthy]
  · rw [h1, hout, hem, filter_ne_of_nodup kept rest e hnd]
    by_cases hs : outcome e.id = Delivery.body true
    · simp [hs, failedOf]
    · simp [hs, failedOf]

theorem nodup_ids_after_send (outcome : String → Delivery) (kept rest : List Email) (e : Email)
    (hnd : (ids (kept ++ e :: rest)).Nodup) :
    (ids ((kept ++ [e].filter (failedOf outcome)) ++ rest)).Nodup := by
  by_cases hfail : failedOf outcome e = true
  · simpa [List.filter_cons, hfail] using hnd
  · have hsub : List.Sublist (ids (kept ++ rest)) (ids (kept ++ e :: rest)) := by
      apply List.Sublist.map
      exact List.Sublist.append_left (List.sublist_cons_self e rest) kept
    simpa [List.filter_cons, hfail] using hnd.sublist hsub

/-- The loop when nothing interferes: every message of the snapshot is sent in turn, and
the failed ones are back in place. -/
theorem autoSendLoop_quiet (env : Nat → String → LoopEnv) (outcome : String → Delivery)
    (hout : ∀ i id, (env i id).send.delivery = outcome id)
    (hfe : ∀ i id, KeepsEmails (env i id).send.duringFetch)
    (hde : ∀ i id, KeepsEmails (env i id).duringDelay)
    (hff : ∀ i id, KeepsFlag (env i id).send.duringFetch)
    (hdf : ∀ i id, KeepsFlag (env i id).duringDelay)
    (rest : List Email) :
    ∀ (kept : List Email) (i : Nat) (s : Store), s.emails = kept ++ rest →
      (ids (kept ++ rest)).Nodup → s.isAutoSending = true →
      (autoSendLoop env i (ids rest) s).1.emails = kept ++ rest.filter (failedOf outcome) ∧
        (autoSendLoop env i (ids rest) s).1.isAutoSending = true ∧
        (autoSendLoop env i (ids rest) s).2 = sendEvents outcome rest := by
  induction rest with
  | nil =>
    intro kept i s hem _ hflag
    simp [ids, autoSendLoop, hem, hflag, sendEvents]
  | cons e rest ih =>
    intro kept i s hem hnd hflag
    obtain ⟨r1, heq, hr1, t, ht, hfl⟩ :=
      autoSendLoop_cons env outcome i (ids rest) kept rest e s hem hnd hflag (hout i e.id)
        (hfe i e.id)
    have hs2e : ((env i e.id).duringDelay r1).emails =
        (kept ++ [e].filter (failedOf outcome)) ++ rest := by rw [hde i e.id r1, hr1]
    have hs2f : ((env i e.id).duringDelay r1).isAutoSending = true := by
      rw [hdf i e.id r1, hfl, hff i e.id t, ht]
    obtain ⟨ih1, ih2, ih3⟩ :=
      ih _ (i + 1) _ hs2e (nodup_ids_after_send outcome kept rest e hnd) hs2f
    have hids : ids (e :: rest) = e.id :: ids rest := rfl
    rw [hids, heq]
    refine ⟨?_, ih2, ?_⟩
    · rw [ih1]
      by_cases hfail : failedOf outcome e = true <;> simp [List.filter_cons, hfail]
    · rw [ih3]
      simp [sendEvents]

/-- The loop when the flag is cleared during iteration number `K` (counted from 0) and
nothing else interferes: the sends up to that iteration run to completion, none follows. -/
theorem autoSendLoop_stop (env : Nat → String → LoopEnv) (outcome : String → Delivery)
    (K : Nat)
    (hout : ∀ i id, (env i id).send.delivery = outcome id)
    (hfe : ∀ i id, KeepsEmails (env i id).send.duringFetch)
    (hde : ∀ i id, KeepsEmails (env i id).duringDelay)
    (hff : ∀ i id, i < K → KeepsFlag (env i id).send.duringFetch)
    (hdf : ∀ i id, i < K → KeepsFlag (env i id).duringDelay)
    (hstop : ∀ id, (ClearsFlag (env K id).send.duringFetch ∧ KeepsFlag (env K id).duringDelay) ∨
      ClearsFlag (env K id).duringDelay)
    (rest : List Email) :
    ∀ (kept : List Email) (i : Nat) (s : Store), s.emails = kept ++ rest →
      (ids (kept ++ rest)).Nodup → s.isAutoSending = true → i ≤ K → K - i < rest.length →
      (autoSendLoop env i (ids rest) s).1.emails =
          kept ++ (rest.take (K - i + 1)).filter (failedOf outcome) ++ rest.drop (K - i + 1) ∧
        (autoSendLoop env i (ids rest) s).1.isAutoSending = false ∧
        (autoSendLoop env i (ids rest) s).2 = sendEvents outcome (rest.take (K - i + 1)) := by
  induction rest with
  | nil =>
    intro kept i s _ _ _ _ hlen
    simp at hlen
  | cons e rest ih =>
    intro kept i s hem hnd hflag hiK hlen
    obtain ⟨r1, heq, hr1, t, ht, hfl⟩ :=
      autoSendLoop_cons env outcome i (ids rest) kept rest e s hem hnd hflag (hout i e.id)
        (hfe i e.id)
    have hs2e : ((env i e.id).duringDelay r1).emails =
        (kept ++ [e].filter (failedOf outcome)) ++ rest := by rw [hde i e.id r1, hr1]
    have hids : ids (e :: rest) = e.id :: ids rest := rfl
    rw [hids, heq]
    rcases Nat.lt_or_ge i K with hlt | hge
    · have hs2f : ((env i e.id).duringDelay r1).isAutoSending = true := by
        rw [hdf i e.id hlt r1, hfl, hff i e.id hlt t, ht]
      have hlen2 : K - (i + 1) < rest.length := by
        simp only [List.length_cons] at hlen
        omega
      obtain ⟨ih1, ih2, ih3⟩ :=
        ih _ (i + 1) _ hs2e (nodup_ids_after_send outcome kept rest e hnd) hs2f hlt hlen2
      have hn : K - i + 1 = (K - (i + 1) + 1) + 1 := by omega
      rw [hn, List.take_succ_cons, List.drop_succ_cons]
      refine ⟨?_, ih2, ?_⟩
      · rw [ih1]
        by_cases hfail : failedOf outcome e = true <;> simp [List.filter_cons, hfail]
      · rw [ih3]
        simp [sendEvents]
    · have hiK2 : i = K := Nat.le_antisymm hiK hge
      subst hiK2
      have hs2f : ((env i e.id).duringDelay r1).isAutoSending = false := by
        rcases hstop e.id with ⟨hc, hk⟩ | hc
        · rw [hk r1, hfl, hc t]
        · exact hc r1
      rw [autoSendLoop_stopped env (i + 1) (ids rest) _ hs2f]
      have hn : i - i + 1 = 0 + 1 := by omega
      rw [hn, List.take_succ_cons, List.drop_succ_cons]
      refine ⟨?_, hs2f, ?_⟩
      · simp [hs2e]
      · simp

theorem autoSendAllEmails_nonempty (guardToastId : Nat) (env : Nat → String → LoopEnv)
    (s : Store) (hne : s.emails ≠ []) :
    autoSendAllEmails guardToastId env s =
      ({ (autoSendLoop env 0 (ids s.emails) { s with isAutoSending := true }).1 with
          isAutoSending := false },
        (autoSendLoop env 0 (ids s.emails) { s with isAutoSending := true }).2) := by
  have hlen : ¬ s.emails.length = 0 := fun h => hne (List.length_eq_zero.mp h)
  simp [autoSendAllEmails, hlen, ids]

/-! ## Claims on the auto-send batch -/

/-- C2: for a working set with pairwise distinct ids and any assignment of a delivery
outcome to each id, an uncancelled `autoSendAllEmails` with no interference ends with the
working set equal to the messages whose delivery failed, in their original order; it is
empty when every delivery succeeds, and it is `[B]` for `[A, B, C]` with only B failing. -/
theorem autoSendAllEmails_keeps_failed (guardToastId : Nat) (env : Nat → String → LoopEnv)
    (outcome : String → Delivery) (s : Store) (hnd : (ids s.emails).Nodup)
    (hout : ∀ i id, (env i id).send.delivery = outcome id)
    (hfe : ∀ i id, KeepsEmails (env i id).send.duringFetch)
    (hde : ∀ i id, KeepsEmails (env i id).duringDelay)
    (hff : ∀ i id, KeepsFlag (env i id).send.duringFetch)
    (hdf : ∀ i id, KeepsFlag (env i id).duringDelay) :
    (autoSendAllEmails guardToastId env s).1.emails = s.emails.filter (failedOf outcome) ∧
      ((∀ id, outcome id = Delivery.body true) →
        (autoSendAllEmails guardToastId env s).1.emails = []) ∧
      (s.emails = [exampleA, exampleB, exampleC] →
        (∀ id, outcome id = Delivery.body true ↔ id ≠ "2") →
        (autoSendAllEmails guardToastId env s).1.emails = [exampleB]) := by
  have hmain : (autoSendAllEmails guardToastId env s).1.emails =
      s.emails.filter (failedOf outcome) := by
    by_cases hne : s.emails = []
    · simp [autoSendAllEmails, hne, addToast]
    · rw [autoSendAllEmails_nonempty guardToastId env s hne]
      have h := autoSendLoop_quiet env outcome hout hfe hde hff hdf s.emails [] 0
        { s with isAutoSending := true } rfl hnd rfl
      simpa using h.1
  refine ⟨hmain, ?_, ?_⟩
  · intro hall
    rw [hmain, List.filter_eq_nil_iff]
    intro e _
    simp [failedOf, hall e.id]
  · intro hs hB
    rw [hmain, hs]
    have h1 : failedOf outcome exampleA = false := by
      simp only [failedOf, decide_eq_false_iff_not, not_not]
      exact (hB _).mpr (by decide)
    have h2 : failedOf outcome exampleB = true := by
      simp only [failedOf, decide_eq_true_eq]
      exact fun hc => (hB _).mp hc rfl
    have h3 : failedOf outcome exampleC = false := by
      simp only [failedOf, decide_eq_false_iff_not, not_not]
      exact (hB _).mpr (by decide)
    simp [List.filter_cons, h1, h2, h3]

theorem exampleOutcome_iff (id : String) : exampleOutcome id = Delivery.body true ↔ id ≠ "2" := by
  by_cases h : id = "2" <;> simp [exampleOutcome, h]

theorem autoSendAllEmails_keeps_failed_witness :
    (autoSendAllEmails 0 (quietLoopEnv exampleOutcome) exampleStore).1.emails = [exampleB] :=
  (autoSendAllEmails_keeps_failed 0 (quietLoopEnv exampleOutcome) exampleOutcome exampleStore
    (by decide) (fun _ _ => rfl) (fun _ _ _ => rfl) (fun _ _ _ => rfl) (fun _ _ _ => rfl)
    (fun _ _ _ => rfl)).2.2 rfl exampleOutcome_iff

/-- C3: for a non-empty working set with pairwise distinct ids and any assignment of
delivery outcomes, the delivery calls of an uncancelled `autoSendAllEmails` are exactly the
ids of the working set at batch start, in that order, one call per id; the events are, for
each message in turn, its request followed by its success or its rollback, so a send has
completed (rollback included) before the next request is issued, and a failure does not
stop the later sends. -/
theorem autoSendAllEmails_calls_in_order (guardToastId : Nat) (env : Nat → String → LoopEnv)
    (outcome : String → Delivery) (s : Store) (hne : s.emails ≠ [])
    (hnd : (ids s.emails).Nodup)
    (hout : ∀ i id, (env i id).send.delivery = outcome id)
    (hfe : ∀ i id, KeepsEmails (env i id).send.duringFetch)
    (hde : ∀ i id, KeepsEmails (env i id).duringDelay)
    (hff : ∀ i id, KeepsFlag (env i id).send.duringFetch)
    (hdf : ∀ i id, KeepsFlag (env i id).duringDelay) :
    requestIds (autoSendAllEmails guardToastId env s).2 = ids s.emails ∧
      (autoSendAllEmails guardToastId env s).2 = sendEvents outcome s.emails := by
  have h := autoSendLoop_quiet env outcome hout hfe hde hff hdf s.emails [] 0
    { s with isAutoSending := true } rfl hnd rfl
  have hev : (autoSendAllEmails guardToastId env s).2 = sendEvents outcome s.emails := by
    rw [autoSendAllEmails_nonempty guardToastId env s hne]
    exact h.2.2
  exact ⟨by rw [hev, requestIds_sendEvents], hev⟩

theorem autoSendAllEmails_calls_in_order_witness :
    requestIds (autoSendAllEmails 0 (quietLoopEnv exampleOutcome) exampleStore).2 =
        ["1", "2", "3"] ∧
      (autoSendAllEmails 0 (quietLoopEnv exampleOutcome) exampleStore).2 =
        [Event.request "1" (some "draft A"), Event.sent "1",
          Event.request "2" (some "draft B"), Event.rolledBack "2",
          Event.request "3" (some "draft C"), Event.sent "3"] :=
  autoSendAllEmails_calls_in_order 0 (quietLoopEnv exampleOutcome) exampleOutcome exampleStore
    (by decide) (by decide) (fun _ _ => rfl) (fun _ _ _ => rfl) (fun _ _ _ => rfl)
    (fun _ _ _ => rfl) (fun _ _ _ => rfl)

/-- C4: for a working set of N pairwise distinct ids and 1 ≤ k < N, if the flag is cleared
while the k-th send is in flight or during the pause that follows it, and nothing else
interferes, then exactly k delivery calls are made, for the first k ids of the snapshot; the
k-th send ends as its own delivery outcome dictates; the messages at positions k+1..N are
still in the working set, unchanged, behind the failed ones among the first k; and the flag
is false at the end. -/
theorem autoSendAllEmails_stop_after_k (guardToastId : Nat) (env : Nat → String → LoopEnv)
    (outcome : String → Delivery) (k : Nat) (s : Store)
    (hnd : (ids s.emails).Nodup) (hk1 : 1 ≤ k) (hkN : k < s.emails.length)
    (hout : ∀ i id, (env i id).send.delivery = outcome id)
    (hfe : ∀ i id, KeepsEmails (env i id).send.duringFetch)
    (hde : ∀ i id, KeepsEmails (env i id).duringDelay)
    (hff : ∀ i id, i < k - 1 → KeepsFlag (env i id).send.duringFetch)
    (hdf : ∀ i id, i < k - 1 → KeepsFlag (env i id).duringDelay)
    (hstop : ∀ id,
      (ClearsFlag (env (k - 1) id).send.duringFetch ∧ KeepsFlag (env (k - 1) id).duringDelay) ∨
        ClearsFlag (env (k - 1) id).duringDelay) :
    requestIds (autoSendAllEmails guardToastId env s).2 = ids (s.emails.take k) ∧
      (requestIds (autoSendAllEmails guardToastId env s).2).length = k ∧
      (autoSendAllEmails guardToastId env s).2 = sendEvents outcome (s.emails.take k) ∧
      (autoSendAllEmails guardToastId env s).1.emails =
        (s.emails.take k).filter (failedOf outcome) ++ s.emails.drop k ∧
      (autoSendAllEmails guardToastId env s).1.isAutoSending = false := by
  have hne : s.emails ≠ [] := by
    intro h
    rw [h] at hkN
    simp at hkN
  have hk : k - 1 - 0 + 1 = k := by omega
  have h := autoSendLoop_stop env outcome (k - 1) hout hfe hde hff hdf hstop s.emails [] 0
    { s with isAutoSending := true } rfl hnd rfl (Nat.zero_le _) (by omega)
  rw [hk] at h
  rw [autoSendAllEmails_nonempty guardToastId env s hne]
  refine ⟨?_, ?_, h.2.2, ?_, rfl⟩
  · rw [h.2.2, requestIds_sendEvents]
  · rw [h.2.2, requestIds_sendEvents]
    simp [ids, List.length_take, Nat.min_eq_left (Nat.le_of_lt hkN)]
  · simpa using h.1

theorem autoSendAllEmails_stop_after_k_witness :
    requestIds (autoSendAllEmails 0 (stopLoopEnv exampleOutcome 1) exampleStore).2 =
        ["1", "2"] ∧
      (requestIds (autoSendAllEmails 0 (stopLoopEnv exampleOutcome 1) exampleStore).2).length =
        2 ∧
      (autoSendAllEmails 0 (stopLoopEnv exampleOutcome 1) exampleStore).2 =
        [Event.request "1" (some "draft A"), Event.sent "1",
          Event.request "2" (some "draft B"), Event.rolledBack "2"] ∧
      (autoSendAllEmails 0 (stopLoopEnv exampleOutcome 1) exampleStore).1.emails =
        [exampleB, exampleC] ∧
      (autoSendAllEmails 0 (stopLoopEnv exampleOutcome 1) exampleStore).1.isAutoSending =
        false :=
  autoSendAllEmails_stop_after_k 0 (stopLoopEnv exampleOutcome 1) exampleOutcome 2 exampleStore
    (by decide) (by decide) (by decide) (fun _ _ => rfl)
    (fun i _ t => by by_cases h : i = 1 <;> simp [stopLoopEnv, stopAutoSend, h])
    (fun _ _ _ => rfl)
    (fun i _ hi t => by
      have h : i ≠ 1 := by omega
      simp [stopLoopEnv, h])
    (fun _ _ _ _ => rfl)
    (fun _ => Or.inl ⟨fun _ => by simp [stopLoopEnv, stopAutoSend], fun _ => rfl⟩)

/-! ## Interleaved client steps -/

theorem ids_restoreAt_perm (i : Nat) (e : Email) (l : List Email) :
    (ids (restoreAt i e l)).Perm (e.id :: ids l) := by
  have h1 : ids (restoreAt i e l) = ids (l.take i) ++ e.id :: ids (l.drop i) := by
    simp [restoreAt, ids]
  have h2 : ids l = ids (l.take i) ++ ids (l.drop i) := by
    rw [ids, ids, ids, ← List.map_append, List.take_append_drop]
  rw [h1, h2]
  exact List.perm_middle

theorem sendStart_some (loadingToastId : Nat) (id : String) (customReplyText : Option String)
    (s s1 : Store) (p : InFlight)
    (h : sendStart loadingToastId id customReplyText s = some (p, s1)) :
    p.id = id ∧ p.emailToSend.id = id ∧ id ∈ ids s.emails ∧
      s1.emails = s.emails.filter (fun x => x.id != id) := by
  unfold sendStart at h
  cases hfind : s.emails.find? (fun e => e.id == id) with
  | none => simp [hfind] at h
  | some e =>
    simp only [hfind, addToast, Option.some.injEq, Prod.mk.injEq] at h
    obtain ⟨hp, hs1⟩ := h
    have heid : e.id = id := by simpa using List.find?_some hfind
    have hmem : e ∈ s.emails := List.mem_of_find?_eq_some hfind
    subst hp
    subst hs1
    exact ⟨rfl, heid, heid ▸ mem_ids_of_mem hmem, rfl⟩

theorem sendFinish_emails (resultToastId : Nat) (d : Delivery) (p : InFlight) (s : Store) :
    (sendFinish resultToastId d p s).1.emails = s.emails ∨
      (sendFinish resultToastId d p s).1.emails =
        restoreAt p.originalIndex p.emailToSend s.emails := by
  cases d with
  | fetchThrows => right; rfl
  | jsonThrows => right; rfl
  | body b =>
    cases b with
    | true => left; rfl
    | false => right; rfl

theorem ids_regenerateWrite (toastId : Nat) (selectedEmail : Email) (emails : List Email)
    (newReply : String) (s : Store) :
    ids (regenerateWrite toastId selectedEmail emails newReply s).emails = ids emails := by
  simp only [regenerateWrite, addToast, ids, List.map_map]
  apply List.map_congr_left
  intro e _
  by_cases h : e.id = selectedEmail.id <;> simp [h]

theorem nodup_ids_fetchNewEmailsWrite (emails newMsgs : List Email) (s : Store)
    (h : (ids s.emails).Nodup) :
    (ids (fetchNewEmailsWrite emails newMsgs s).emails).Nodup := by
  unfold fetchNewEmailsWrite
  split
  · exact nodup_ids_uniqueEmails _
  · exact h

theorem eraseIdx_facts (l : List InFlight) :
    ∀ (i : Nat) (p : InFlight), l[i]? = some p → (l.map (fun p => p.id)).Nodup →
      p ∈ l ∧ (∀ q ∈ l.eraseIdx i, q ∈ l ∧ q.id ≠ p.id) ∧
        ((l.eraseIdx i).map (fun p => p.id)).Nodup := by
  induction l with
  | nil =>
    intro i p h
    simp at h
  | cons a l ih =>
    intro i p h hnd
    have hnd2 : a.id ∉ l.map (fun p => p.id) ∧ (l.map (fun p => p.id)).Nodup := by
      simpa using hnd
    cases i with
    | zero =>
      have hp : a = p := by simpa using h
      subst hp
      refine ⟨List.mem_cons_self _ _, ?_, hnd2.2⟩
      intro q hq
      have hq2 : q ∈ l := by simpa using hq
      exact ⟨List.mem_cons_of_mem _ hq2,
        fun hc => hnd2.1 (hc ▸ List.mem_map.mpr ⟨q, hq2, rfl⟩)⟩
    | succ j =>
      have hj : l[j]? = some p := by simpa using h
      obtain ⟨hp, hq, hn⟩ := ih j p hj hnd2.2
      refine ⟨List.mem_cons_of_mem _ hp, ?_, ?_⟩
      · intro q hq1
        rw [List.eraseIdx_cons_succ] at hq1
        rcases List.mem_cons.mp hq1 with h1 | h1
        · subst h1
          exact ⟨List.mem_cons_self _ _,
            fun hc => hnd2.1 (hc ▸ List.mem_map.mpr ⟨p, hp, rfl⟩)⟩
        · exact ⟨List.mem_cons_of_mem _ (hq q h1).1, (hq q h1).2⟩
      · rw [List.eraseIdx_cons_succ, List.map_cons, List.nodup_cons]
        refine ⟨?_, hn⟩
        intro hc
        obtain ⟨q, hq1, hq2⟩ := List.mem_map.mp hc
        exact hnd2.1 (List.mem_map.mpr ⟨q, (hq q hq1).1, hq2⟩)

theorem sendsAbsent_iff (c : Client) :
    sendsAbsent c = true ↔ ∀ p ∈ c.sends, p.id ∉ ids c.store.emails := by
  simp [sendsAbsent, List.all_eq_true]

/-- A step keeps the invariant, provided a write-back leaves no id of a suspended send in
the working set. -/
theorem step_inv (c c1 : Client) (a : Action) (hinv : ClientInv c) (hstep : step c a = some c1)
    (hguard : a.isWriteBack = true → sendsAbsent c1 = true) : ClientInv c1 := by
  obtain ⟨h1, h2, h3, h4, h5⟩ := hinv
  cases a with
  | refresh emails =>
    have hg := (sendsAbsent_iff c1).mp (hguard rfl)
    by_cases hnd : (ids emails).Nodup
    · simp only [step, hnd, if_true, Option.some.injEq] at hstep
      subst hstep
      exact ⟨hnd, hg, h3, h4, h5⟩
    · simp [step, hnd] at hstep
  | pollRead =>
    simp only [step, Option.some.injEq] at hstep
    subst hstep
    exact ⟨h1, h2, h3, h4, h5⟩
  | pollWrite i newMsgs =>
    have hg := (sendsAbsent_iff c1).mp (hguard rfl)
    cases hget : c.polls[i]? with
    | none => simp [step, hget] at hstep
    | some emails =>
      simp only [step, List.get?_eq_getElem?, hget, Option.some.injEq] at hstep
      subst hstep
      exact ⟨nodup_ids_fetchNewEmailsWrite _ _ _ h1, hg, h3, h4, h5⟩
  | sendStart loadingToastId id customReplyText =>
    cases hs : sendStart loadingToastId id customReplyText c.store with
    | none =>
      simp only [step, hs, Option.some.injEq] at hstep
      subst hstep
      exact ⟨h1, h2, h3, h4, h5⟩
    | some r =>
      obtain ⟨p, s1⟩ := r
      simp only [step, hs, Option.some.injEq] at hstep
      subst hstep
      obtain ⟨hpid, heid, hmem, hem⟩ := sendStart_some _ _ _ _ _ _ hs
      have hsub : ∀ x, x ∈ ids s1.emails → x ∈ ids c.store.emails ∧ x ≠ id := by
        intro x hx
        rw [hem] at hx
        obtain ⟨e, he, rfl⟩ := List.mem_map.mp hx
        have he2 := List.mem_filter.mp he
        exact ⟨mem_ids_of_mem he2.1, by simpa using he2.2⟩
      refine ⟨?_, ?_, ?_, ?_, h5⟩
      · show (ids s1.emails).Nodup
        rw [hem]
        exact h1.sublist (List.Sublist.map _ (List.filter_sublist _))
      · intro q hq hc
        rcases List.mem_append.mp hq with hq1 | hq1
        · exact h2 q hq1 (hsub _ hc).1
        · have hqp : q = p := by simpa using hq1
          subst hqp
          exact (hsub _ hc).2 hpid
      · show ((c.sends ++ [p]).map (fun p => p.id)).Nodup
        rw [List.map_append, List.map_singleton, hpid]
        refine List.Nodup.append h3 (List.nodup_singleton _) ?_
        intro x hx1 hx2
        have hxid : x = id := by simpa using hx2
        subst hxid
        obtain ⟨q, hq, hq2⟩ := List.mem_map.mp hx1
        exact h2 q hq (hq2 ▸ hmem)
      · intro q hq
        rcases List.mem_append.mp hq with hq1 | hq1
        · exact h4 q hq1
        · have hqp : q = p := by simpa using hq1
          subst hqp
          rw [heid, hpid]
  | sendFinish i resultToastId d =>
    cases hget : c.sends[i]? with
    | none => simp [step, hget] at hstep
    | some p =>
      simp only [step, List.get?_eq_getElem?, hget, Option.some.injEq] at hstep
      subst hstep
      obtain ⟨hp, hq, hn⟩ := eraseIdx_facts c.sends i p hget h3
      rcases sendFinish_emails resultToastId d p c.store with he | he
      · refine ⟨?_, ?_, hn, fun q hq1 => h4 q (hq q hq1).1, h5⟩
        · show (ids (sendFinish resultToastId d p c.store).1.emails).Nodup
          rw [he]
          exact h1
        · intro q hq1
          show q.id ∉ ids (sendFinish resultToastId d p c.store).1.emails
          rw [he]
          exact h2 q (hq q hq1).1
      · have hperm := ids_restoreAt_perm p.originalIndex p.emailToSend c.store.emails
        refine ⟨?_, ?_, hn, fun q hq1 => h4 q (hq q hq1).1, h5⟩
        · show (ids (sendFinish resultToastId d p c.store).1.emails).Nodup
          rw [he, hperm.nodup_iff, List.nodup_cons, h4 p hp]
          exact ⟨h2 p hp, h1⟩
        · intro q hq1
          show q.id ∉ ids (sendFinish resultToastId d p c.store).1.emails
          rw [he, hperm.mem_iff, List.mem_cons, h4 p hp]
          rintro (hc | hc)
          · exact (hq q hq1).2 hc
          · exact h2 q (hq q hq1).1 hc
  | openModal email =>
    simp only [step, Option.some.injEq] at hstep
    subst hstep
    exact ⟨h1, h2, h3, h4, h5⟩
  | regenRead =>
    cases hsel : c.store.selectedEmail with
    | none => simp [step, hsel] at hstep
    | some selectedEmail =>
      simp only [step, hsel, Option.some.injEq] at hstep
      subst hstep
      refine ⟨h1, h2, h3, h4, ?_⟩
      intro r hr
      rcases List.mem_append.mp hr with hr1 | hr1
      · exact h5 r hr1
      · have hrr : r = (selectedEmail, c.store.emails) := by simpa using hr1
        subst hrr
        exact h1
  | regenWrite i toastId newReply =>
    have hg := (sendsAbsent_iff c1).mp (hguard rfl)
    cases hget : c.regens[i]? with
    | none => simp [step, hget] at hstep
    | some r =>
      obtain ⟨selectedEmail, emails⟩ := r
      simp only [step, List.get?_eq_getElem?, hget, Option.some.injEq] at hstep
      subst hstep
      have hmem : (selectedEmail, emails) ∈ c.regens := List.getElem?_mem hget
      refine ⟨?_, hg, h3, h4, ?_⟩
      · show (ids (regenerateWrite toastId selectedEmail emails newReply c.store).emails).Nodup
        rw [ids_regenerateWrite]
        exact h5 _ hmem
      · intro r hr
        exact h5 r ((List.eraseIdx_sublist _ _).subset hr)

/-- A guarded run is a run. -/
theorem run_of_runNoResurrect (acts : List Action) :
    ∀ c c1 : Client, runNoResurrect c acts = some c1 → run c acts = some c1 := by
  induction acts with
  | nil =>
    intro c c1 h
    exact h
  | cons a rest ih =>
    intro c c1 h
    cases hs : step c a with
    | none => simp [runNoResurrect, hs] at h
    | some c2 =>
      simp only [runNoResurrect, hs] at h
      by_cases hg : (a.isWriteBack && !sendsAbsent c2) = true
      · simp [hg] at h
      · rw [if_neg hg] at h
        simp only [run, hs]
        exact ih c2 c1 h

theorem clientInv_initial : ClientInv initialClient := by
  simp [ClientInv, initialClient, initialStore, ids]

theorem runNoResurrect_inv (acts : List Action) :
    ∀ c c1 : Client, ClientInv c → runNoResurrect c acts = some c1 → ClientInv c1 := by
  induction acts with
  | nil =>
    intro c c1 hinv h
    simp only [runNoResurrect, Option.some.injEq] at h
    exact h ▸ hinv
  | cons a rest ih =>
    intro c c1 hinv h
    cases hs : step c a with
    | none => simp [runNoResurrect, hs] at h
    | some c2 =>
      simp only [runNoResurrect, hs] at h
      by_cases hg : (a.isWriteBack && !sendsAbsent c2) = true
      · simp [hg] at h
      · rw [if_neg hg] at h
        refine ih c2 c1 (step_inv c c2 a hinv hs ?_) h
        intro hw
        simpa [hw] using hg

/-! ## Claim on the distinct-id invariant -/

/-- C5, counterexample: the refresh returns `[A]`, a poll reads the working set, a send of
A removes it, the poll resumes with batch `[B]` and writes the merge of its stale list, and
the send fails: the rollback re-inserts A next to the copy the poll wrote back, so two
entries share id 1. -/
theorem working_set_duplicate_id_counterexample :
    (ids [exampleA]).Nodup ∧ (ids [exampleB]).Nodup ∧
      (run initialClient
        [Action.refresh [exampleA], Action.pollRead, Action.sendStart 1 "1" none,
          Action.pollWrite 0 [exampleB], Action.sendFinish 0 2 Delivery.fetchThrows]).map
        (fun c => ids c.store.emails) = some ["1", "1", "2"] ∧
      ¬ (["1", "1", "2"] : List String).Nodup := by
  decide

/-- C5, amended: in every client state reached from the empty working set by the steps of
the full refresh, the poll (read, later merge write), the send (optimistic removal, later
success or rollback insertion), the modal opening and the regeneration (read, later
write-back), overlapping freely except that no refresh, merge write or regenerate write-back
puts into the working set the id of a send that is in flight at that moment, no two entries
of the working set share an id. -/
theorem runNoResurrect_nodup (acts : List Action) (c : Client)
    (h : runNoResurrect initialClient acts = some c) : (ids c.store.emails).Nodup :=
  (runNoResurrect_inv acts initialClient c clientInv_initial h).1

theorem runNoResurrect_nodup_witness :
    (runNoResurrect initialClient
        [Action.refresh [exampleA], Action.pollRead, Action.pollWrite 0 [exampleB],
          Action.sendStart 1 "1" none, Action.sendStart 3 "2" none,
          Action.sendFinish 0 2 Delivery.fetchThrows,
          Action.sendFinish 0 4 Delivery.jsonThrows]).map (fun c => c.store.emails) =
        some [exampleB, exampleA] ∧
      (ids [exampleB, exampleA]).Nodup :=
  ⟨by decide,
    runNoResurrect_nodup
      [Action.refresh [exampleA], Action.pollRead, Action.pollWrite 0 [exampleB],
        Action.sendStart 1 "1" none, Action.sendStart 3 "2" none,
        Action.sendFinish 0 2 Delivery.fetchThrows, Action.sendFinish 0 4 Delivery.jsonThrows]
      { initialClient with store :=
          { initialStore with
            emails := [exampleB, exampleA],
            toasts := [{ id := 2, type := ToastType.error,
                         message := "Failed to send email. Please try again." },
                       { id := 4, type := ToastType.error,
                         message := "Failed to send email. Please try again." }] } }
      (by decide)⟩

/-! ## Notifications of a send and the guards of the batch -/

theorem filter_loading (l : List Toast) (loadingToast : Toast)
    (hfresh : ∀ t ∈ l, t.id ≠ loadingToast.id) :
    (l ++ [loadingToast]).filter (fun t => t.id != loadingToast.id) = l := by
  rw [List.filter_append, List.filter_eq_self.mpr (fun t ht => by simpa using hfresh t ht)]
  simp

theorem filter_fresh (l : List Toast) (id : Nat) (hfresh : ∀ t ∈ l, t.id ≠ id) :
    l.filter (fun t => t.id != id) = l :=
  List.filter_eq_self.mpr (fun t ht => by simpa using hfresh t ht)

/-- C11: for a send of an id present in the working set, with the loading notification
drawing an id that no queued notification carries and the queue otherwise left alone during
the delivery call (no timed expiry), the queue when `sendEmail` returns is the queue before
the call followed by exactly one entry: a success notification naming the sender address if
the delivery succeeded, an error notification otherwise.  The loading notification of this
send is not in the queue, and none of the earlier notifications was removed. -/
theorem sendEmail_toasts (env : SendEnv) (id : String) (customReplyText : Option String)
    (s : Store) (e : Email)
    (hfind : s.emails.find? (fun x => x.id == id) = some e)
    (hfresh : ∀ t ∈ s.toasts, t.id ≠ env.loadingToastId)
    (hquiet : KeepsToasts env.duringFetch) :
    (sendEmail env id customReplyText s).1.toasts =
        s.toasts ++
          [if env.delivery = Delivery.body true then
              { id := env.resultToastId, type := ToastType.success,
                message := "Email sent to " ++ e.sender }
            else
              { id := env.resultToastId, type := ToastType.error,
                message := "Failed to send email. Please try again." }] ∧
      ({ id := env.loadingToastId, type := ToastType.loading, message := "Sending email..." } :
          Toast) ∉ (sendEmail env id customReplyText s).1.toasts := by
  have hmain : (sendEmail env id customReplyText s).1.toasts =
      s.toasts ++
        [if env.delivery = Delivery.body true then
            { id := env.resultToastId, type := ToastType.success,
              message := "Email sent to " ++ e.sender }
          else
            { id := env.resultToastId, type := ToastType.error,
              message := "Failed to send email. Please try again." }] := by
    have hf := filter_loading s.toasts
      { id := env.loadingToastId, type := ToastType.loading, message := "Sending email..." }
      hfresh
    have hf2 := filter_fresh s.toasts env.loadingToastId hfresh
    simp only [sendEmail, sendStart, hfind, addToast]
    cases hd : env.delivery with
    | fetchThrows => simp [sendFinish, sendCatch, removeToast, addToast, hquiet _, hf]
    | jsonThrows => simp [sendFinish, sendCatch, removeToast, addToast, hquiet _, hf]
    | body b =>
      cases b
      · simp only [sendFinish, sendCatch, removeToast, addToast, hquiet _, hf, hf2]
        simp
      · simp [sendFinish, removeToast, addToast, hquiet _, hf]
  refine ⟨hmain, ?_⟩
  rw [hmain]
  intro hmem
  rcases List.mem_append.mp hmem with h | h
  · exact hfresh _ h rfl
  · by_cases hd : env.delivery = Delivery.body true
    · simp [hd] at h
    · simp [hd] at h

theorem sendEmail_toasts_witness :
    (sendEmail (quietEnv Delivery.jsonThrows) "2" none
        { exampleStore with toasts := [{ id := 7, type := ToastType.success,
                                         message := "Email sent to a@x.com" }] }).1.toasts =
      [{ id := 7, type := ToastType.success, message := "Email sent to a@x.com" },
        { id := 2, type := ToastType.error,
          message := "Failed to send email. Please try again." }] :=
  (sendEmail_toasts (quietEnv Delivery.jsonThrows) "2" none
    { exampleStore with toasts := [{ id := 7, type := ToastType.success,
                                     message := "Email sent to a@x.com" }] }
    exampleB (by decide) (by decide) (fun _ => rfl)).1

/-- C18: when the working set is empty, `autoSendAllEmails` issues no delivery call, leaves
the working set and the `isAutoSending` flag as they were, and appends exactly one
notification, of kind error, to the queue. -/
theorem autoSendAllEmails_empty (guardToastId : Nat) (env : Nat → String → LoopEnv)
    (s : Store) (hempty : s.emails = []) :
    autoSendAllEmails guardToastId env s =
      ({ s with toasts := s.toasts ++
          [{ id := guardToastId, type := ToastType.error,
             message := "No emails to auto-send!" }] }, []) := by
  simp [autoSendAllEmails, hempty, addToast]

theorem autoSendAllEmails_empty_witness :
    autoSendAllEmails 5 (quietLoopEnv exampleOutcome) { initialStore with isAutoSending := true } =
      ({ initialStore with
          isAutoSending := true,
          toasts := [{ id := 5, type := ToastType.error,
                       message := "No emails to auto-send!" }] }, []) :=
  autoSendAllEmails_empty 5 (quietLoopEnv exampleOutcome)
    { initialStore with isAutoSending := true } rfl

theorem settled_append_pair (id : String) (payload : Option String) (ev : Event)
    (rest : List Event) (hev : ev = Event.sent id ∨ ev = Event.rolledBack id)
    (hrest : settled rest = true) :
    settled (Event.request id payload :: ev :: rest) = true := by
  rcases hev with h | h <;> subst h <;> simp [settled, hrest]

theorem sendFinish_event (resultToastId : Nat) (d : Delivery) (p : InFlight) (s : Store) :
    (sendFinish resultToastId d p s).2 = Event.sent p.id ∨
      (sendFinish resultToastId d p s).2 = Event.rolledBack p.id := by
  cases d with
  | fetchThrows => right; rfl
  | jsonThrows => right; rfl
  | body b =>
    cases b with
    | true => left; rfl
    | false => right; rfl

theorem settled_autoSendLoop (env : Nat → String → LoopEnv) (l : List String) :
    ∀ (i : Nat) (s : Store), settled (autoSendLoop env i l s).2 = true := by
  induction l with
  | nil =>
    intro i s
    rfl
  | cons id rest ih =>
    intro i s
    rw [autoSendLoop]
    by_cases hflag : s.isAutoSending = true
    · simp only [hflag, Bool.not_true, Bool.false_eq_true, if_false]
      unfold sendEmail
      cases hs : sendStart (env i id).send.loadingToastId id none s with
      | none => exact ih _ _
      | some r =>
        obtain ⟨p, s1⟩ := r
        have hpid : p.id = id := (sendStart_some _ _ _ _ _ _ hs).1
        have hev := sendFinish_event (env i id).send.resultToastId (env i id).send.delivery p
          ((env i id).send.duringFetch s1)
        rw [hpid] at hev
        exact settled_append_pair id _ _ _ hev (ih _ _)
    · have hf : s.isAutoSending = false := by simpa using hflag
      simp [hf, settled]

theorem sendEmailPromise_fulfilled (env : SendEnv) (id : String)
    (customReplyText : Option String) (s : Store) :
    sendEmailPromise env id customReplyText s =
      Except.ok (sendEmail env id customReplyText s) := by
  unfold sendEmailPromise sendEmail
  cases hs : sendStart env.loadingToastId id customReplyText s with
  | none => rfl
  | some r =>
    obtain ⟨p, s1⟩ := r
    have hpid : p.id = id := (sendStart_some _ _ _ _ _ _ hs).1
    cases hd : env.delivery with
    | fetchThrows => simp [sendTry, sendFinish, hpid]
    | jsonThrows => simp [sendTry, sendFinish, hpid]
    | body b =>
      cases b with
      | true => simp [sendTry, sendFinish, hpid]
      | false => simp [sendTry, sendFinish, hpid]

theorem autoSendLoopPromise_fulfilled (env : Nat → String → LoopEnv) (l : List String) :
    ∀ (i : Nat) (s : Store),
      autoSendLoopPromise env i l s = Except.ok (autoSendLoop env i l s) := by
  induction l with
  | nil =>
    intro i s
    rfl
  | cons id rest ih =>
    intro i s
    rw [autoSendLoopPromise, autoSendLoop]
    by_cases hflag : s.isAutoSending = true
    · simp only [hflag, Bool.not_true, Bool.false_eq_true, if_false,
        sendEmailPromise_fulfilled, ih]
    · have hf : s.isAutoSending = false := by simpa using hflag
      simp [hf]

/-- C19: for a non-empty working set, whatever the delivery outcomes (success, refusal,
body that does not parse, rejected fetch) and whatever other tasks do to the store while
the batch is suspended (a stop at any moment included): the promise of every `sendEmail`
call is fulfilled, never rejected, because each exception of its `try` block is handled by
its `catch` block; so the promise of `autoSendAllEmails` is fulfilled as well, the reset of
`isAutoSending` is reached and the flag is false at the end; and every send that started
has run to its end, success or rollback. -/
theorem autoSendAllEmails_resets_flag (guardToastId : Nat) (env : Nat → String → LoopEnv)
    (s : Store) (hne : s.emails ≠ []) :
    (∀ (e : SendEnv) (id : String) (customReplyText : Option String) (t : Store),
        ∃ r, sendEmailPromise e id customReplyText t = Except.ok r) ∧
      (∃ r, autoSendAllEmailsPromise guardToastId env s = Except.ok r ∧
        r = autoSendAllEmails guardToastId env s ∧ r.1.isAutoSending = false ∧
        settled r.2 = true) ∧
      (autoSendAllEmails guardToastId env s).1.isAutoSending = false ∧
      settled (autoSendAllEmails guardToastId env s).2 = true := by
  have hlen : ¬ s.emails.length = 0 := fun h => hne (List.length_eq_zero.mp h)
  have hpure : (autoSendAllEmails guardToastId env s).1.isAutoSending = false ∧
      settled (autoSendAllEmails guardToastId env s).2 = true := by
    rw [autoSendAllEmails_nonempty guardToastId env s hne]
    exact ⟨rfl, settled_autoSendLoop env _ _ _⟩
  have hpromise : autoSendAllEmailsPromise guardToastId env s =
      Except.ok (autoSendAllEmails guardToastId env s) := by
    simp [autoSendAllEmailsPromise, autoSendAllEmails, hlen, autoSendLoopPromise_fulfilled]
  exact ⟨fun e id customReplyText t => ⟨_, sendEmailPromise_fulfilled e id customReplyText t⟩,
    ⟨_, hpromise, rfl, hpure.1, hpure.2⟩, hpure.1, hpure.2⟩

theorem autoSendAllEmails_resets_flag_witness :
    (∃ r, autoSendAllEmailsPromise 0 (stopLoopEnv exampleOutcome 0) exampleStore =
        Except.ok r ∧
        r = autoSendAllEmails 0 (stopLoopEnv exampleOutcome 0) exampleStore ∧
        r.1.isAutoSending = false ∧ settled r.2 = true) ∧
      (autoSendAllEmails 0 (stopLoopEnv exampleOutcome 0) exampleStore).1.isAutoSending =
        false ∧
      settled (autoSendAllEmails 0 (stopLoopEnv exampleOutcome 0) exampleStore).2 = true :=
  (autoSendAllEmails_resets_flag 0 (stopLoopEnv exampleOutcome 0) exampleStore
    (by decide)).2

/-! ## The pending poll of the backend -/

theorem findPending_perm (db : List Doc) :
    (findPending db).Perm (db.filter (fun d => d.status == "pending")) :=
  List.perm_insertionSort _ _

theorem findPending_sorted (db : List Doc) :
    (findPending db).Sorted (fun a b => a.createdAT ≤ b.createdAT) := by
  haveI : IsTotal Doc (fun a b => a.createdAT ≤ b.createdAT) :=
    ⟨fun a b => Nat.le_total a.createdAT b.createdAT⟩
  haveI : IsTrans Doc (fun a b => a.createdAT ≤ b.createdAT) :=
    ⟨fun _ _ _ hab hbc => Nat.le_trans hab hbc⟩
  exact List.sorted_insertionSort _ _

theorem mem_findPending (db : List Doc) (d : Doc) :
    d ∈ findPending db ↔ d ∈ db ∧ d.status = "pending" := by
  rw [(findPending_perm db).mem_iff, List.mem_filter]
  simp

theorem findPending_eq_nil (db : List Doc) (h : ∀ d ∈ db, d.status ≠ "pending") :
    findPending db = [] := by
  have hf : db.filter (fun d => d.status == "pending") = [] := by
    rw [List.filter_eq_nil_iff]
    intro d hd
    simpa using h d hd
  simp [findPending, sortByCreatedAT, hf]

theorem doc_eq_of_id_eq (db : List Doc) (hnd : (db.map (fun d => d._id)).Nodup) (d d1 : Doc)
    (hd : d ∈ db) (hd1 : d1 ∈ db) (hid : d._id = d1._id) : d = d1 :=
  List.inj_on_of_nodup_map hnd hd hd1 hid

/-- With unique ids the update of the poll touches exactly the messages that are pending,
when nothing else writes the store between its read and its update. -/
theorem markOnscreen_findPending (db : List Doc) (hnd : (db.map (fun d => d._id)).Nodup) :
    markOnscreen (findPending db) db =
      db.map (fun d => if d.status = "pending" then { d with status := "onscreen" } else d) := by
  unfold markOnscreen
  by_cases hlen : ((findPending db).map (fun email => email._id)).length > 0
  · simp only [hlen, if_true]
    apply List.map_congr_left
    intro d hd
    by_cases hp : d.status = "pending"
    · have hmem : d._id ∈ (findPending db).map (fun email => email._id) :=
        List.mem_map.mpr ⟨d, (mem_findPending db d).mpr ⟨hd, hp⟩, rfl⟩
      simp [hp, hmem]
    · have hnot : d._id ∉ (findPending db).map (fun email => email._id) := by
        intro hc
        obtain ⟨d1, hd1, hid⟩ := List.mem_map.mp hc
        have h1 := (mem_findPending db d1).mp hd1
        have heq : d1 = d := doc_eq_of_id_eq db hnd d1 d h1.1 hd hid
        exact hp (heq ▸ h1.2)
      simp [hp, hnot]
  · simp only [hlen, if_false]
    have hnil : findPending db = [] := by
      have : (findPending db).length = 0 := by simpa using hlen
      exact List.length_eq_zero.mp this
    have hid : db.map (fun d => if d.status = "pending" then { d with status := "onscreen" }
        else d) = db.map (fun d => d) := by
      apply List.map_congr_left
      intro d hd
      have hp : ¬ d.status = "pending" := by
        intro hc
        have hmem := (mem_findPending db d).mpr ⟨hd, hc⟩
        rw [hnil] at hmem
        simp at hmem
      simp [hp]
    rw [hid, List.map_id']

theorem no_pending_after_poll (db : List Doc) :
    ∀ d ∈ markOnscreen (findPending db) db, d.status ≠ "pending" := by
  intro d hd
  unfold markOnscreen at hd
  by_cases hlen : ((findPending db).map (fun email => email._id)).length > 0
  · simp only [hlen, if_true] at hd
    obtain ⟨d0, hd0, rfl⟩ := List.mem_map.mp hd
    by_cases hc : ((findPending db).map (fun email => email._id)).contains d0._id = true
    · simp only [hc, if_true]
      decide
    · simp only [hc]
      intro hp
      apply hc
      have hmem : d0._id ∈ (findPending db).map (fun email => email._id) :=
        List.mem_map.mpr ⟨d0, (mem_findPending db d0).mpr ⟨hd0, hp⟩, rfl⟩
      simpa using hmem
  · simp only [hlen, if_false] at hd
    have hnil : findPending db = [] := by
      have : (findPending db).length = 0 := by simpa using hlen
      exact List.length_eq_zero.mp this
    intro hp
    have hmem := (mem_findPending db d).mpr ⟨hd, hp⟩
    rw [hnil] at hmem
    simp at hmem

theorem transform_id (d : Doc) (e : Email) (h : transform d = some e) : e.id = d._id := by
  unfold transform at h
  cases hc : d.client_email with
  | none => simp [hc] at h
  | some client_email =>
    simp only [hc, Option.some.injEq] at h
    rw [← h]

theorem transformAll_some (l : List Doc) (h : ∀ d ∈ l, d.client_email ≠ none) :
    ∃ transformed, transformAll l = some transformed ∧
      List.Forall₂ (fun d e => transform d = some e) l transformed := by
  induction l with
  | nil => exact ⟨[], rfl, List.Forall₂.nil⟩
  | cons d rest ih =>
    obtain ⟨es, hes, hall⟩ := ih (fun x hx => h x (List.mem_cons_of_mem _ hx))
    cases ht : transform d with
    | none =>
      exfalso
      apply h d (List.mem_cons_self _ _)
      unfold transform at ht
      cases hc : d.client_email with
      | none => rfl
      | some client_email => simp [hc] at ht
    | some e =>
      refine ⟨e :: es, ?_, List.Forall₂.cons ht hall⟩
      simp [transformAll, ht, hes]

theorem transformAll_none (l : List Doc) (h : ∃ d ∈ l, d.client_email = none) :
    transformAll l = none := by
  induction l with
  | nil =>
    obtain ⟨d, hd, _⟩ := h
    simp at hd
  | cons a rest ih =>
    obtain ⟨d, hd, hc⟩ := h
    rcases List.mem_cons.mp hd with hda | hdr
    · subst hda
      simp [transformAll, transform, hc]
    · have hr := ih ⟨d, hdr, hc⟩
      cases ht : transform a with
      | none => simp [transformAll, ht]
      | some e => simp [transformAll, ht, hr]

theorem ids_transformAll (l : List Doc) :
    ∀ transformed, transformAll l = some transformed →
      ids transformed = l.map (fun d => d._id) := by
  induction l with
  | nil =>
    intro transformed h
    simp only [transformAll, Option.some.injEq] at h
    rw [← h]
    rfl
  | cons a rest ih =>
    intro transformed h
    cases ht : transform a with
    | none => simp [transformAll, ht] at h
    | some e =>
      cases hr : transformAll rest with
      | none => simp [transformAll, ht, hr] at h
      | some es =>
        simp only [transformAll, ht, hr, Option.some.injEq] at h
        rw [← h]
        have h1 := ih es hr
        have h2 := transform_id a e ht
        simp only [ids] at h1 ⊢
        simp [h1, h2]

/-! ## Claims on the pending poll -/

/-- C12, counterexample: the store holds the pending messages 3 and 2, and message 3 has no
`client_email`.  The poll marks both onscreen and then throws while it builds the response:
it answers with status 500, so it returns no message, and no message is pending
afterwards. -/
theorem getMessagesPending_missing_sender_counterexample :
    (findPending exampleDbNoSender).map (fun d => d._id) = ["3", "2"] ∧
      (getMessagesPending (fun d => d) exampleDbNoSender).response = none ∧
      (getMessagesPending (fun d => d) exampleDbNoSender).db.map
        (fun d => (d._id, d.status)) =
        [("2", "onscreen"), ("3", "onscreen"), ("4", "onscreen")] := by
  decide

/-- C12, amended: for a store with unique message ids, one complete pending poll (no other
write between its read and its update) leaves every message in place, each pending one with
status onscreen and all its other fields unchanged, every other message unchanged, and no
message has status pending afterwards.  When every pending message has a `client_email`,
the poll returns exactly the messages whose status was pending, in the client shape and
ordered by creation time ascending; when a pending message has none, the poll answers with
status 500 and returns no message. -/
theorem getMessagesPending_complete (duringRead : List Doc → List Doc) (db : List Doc)
    (hnd : (db.map (fun d => d._id)).Nodup) (hquiet : duringRead db = db) :
    ((∀ d ∈ db, d.status = "pending" → d.client_email ≠ none) →
        ∃ transformed, (getMessagesPending duringRead db).response = some transformed ∧
          List.Forall₂ (fun d e => transform d = some e) (findPending db) transformed) ∧
      ((∃ d ∈ db, d.status = "pending" ∧ d.client_email = none) →
        (getMessagesPending duringRead db).response = none) ∧
      (findPending db).Perm (db.filter (fun d => d.status == "pending")) ∧
      (findPending db).Sorted (fun a b => a.createdAT ≤ b.createdAT) ∧
      (getMessagesPending duringRead db).db =
        db.map (fun d => if d.status = "pending" then { d with status := "onscreen" } else d) ∧
      ∀ d ∈ (getMessagesPending duringRead db).db, d.status ≠ "pending" := by
  have hdb : (getMessagesPending duringRead db).db = markOnscreen (findPending db) db := by
    simp [getMessagesPending, hquiet]
  refine ⟨?_, ?_, findPending_perm db, findPending_sorted db, ?_, ?_⟩
  · intro hall
    exact transformAll_some (findPending db)
      (fun d hd => hall d ((mem_findPending db d).mp hd).1 ((mem_findPending db d).mp hd).2)
  · intro hex
    obtain ⟨d, hd, hp, hc⟩ := hex
    exact transformAll_none (findPending db) ⟨d, (mem_findPending db d).mpr ⟨hd, hp⟩, hc⟩
  · rw [hdb, markOnscreen_findPending db hnd]
  · rw [hdb]
    exact no_pending_after_poll db

theorem getMessagesPending_complete_witness :
    (∃ transformed, (getMessagesPending (fun d => d) exampleDb).response = some transformed ∧
        List.Forall₂ (fun d e => transform d = some e) (findPending exampleDb) transformed) ∧
      ((getMessagesPending (fun d => d) exampleDb).db.map (fun d => d.status) =
        ["sent", "onscreen", "onscreen", "onscreen"]) :=
  have h := getMessagesPending_complete (fun d => d) exampleDb (by decide) rfl
  ⟨h.1 (by decide), by rw [h.2.2.2.2.1]; decide⟩

/-- C13: polling pending twice in immediate succession is the same as polling once: the
second poll returns the empty list and leaves the store as the first poll left it, and the
working set after the second `fetchNewEmails` equals the working set after the first; when
the working set had distinct ids before, it has distinct ids after both polls. -/
theorem pending_poll_twice (db : List Doc) (during1 during2 : Store → Store) (s : Store)
    (hk1 : KeepsEmails during1) (hk2 : KeepsEmails during2) :
    (getMessagesPending (fun d => d) (getMessagesPending (fun d => d) db).db).response =
        some [] ∧
      (getMessagesPending (fun d => d) (getMessagesPending (fun d => d) db).db).db =
        (getMessagesPending (fun d => d) db).db ∧
      (fetchNewEmails
          (getMessagesPending (fun d => d) (getMessagesPending (fun d => d) db).db).response
          during2
          (fetchNewEmails (getMessagesPending (fun d => d) db).response during1 s)).emails =
        (fetchNewEmails (getMessagesPending (fun d => d) db).response during1 s).emails ∧
      ((ids s.emails).Nodup →
        (ids (fetchNewEmails
          (getMessagesPending (fun d => d) (getMessagesPending (fun d => d) db).db).response
          during2
          (fetchNewEmails (getMessagesPending (fun d => d) db).response during1
            s)).emails).Nodup) := by
  have hnil : findPending (getMessagesPending (fun d => d) db).db = [] :=
    findPending_eq_nil _ (no_pending_after_poll db)
  have hresp : (getMessagesPending (fun d => d)
      (getMessagesPending (fun d => d) db).db).response = some [] := by
    show transformAll (findPending (getMessagesPending (fun d => d) db).db) = some []
    rw [hnil]
    rfl
  have hdb : (getMessagesPending (fun d => d) (getMessagesPending (fun d => d) db).db).db =
      (getMessagesPending (fun d => d) db).db := by
    have h2 : markOnscreen (findPending (getMessagesPending (fun d => d) db).db)
        (getMessagesPending (fun d => d) db).db = (getMessagesPending (fun d => d) db).db := by
      rw [hnil]
      rfl
    exact h2
  have hsecond : ∀ t : Store, (fetchNewEmails (some []) during2 t).emails = t.emails := by
    intro t
    simp [fetchNewEmails, fetchNewEmailsWrite, hk2 t]
  refine ⟨hresp, hdb, ?_, ?_⟩
  · rw [hresp]
    exact hsecond _
  · intro hnd
    rw [hresp, hsecond]
    cases hfirst : (getMessagesPending (fun d => d) db).response with
    | none =>
      show (ids (during1 s).emails).Nodup
      rw [hk1 s]
      exact hnd
    | some transformed =>
      exact nodup_ids_fetchNewEmailsWrite s.emails transformed (during1 s)
        (by rw [hk1 s]; exact hnd)

theorem pending_poll_twice_witness :
    (getMessagesPending (fun d => d) (getMessagesPending (fun d => d) exampleDb).db).response =
        some [] ∧
      (fetchNewEmails
          (getMessagesPending (fun d => d)
            (getMessagesPending (fun d => d) exampleDb).db).response (fun t => t)
          (fetchNewEmails (getMessagesPending (fun d => d) exampleDb).response
            (fun t => t) exampleStore)).emails =
        (fetchNewEmails (getMessagesPending (fun d => d) exampleDb).response
          (fun t => t) exampleStore).emails :=
  have h := pending_poll_twice exampleDb (fun t => t) (fun t => t) exampleStore
    (fun _ => rfl) (fun _ => rfl)
  ⟨h.1, h.2.2.1⟩

/-! ## Claim on the reply versions -/

/-- C20: for every ledger (history and cursor) of an open review and every regeneration
that succeeds with reply text t, whatever happens to the session meanwhile, the history
afterwards is the history the handler started from with t appended: one entry longer, last
entry t, earlier entries unchanged and in order; the cursor is the new last index; and the
value stored under `reply_history_<id>` is the new history. -/
theorem handleRegenerate_appends (toastId : Nat) (during : Session → Session) (u : Session)
    (selectedEmail : Email) (t : String)
    (hsel : u.store.selectedEmail = some selectedEmail) (ht : t ≠ "") :
    (handleRegenerateWithCustomization toastId (DraftOutcome.body (some t)) during
          u).replyHistory = u.replyHistory ++ [some t] ∧
      (handleRegenerateWithCustomization toastId (DraftOutcome.body (some t)) during
          u).replyHistory.length = u.replyHistory.length + 1 ∧
      (handleRegenerateWithCustomization toastId (DraftOutcome.body (some t)) during
          u).replyHistory.getLast? = some (some t) ∧
      (handleRegenerateWithCustomization toastId (DraftOutcome.body (some t)) during
          u).replyHistory.take u.replyHistory.length = u.replyHistory ∧
      (handleRegenerateWithCustomization toastId (DraftOutcome.body (some t)) during
          u).currentVersionIndex = (u.replyHistory.length : Int) ∧
      (handleRegenerateWithCustomization toastId (DraftOutcome.body (some t)) during
          u).localStorage (storageKey selectedEmail.id) = some (u.replyHistory ++ [some t]) := by
  have hb : (t != "") = true := by simpa using ht
  have hhist : (handleRegenerateWithCustomization toastId (DraftOutcome.body (some t)) during
      u).replyHistory = u.replyHistory ++ [some t] := by
    simp [handleRegenerateWithCustomization, hsel, regenerateResume, hb]
  refine ⟨hhist, ?_, ?_, ?_, ?_, ?_⟩
  · rw [hhist]
    simp
  · rw [hhist]
    simp
  · rw [hhist]
    simp
  · simp [handleRegenerateWithCustomization, hsel, regenerateResume, hb]
  · simp [handleRegenerateWithCustomization, hsel, regenerateResume, hb, setItem]

theorem handleRegenerate_appends_witness :
    (handleRegenerateWithCustomization 9 (DraftOutcome.body (some "third")) (fun u => u)
          exampleSession).replyHistory = [some "draft A", some "second", some "third"] ∧
      (handleRegenerateWithCustomization 9 (DraftOutcome.body (some "third")) (fun u => u)
          exampleSession).currentVersionIndex = 2 ∧
      (handleRegenerateWithCustomization 9 (DraftOutcome.body (some "third")) (fun u => u)
          exampleSession).localStorage "reply_history_1" =
        some [some "draft A", some "second", some "third"] :=
  have h := handleRegenerate_appends 9 (fun u => u) exampleSession exampleA "third" rfl
    (by decide)
  ⟨h.1, h.2.2.2.2.1, h.2.2.2.2.2⟩

/-! ## The archival sweep -/

theorem archiveLoop_none (msgs : List Doc) :
    ∀ (i : Nat) (history : List HistoryRecord),
      archiveLoop none i msgs history =
        Except.ok (msgs.foldl (fun h m => pushConversation m.client_email m h) history) := by
  induction msgs with
  | nil =>
    intro i history
    rfl
  | cons m rest ih =>
    intro i history
    simp [archiveLoop, ih]

theorem conversationsOf_push (email e : Option String) (m : Doc) (history : List HistoryRecord) :
    conversationsOf email (pushConversation e m history) =
      if e = email then conversationsOf email history ++ [m]
      else conversationsOf email history := by
  induction history with
  | nil =>
    by_cases h : e = email <;> simp [pushConversation, conversationsOf, h]
  | cons r rest ih =>
    by_cases hre : r.email = e
    · have hb : (r.email == e) = true := by simpa using hre
      by_cases h : e = email
      · subst h
        simp [pushConversation, conversationsOf, hb, hre]
      · have hne : ¬ r.email = email := fun hc => h (hre ▸ hc)
        simp [pushConversation, conversationsOf, hb, h, hne]
    · have hb : (r.email == e) = false := by simpa using hre
      have hpush : pushConversation e m (r :: rest) = r :: pushConversation e m rest := by
        simp [pushConversation, hb]
      rw [hpush]
      by_cases hr : r.email = email
      · by_cases h : e = email
        · exact absurd (hr.trans h.symm) hre
        · simp [conversationsOf, hr, h]
      · have hc1 : conversationsOf email (r :: pushConversation e m rest) =
            conversationsOf email (pushConversation e m rest) := by
          simp [conversationsOf, hr]
        have hc2 : conversationsOf email (r :: rest) = conversationsOf email rest := by
          simp [conversationsOf, hr]
        rw [hc1, hc2, ih]

theorem conversationsOf_foldl (email : Option String) (msgs : List Doc) :
    ∀ history : List HistoryRecord,
      conversationsOf email
          (msgs.foldl (fun h m => pushConversation m.client_email m h) history) =
        conversationsOf email history ++ msgs.filter (fun m => m.client_email == email) := by
  induction msgs with
  | nil =>
    intro history
    simp
  | cons m rest ih =>
    intro history
    rw [List.foldl_cons, ih, conversationsOf_push]
    by_cases h : m.client_email = email <;> simp [h, List.filter_cons]

theorem filter_email_push (email e : Option String) (m : Doc) (history : List HistoryRecord)
    (hne : e ≠ email) :
    (pushConversation e m history).filter (fun r => r.email == email) =
      history.filter (fun r => r.email == email) := by
  have hb : (e == email) = false := by simpa using hne
  induction history with
  | nil => simp [pushConversation, List.filter_cons, hb]
  | cons r rest ih =>
    by_cases hre : r.email = e
    · have hb1 : (r.email == e) = true := by simpa using hre
      have hne2 : ¬ r.email = email := fun hc => hne (hre ▸ hc)
      have hb2 : (r.email == email) = false := by simpa using hne2
      have hpush : pushConversation e m (r :: rest) =
          { r with conversations := r.conversations ++ [m] } :: rest := by
        simp [pushConversation, hb1]
      rw [hpush, List.filter_cons, List.filter_cons]
      simp only [hb2]
      rfl
    · have hb1 : (r.email == e) = false := by simpa using hre
      have hpush : pushConversation e m (r :: rest) = r :: pushConversation e m rest := by
        simp [pushConversation, hb1]
      rw [hpush, List.filter_cons, List.filter_cons, ih]

theorem filter_email_foldl (email : Option String) (msgs : List Doc)
    (hne : ∀ m ∈ msgs, m.client_email ≠ email) :
    ∀ history : List HistoryRecord,
      (msgs.foldl (fun h m => pushConversation m.client_email m h) history).filter
          (fun r => r.email == email) =
        history.filter (fun r => r.email == email) := by
  induction msgs with
  | nil =>
    intro history
    rfl
  | cons m rest ih =>
    intro history
    rw [List.foldl_cons, ih (fun x hx => hne x (List.mem_cons_of_mem _ hx)),
      filter_email_push email m.client_email m history (hne m (List.mem_cons_self _ _))]

theorem sweep_quiet (b : Backend) :
    sweep none (fun d => d) b =
      { db := deleteManySent b.db,
        history := (b.db.filter (fun d => d.status == "sent")).foldl
          (fun h m => pushConversation m.client_email m h) b.history } := by
  simp [sweep, archiveLoop_none]

/-! ## Claims on the archival sweep -/

/-- C16: after one complete archival sweep, the active store holds exactly the messages
that were not sent, unchanged and in order, so no sent message remains; for every sender
address the conversations of its record are the prior ones, in order, followed by the
sender's sent messages in the order the sweep read them (a missing record counts as empty
and is created); the records of an address with no sent message are unchanged.  In
particular one sent message M for "x@y.com" and a record of 2 entries give a record of 3
entries, and M is no longer in the active store. -/
theorem sweep_complete (b : Backend) :
    (sweep none (fun d => d) b).db = b.db.filter (fun d => d.status != "sent") ∧
      (∀ d ∈ (sweep none (fun d => d) b).db, d.status ≠ "sent") ∧
      (∀ email : String,
        conversationsOf (some email) (sweep none (fun d => d) b).history =
          conversationsOf (some email) b.history ++
            (b.db.filter (fun d => d.status == "sent")).filter
              (fun d => d.client_email == some email)) ∧
      (∀ email : String, (∀ d ∈ b.db, d.status = "sent" → d.client_email ≠ some email) →
        (sweep none (fun d => d) b).history.filter (fun r => r.email == some email) =
          b.history.filter (fun r => r.email == some email)) ∧
      (∀ M : Doc, b.db.filter (fun d => d.status == "sent") = [M] →
        M.client_email = some "x@y.com" →
        (conversationsOf (some "x@y.com") b.history).length = 2 →
        (conversationsOf (some "x@y.com") (sweep none (fun d => d) b).history).length = 3 ∧
          M ∉ (sweep none (fun d => d) b).db) := by
  rw [sweep_quiet]
  refine ⟨rfl, ?_, ?_, ?_, ?_⟩
  · intro d hd
    have h := (List.mem_filter.mp hd).2
    simpa using h
  · intro email
    exact conversationsOf_foldl (some email) _ b.history
  · intro email hno
    apply filter_email_foldl
    intro m hm
    have h := List.mem_filter.mp hm
    exact hno m h.1 (by simpa using h.2)
  · intro M hM hemail hlen
    constructor
    · show (conversationsOf (some "x@y.com") ((b.db.filter (fun d => d.status == "sent")).foldl
          (fun h m => pushConversation m.client_email m h) b.history)).length = 3
      rw [conversationsOf_foldl, hM]
      simp [List.filter_cons, hemail, hlen]
    · intro hmem
      have hsent : M ∈ b.db.filter (fun d => d.status == "sent") := by
        rw [hM]
        exact List.mem_singleton_self _
      have h1 : M.status = "sent" := by simpa using (List.mem_filter.mp hsent).2
      have h2 := (List.mem_filter.mp hmem).2
      simp [h1] at h2

/-- C17, the code at the failing execution: the sweep reads the sent messages (only message
1), a send request then marks message 4 sent, and the delete of line 202 removes message 4
as well; message 4 was in the active store before, and afterwards it is neither there nor in
any conversation record. -/
theorem sweep_deletes_unarchived_message :
    findOne "4" exampleDb ≠ none ∧
      findOne "4" (sweep none sendDuringSweep { db := exampleDb, history := [] }).db = none ∧
      (∀ r ∈ (sweep none sendDuringSweep { db := exampleDb, history := [] }).history,
        ∀ m ∈ r.conversations, m._id ≠ "4") ∧
      (sweep none sendDuringSweep { db := exampleDb, history := [] }).history.map
        (fun r => (r.email, r.conversations.map (fun m => m._id))) = [(some "a@x.com", ["1"])] := by
  decide

/-! ## Status of a message across backend operations -/

theorem findOne_some (id : String) (db : List Doc) (d : Doc) (h : findOne id db = some d) :
    d ∈ db ∧ d._id = id :=
  ⟨List.mem_of_find?_eq_some h, by simpa using List.find?_some h⟩

theorem findOne_of_mem (db : List Doc) (hnd : (db.map (fun d => d._id)).Nodup) (d : Doc)
    (hd : d ∈ db) : findOne d._id db = some d := by
  induction db with
  | nil => simp at hd
  | cons a rest ih =>
    have hnd2 : a._id ∉ rest.map (fun d => d._id) ∧ (rest.map (fun d => d._id)).Nodup := by
      simpa using hnd
    rcases List.mem_cons.mp hd with h | h
    · subst h
      simp [findOne]
    · have hne : a._id ≠ d._id := fun hc => hnd2.1 (hc ▸ List.mem_map.mpr ⟨d, h, rfl⟩)
      have hb : (a._id == d._id) = false := by simpa using hne
      simp only [findOne, List.find?_cons, hb]
      exact ih hnd2.2 h

theorem findOne_map (id : String) (g : Doc → Doc) (hg : ∀ d, (g d)._id = d._id)
    (db : List Doc) : findOne id (db.map g) = (findOne id db).map g := by
  induction db with
  | nil => rfl
  | cons a rest ih =>
    by_cases h : a._id = id
    · have hb : (a._id == id) = true := by simpa using h
      have hb2 : ((g a)._id == id) = true := by simpa [hg a] using h
      simp [findOne, List.find?_cons, hb, hb2]
    · have hb : (a._id == id) = false := by simpa using h
      have hb2 : ((g a)._id == id) = false := by simpa [hg a] using h
      simp only [findOne, List.map_cons, List.find?_cons, hb, hb2]
      exact ih

theorem findOne_updateOne_ne (id messageId : String) (f : Doc → Doc)
    (hf : ∀ d, (f d)._id = d._id) (hne : id ≠ messageId) (db : List Doc) :
    findOne id (updateOne messageId f db) = findOne id db := by
  induction db with
  | nil => rfl
  | cons a rest ih =>
    by_cases h : a._id = messageId
    · have hb : (a._id == messageId) = true := by simpa using h
      have hu : updateOne messageId f (a :: rest) = f a :: rest := by simp [updateOne, hb]
      have hb1 : (a._id == id) = false := by simpa [h] using hne.symm
      have hb2 : ((f a)._id == id) = false := by simpa [hf a, h] using hne.symm
      rw [hu]
      simp [findOne, List.find?_cons, hb1, hb2]
    · have hb : (a._id == messageId) = false := by simpa using h
      have hu : updateOne messageId f (a :: rest) = a :: updateOne messageId f rest := by
        simp [updateOne, hb]
      rw [hu]
      by_cases h1 : a._id = id
      · have hb1 : (a._id == id) = true := by simpa using h1
        simp [findOne, List.find?_cons, hb1]
      · have hb1 : (a._id == id) = false := by simpa using h1
        simp only [findOne, List.find?_cons, hb1]
        exact ih

theorem ids_updateOne (messageId : String) (f : Doc → Doc) (hf : ∀ d, (f d)._id = d._id)
    (db : List Doc) :
    (updateOne messageId f db).map (fun d => d._id) = db.map (fun d => d._id) := by
  induction db with
  | nil => rfl
  | cons a rest ih =>
    by_cases h : a._id = messageId
    · have hb : (a._id == messageId) = true := by simpa using h
      simp [updateOne, hb, hf a]
    · have hb : (a._id == messageId) = false := by simpa using h
      simp [updateOne, hb, ih]

/-- Status after an update by id with a function that keeps the id. -/
theorem statusOf_updateOne (id messageId : String) (f : Doc → Doc)
    (hf : ∀ d, (f d)._id = d._id) (db : List Doc) :
    statusOf id (updateOne messageId f db) =
      if id = messageId then (findOne id db).map (fun d => (f d).status)
      else statusOf id db := by
  by_cases h : id = messageId
  · subst h
    simp [statusOf, findOne_updateOne id f hf db, Function.comp_def]
  · simp [statusOf, findOne_updateOne_ne id messageId f hf h db, h]

/-- A send request leaves the status of every message as it was or makes it sent, and
removes no message. -/
theorem postSendEmail_statusOf (w : WebhookOutcome) (messageId : String)
    (llm_reply : Option String) (db : List Doc) (id : String) :
    statusOf id (postSendEmail w messageId llm_reply db).db = statusOf id db ∨
      (statusOf id db ≠ none ∧
        statusOf id (postSendEmail w messageId llm_reply db).db = some "sent") := by
  have hdb1 : statusOf id (if truthy llm_reply then
      updateOne messageId (fun d => { d with llm_reply := llm_reply }) db else db) =
      statusOf id db := by
    by_cases ht : truthy llm_reply = true
    · rw [if_pos ht,
        statusOf_updateOne id messageId (fun d => { d with llm_reply := llm_reply })
          (fun _ => rfl)]
      by_cases h : id = messageId
      · simp [h, statusOf]
      · simp [h]
    · rw [if_neg ht]
  have hfo1 : (findOne id (if truthy llm_reply then
      updateOne messageId (fun d => { d with llm_reply := llm_reply }) db else db) = none) ↔
      statusOf id db = none := by
    rw [← hdb1]
    simp [statusOf]
  unfold postSendEmail
  cases hfind : findOne messageId db with
  | none => left; rfl
  | some msg0 =>
    cases w with
    | networkError => left; exact hdb1
    | response st body =>
      cases body with
      | none => left; exact hdb1
      | some result =>
        simp only []
        rw [statusOf_updateOne id messageId (fun d => { d with status := "sent" })
          (fun _ => rfl)]
        by_cases h : id = messageId
        · rw [if_pos h]
          cases hf : findOne id (if truthy llm_reply then
              updateOne messageId (fun d => { d with llm_reply := llm_reply }) db else db) with
          | none =>
            left
            rw [(hfo1.mp hf)]
            rfl
          | some d1 =>
            right
            refine ⟨?_, rfl⟩
            intro hc
            rw [hfo1.mpr hc] at hf
            exact Option.noConfusion hf
        · rw [if_neg h]
          left
          exact hdb1

theorem findOne_filter (db : List Doc) (hnd : (db.map (fun d => d._id)).Nodup)
    (p : Doc → Bool) (id : String) (d : Doc) (h : findOne id (db.filter p) = some d) :
    findOne id db = some d := by
  obtain ⟨hmem, hid⟩ := findOne_some id _ d h
  have := findOne_of_mem db hnd d (List.mem_filter.mp hmem).1
  rw [hid] at this
  exact this

theorem findOne_append_some (db : List Doc) (x : Doc) (id : String) (d : Doc)
    (h : findOne id db = some d) : findOne id (db ++ [x]) = some d := by
  simp [findOne, List.find?_append] at h ⊢
  simp [h]

theorem findOne_append_none (db : List Doc) (x : Doc) (id : String)
    (h : findOne id (db ++ [x]) = none) : findOne id db = none := by
  simp only [findOne, List.find?_append] at h ⊢
  cases hf : List.find? (fun d => d._id == id) db with
  | none => rfl
  | some d => simp [hf] at h

theorem applyOp_pending_db (b : Backend) (hnd : (b.db.map (fun d => d._id)).Nodup) :
    (applyOp BackendOp.pending b).db =
      b.db.map (fun d => if d.status = "pending" then { d with status := "onscreen" }
        else d) := by
  show markOnscreen (findPending b.db) b.db = _
  exact markOnscreen_findPending b.db hnd

theorem applyOp_insert (x : Doc) (b : Backend) :
    applyOp (BackendOp.insert x) b =
      if (b.db.map (fun x => x._id)).contains x._id = true then b
      else { b with db := b.db ++ [x] } :=
  rfl

/-- A complete operation keeps the status of a message that stays in the store, or moves it
from pending to onscreen, or makes it sent. -/
theorem statusOf_applyOp (op : BackendOp) (b : Backend)
    (hnd : (b.db.map (fun d => d._id)).Nodup) (id st st1 : String)
    (h0 : statusOf id b.db = some st) (h1 : statusOf id (applyOp op b).db = some st1) :
    st1 = st ∨ (st = "pending" ∧ st1 = "onscreen") ∨ st1 = "sent" := by
  cases op with
  | onscreen =>
    left
    have h2 : statusOf id b.db = some st1 := h1
    rw [h0] at h2
    exact (Option.some.inj h2).symm
  | pending =>
    rw [applyOp_pending_db b hnd, statusOf,
      findOne_map id _ (fun d => by by_cases hp : d.status = "pending" <;> simp [hp])] at h1
    cases hf : findOne id b.db with
    | none => simp [statusOf, hf] at h0
    | some d =>
      have hst : d.status = st := by simpa [statusOf, hf] using h0
      by_cases hp : d.status = "pending"
      · right; left
        refine ⟨hst ▸ hp, ?_⟩
        simpa [hf, hp] using h1.symm
      · left
        have : d.status = st1 := by simpa [hf, hp] using h1
        rw [← this, hst]
  | send w messageId llm_reply =>
    rcases postSendEmail_statusOf w messageId llm_reply b.db id with h | ⟨_, h⟩
    · left
      have h2 : statusOf id (postSendEmail w messageId llm_reply b.db).db = some st1 := h1
      rw [h, h0] at h2
      exact (Option.some.inj h2).symm
    · right; right
      have h2 : statusOf id (postSendEmail w messageId llm_reply b.db).db = some st1 := h1
      rw [h] at h2
      exact (Option.some.inj h2).symm
  | sweep =>
    left
    have h2 : statusOf id (sweep none (fun d => d) b).db = some st1 := h1
    rw [sweep_quiet] at h2
    cases hf : findOne id (deleteManySent b.db) with
    | none => simp [statusOf, hf] at h2
    | some d =>
      have hd : findOne id b.db = some d := findOne_filter b.db hnd _ id d hf
      have e1 : d.status = st1 := by simpa [statusOf, hf] using h2
      have e0 : d.status = st := by simpa [statusOf, hd] using h0
      rw [← e1, e0]
  | insert x =>
    left
    cases hf : findOne id b.db with
    | none => simp [statusOf, hf] at h0
    | some d =>
      have e0 : d.status = st := by simpa [statusOf, hf] using h0
      rw [applyOp_insert] at h1
      by_cases hc : (b.db.map (fun x => x._id)).contains x._id = true
      · rw [if_pos hc, h0] at h1
        exact (Option.some.inj h1).symm
      · rw [if_neg hc] at h1
        have h2 : statusOf id (b.db ++ [x]) = some st1 := h1
        rw [statusOf, findOne_append_some b.db x id d hf] at h2
        have e1 : d.status = st1 := by simpa using h2
        rw [← e1, e0]

theorem statusOf_applyOp_some (op : BackendOp) (b : Backend)
    (hnd : (b.db.map (fun d => d._id)).Nodup) (hop : op ≠ BackendOp.sweep) (id st : String)
    (h0 : statusOf id b.db = some st) : ∃ st1, statusOf id (applyOp op b).db = some st1 := by
  cases op with
  | onscreen => exact ⟨st, h0⟩
  | pending =>
    rw [applyOp_pending_db b hnd, statusOf,
      findOne_map id _ (fun d => by by_cases hp : d.status = "pending" <;> simp [hp])]
    cases hf : findOne id b.db with
    | none => simp [statusOf, hf] at h0
    | some d => exact ⟨_, rfl⟩
  | send w messageId llm_reply =>
    rcases postSendEmail_statusOf w messageId llm_reply b.db id with h | ⟨_, h⟩
    · exact ⟨st, h.trans h0⟩
    · exact ⟨"sent", h⟩
  | sweep => exact absurd rfl hop
  | insert x =>
    rw [applyOp_insert]
    by_cases hc : (b.db.map (fun x => x._id)).contains x._id = true
    · rw [if_pos hc]
      exact ⟨st, h0⟩
    · rw [if_neg hc]
      cases hf : findOne id b.db with
      | none => simp [statusOf, hf] at h0
      | some d =>
        refine ⟨d.status, ?_⟩
        show statusOf id (b.db ++ [x]) = some d.status
        rw [statusOf, findOne_append_some b.db x id d hf]
        rfl

theorem ids_postSendEmail (w : WebhookOutcome) (messageId : String)
    (llm_reply : Option String) (db : List Doc) :
    (postSendEmail w messageId llm_reply db).db.map (fun d => d._id) =
      db.map (fun d => d._id) := by
  have h1 : (if truthy llm_reply then
      updateOne messageId (fun d => { d with llm_reply := llm_reply }) db else db).map
      (fun d => d._id) = db.map (fun d => d._id) := by
    by_cases ht : truthy llm_reply = true
    · rw [if_pos ht]
      exact ids_updateOne messageId (fun d => { d with llm_reply := llm_reply }) (fun _ => rfl)
        db
    · rw [if_neg ht]
  unfold postSendEmail
  cases hfind : findOne messageId db with
  | none => rfl
  | some msg0 =>
    cases w with
    | networkError => exact h1
    | response st body =>
      cases body with
      | none => exact h1
      | some result =>
        simp only []
        rw [ids_updateOne messageId (fun d => { d with status := "sent" }) (fun _ => rfl)]
        exact h1

theorem nodup_applyOp (op : BackendOp) (b : Backend)
    (hnd : (b.db.map (fun d => d._id)).Nodup) :
    ((applyOp op b).db.map (fun d => d._id)).Nodup := by
  cases op with
  | onscreen => exact hnd
  | pending =>
    rw [applyOp_pending_db b hnd, List.map_map]
    have hcongr : (b.db.map ((fun d => d._id) ∘ fun d =>
        if d.status = "pending" then { d with status := "onscreen" } else d)) =
        b.db.map (fun d => d._id) := by
      apply List.map_congr_left
      intro d _
      by_cases hp : d.status = "pending" <;> simp [hp]
    rw [hcongr]
    exact hnd
  | send w messageId llm_reply =>
    show ((postSendEmail w messageId llm_reply b.db).db.map (fun d => d._id)).Nodup
    rw [ids_postSendEmail]
    exact hnd
  | sweep =>
    show ((sweep none (fun d => d) b).db.map (fun d => d._id)).Nodup
    rw [sweep_quiet]
    exact hnd.sublist (List.Sublist.map _ (List.filter_sublist _))
  | insert x =>
    rw [applyOp_insert]
    by_cases hc : (b.db.map (fun x => x._id)).contains x._id = true
    · rw [if_pos hc]
      exact hnd
    · rw [if_neg hc]
      have hnot : x._id ∉ b.db.map (fun x => x._id) := by simpa using hc
      show ((b.db ++ [x]).map (fun d => d._id)).Nodup
      rw [List.map_append, List.map_singleton]
      refine List.Nodup.append hnd (List.nodup_singleton _) ?_
      intro a ha1 ha2
      have : a = x._id := by simpa using ha2
      exact hnot (this ▸ ha1)

theorem rank_le_two (st : String) (r : Nat) (h : rank st = some r) : r ≤ 2 := by
  unfold rank at h
  split_ifs at h <;> simp at h <;> omega

/-! ## Claim on the order of statuses -/

/-- C15: status is forward-only in the order pending, onscreen, sent.  For a store with
unique ids and every complete backend operation (onscreen refresh, pending poll, send by id
with any delivery outcome, archival sweep, and the arrival of a new message), a message that
is still in the active store afterwards has a status not earlier than before; a complete
poll leaves a message that is already onscreen at onscreen, and a send request for a message
that is already sent leaves it sent. -/
theorem status_forward_only (op : BackendOp) (b : Backend)
    (hnd : (b.db.map (fun d => d._id)).Nodup) :
    (∀ (id st st1 : String) (r : Nat), statusOf id b.db = some st →
        statusOf id (applyOp op b).db = some st1 → rank st = some r →
        ∃ r1, rank st1 = some r1 ∧ r ≤ r1) ∧
      (∀ id : String, statusOf id b.db = some "onscreen" →
        statusOf id (applyOp BackendOp.pending b).db = some "onscreen") ∧
      (∀ (id : String) (w : WebhookOutcome) (llm_reply : Option String),
        statusOf id b.db = some "sent" →
        statusOf id (applyOp (BackendOp.send w id llm_reply) b).db = some "sent") := by
  refine ⟨?_, ?_, ?_⟩
  · intro id st st1 r h0 h1 hr
    rcases statusOf_applyOp op b hnd id st st1 h0 h1 with h | ⟨hp, ho⟩ | h
    · exact ⟨r, h ▸ hr, Nat.le_refl r⟩
    · subst hp
      subst ho
      have hr0 : r = 0 := by simpa [rank] using hr.symm
      exact ⟨1, by simp [rank], by omega⟩
    · subst h
      exact ⟨2, by simp [rank], rank_le_two st r hr⟩
  · intro id h0
    rw [applyOp_pending_db b hnd, statusOf,
      findOne_map id _ (fun d => by by_cases hp : d.status = "pending" <;> simp [hp])]
    cases hf : findOne id b.db with
    | none => simp [statusOf, hf] at h0
    | some d =>
      have hst : d.status = "onscreen" := by simpa [statusOf, hf] using h0
      simp [hst]
  · intro id w llm_reply h0
    rcases postSendEmail_statusOf w id llm_reply b.db id with h | ⟨_, h⟩
    · exact h.trans h0
    · exact h

theorem status_forward_only_witness :
    statusOf "4" (applyOp BackendOp.pending { db := exampleDb, history := [] }).db =
        some "onscreen" ∧
      statusOf "1"
        (applyOp (BackendOp.send WebhookOutcome.networkError "1" (some "again"))
          { db := exampleDb, history := [] }).db = some "sent" :=
  have h := status_forward_only BackendOp.pending { db := exampleDb, history := [] }
    (by decide)
  ⟨h.2.1 "4" (by decide), h.2.2 "1" WebhookOutcome.networkError (some "again") (by decide)⟩

/-! ## Polls that run one at a time -/

theorem polled_pending (b : Backend) :
    ids (polled BackendOp.pending b) = (findPending b.db).map (fun d => d._id) ∨
      polled BackendOp.pending b = [] := by
  cases hr : transformAll (findPending b.db) with
  | none =>
    right
    simp [polled, getMessagesPending, hr]
  | some transformed =>
    left
    have h := ids_transformAll (findPending b.db) transformed hr
    simpa [polled, getMessagesPending, hr] using h

theorem mem_polled (op : BackendOp) (b : Backend) (e : Email) (he : e ∈ polled op b) :
    op = BackendOp.pending ∧ ∃ d ∈ b.db, d.status = "pending" ∧ e.id = d._id := by
  cases op with
  | pending =>
    refine ⟨rfl, ?_⟩
    rcases polled_pending b with h | h
    · have hid : e.id ∈ ids (polled BackendOp.pending b) := List.mem_map.mpr ⟨e, he, rfl⟩
      rw [h] at hid
      obtain ⟨d, hd, hde⟩ := List.mem_map.mp hid
      have h2 := (mem_findPending b.db d).mp hd
      exact ⟨d, h2.1, h2.2, hde.symm⟩
    · rw [h] at he
      simp at he
  | onscreen => simp [polled] at he
  | send w messageId llm_reply => simp [polled] at he
  | sweep => simp [polled] at he
  | insert x => simp [polled] at he

theorem nodup_ids_polled (op : BackendOp) (b : Backend)
    (hnd : (b.db.map (fun d => d._id)).Nodup) : (ids (polled op b)).Nodup := by
  cases op with
  | pending =>
    rcases polled_pending b with h1 | h1
    · rw [h1, ((findPending_perm b.db).map _).nodup_iff]
      exact hnd.sublist (List.Sublist.map _ (List.filter_sublist _))
    · rw [h1]
      simp [ids]
  | onscreen => simp [polled, ids]
  | send w messageId llm_reply => simp [polled, ids]
  | sweep => simp [polled, ids]
  | insert x => simp [polled, ids]

theorem statusOf_after_poll (b : Backend) (hnd : (b.db.map (fun d => d._id)).Nodup) (d : Doc)
    (hd : d ∈ b.db) (hp : d.status = "pending") :
    statusOf d._id (applyOp BackendOp.pending b).db = some "onscreen" := by
  rw [applyOp_pending_db b hnd, statusOf,
    findOne_map d._id _ (fun d => by by_cases hp : d.status = "pending" <;> simp [hp]),
    findOne_of_mem b.db hnd d hd]
  simp [hp]

/-- Without sweeps, a message returned by some poll of the run is, at the start of the run,
either pending or not yet in the store. -/
theorem polled_claimable (ops : List BackendOp) :
    ∀ b : Backend, (b.db.map (fun d => d._id)).Nodup → BackendOp.sweep ∉ ops →
      ∀ e ∈ (runOps ops b).2,
        statusOf e.id b.db = none ∨ statusOf e.id b.db = some "pending" := by
  induction ops with
  | nil =>
    intro b _ _ e he
    simp [runOps] at he
  | cons op rest ih =>
    intro b hnd hns e he
    have hop : op ≠ BackendOp.sweep := fun hc => hns (hc ▸ List.mem_cons_self _ _)
    have hrest : BackendOp.sweep ∉ rest := fun hc => hns (List.mem_cons_of_mem _ hc)
    have he2 : e ∈ polled op b ++ (runOps rest (applyOp op b)).2 := he
    rcases List.mem_append.mp he2 with h | h
    · obtain ⟨_, d, hd, hp, hid⟩ := mem_polled op b e h
      right
      rw [hid, statusOf, findOne_of_mem b.db hnd d hd]
      simp [hp]
    · cases h0 : statusOf e.id b.db with
      | none => exact Or.inl rfl
      | some st =>
        right
        obtain ⟨st1, h1⟩ := statusOf_applyOp_some op b hnd hop e.id st h0
        rcases ih (applyOp op b) (nodup_applyOp op b hnd) hrest e h with hc | hc
        · rw [hc] at h1
          exact Option.noConfusion h1
        · rw [hc] at h1
          have hst1 : st1 = "pending" := (Option.some.inj h1).symm
          subst hst1
          rcases statusOf_applyOp op b hnd e.id st "pending" h0 hc with h2 | ⟨_, h2⟩ | h2
          · rw [← h2]
          · exact absurd h2 (by decide)
          · exact absurd h2 (by decide)

theorem runOps_nodup (ops : List BackendOp) :
    ∀ b : Backend, (b.db.map (fun d => d._id)).Nodup → BackendOp.sweep ∉ ops →
      (ids (runOps ops b).2).Nodup := by
  induction ops with
  | nil =>
    intro b _ _
    simp [runOps, ids]
  | cons op rest ih =>
    intro b hnd hns
    have hrest : BackendOp.sweep ∉ rest := fun hc => hns (List.mem_cons_of_mem _ hc)
    show (ids (polled op b ++ (runOps rest (applyOp op b)).2)).Nodup
    have happ : ids (polled op b ++ (runOps rest (applyOp op b)).2) =
        ids (polled op b) ++ ids (runOps rest (applyOp op b)).2 := by simp [ids]
    rw [happ]
    refine List.Nodup.append (nodup_ids_polled op b hnd)
      (ih (applyOp op b) (nodup_applyOp op b hnd) hrest) ?_
    intro x hx1 hx2
    obtain ⟨e1, he1, rfl⟩ := List.mem_map.mp hx1
    obtain ⟨e2, he2, hid⟩ := List.mem_map.mp hx2
    obtain ⟨hop, d, hd, hp, hid1⟩ := mem_polled op b e1 he1
    subst hop
    have hafter := statusOf_after_poll b hnd d hd hp
    have hcl := polled_claimable rest (applyOp BackendOp.pending b)
      (nodup_applyOp BackendOp.pending b hnd) hrest e2 he2
    have hid2 : e2.id = d._id := hid.trans hid1
    rw [hid2, hafter] at hcl
    rcases hcl with hc | hc
    · exact Option.noConfusion hc
    · exact absurd (Option.some.inj hc) (by decide)

theorem runOps_sent_stays (ops : List BackendOp) :
    ∀ b : Backend, (b.db.map (fun d => d._id)).Nodup → BackendOp.sweep ∉ ops →
      ∀ id : String, statusOf id b.db = some "sent" →
        statusOf id (runOps ops b).1.db = some "sent" := by
  induction ops with
  | nil =>
    intro b _ _ id h
    exact h
  | cons op rest ih =>
    intro b hnd hns id h0
    have hop : op ≠ BackendOp.sweep := fun hc => hns (hc ▸ List.mem_cons_self _ _)
    have hrest : BackendOp.sweep ∉ rest := fun hc => hns (List.mem_cons_of_mem _ hc)
    obtain ⟨st1, h1⟩ := statusOf_applyOp_some op b hnd hop id "sent" h0
    have hst1 : st1 = "sent" := by
      rcases statusOf_applyOp op b hnd id "sent" st1 h0 h1 with h2 | ⟨h2, _⟩ | h2
      · exact h2
      · exact absurd h2 (by decide)
      · exact h2
    subst hst1
    exact ih (applyOp op b) (nodup_applyOp op b hnd) hrest id h1

/-! ## Claim on overlapping polls -/

/-- C14, counterexample: message 1 is pending.  A first poll reads it; before the first
poll updates, a second poll runs from start to end and returns message 1; the first poll
returns message 1 as well.  When moreover message 1 is sent before the first poll updates,
the update of the first poll sets it back from sent to onscreen. -/
theorem overlapping_polls_counterexample :
    (getMessagesPending (fun d => d) examplePending).response.map ids = some ["1"] ∧
      (getMessagesPending secondPoll examplePending).response.map ids = some ["1"] ∧
      statusOf "1" (secondPollThenSend examplePending) = some "sent" ∧
      statusOf "1" (getMessagesPending secondPollThenSend examplePending).db =
        some "onscreen" := by
  decide

/-- C14, amended: the update of the poll is by id, for the ids it read as pending.  When
every poll and every send runs from start to end with no other store write in between, in a
store with unique ids into which new messages may arrive: a poll changes only messages that
are pending at the time of its update, each of them to onscreen; each message is returned by
at most one poll; and a message that is sent stays sent. -/
theorem complete_polls_claim_once (ops : List BackendOp) (b : Backend)
    (hnd : (b.db.map (fun d => d._id)).Nodup) (hns : BackendOp.sweep ∉ ops) :
    (applyOp BackendOp.pending b).db =
        b.db.map (fun d => if d.status = "pending" then { d with status := "onscreen" }
          else d) ∧
      (ids (runOps ops b).2).Nodup ∧
      (∀ id : String, statusOf id b.db = some "sent" →
        statusOf id (runOps ops b).1.db = some "sent") :=
  ⟨applyOp_pending_db b hnd, runOps_nodup ops b hnd hns, runOps_sent_stays ops b hnd hns⟩

theorem complete_polls_claim_once_witness :
    ids (runOps
        [BackendOp.pending,
          BackendOp.insert { exampleDoc with _id := "5", status := "pending" },
          BackendOp.send (WebhookOutcome.response 200 (some { success := true })) "2" none,
          BackendOp.pending, BackendOp.pending]
        { db := exampleDb, history := [] }).2 = ["3", "2", "5"] ∧
      (ids (runOps
        [BackendOp.pending,
          BackendOp.insert { exampleDoc with _id := "5", status := "pending" },
          BackendOp.send (WebhookOutcome.response 200 (some { success := true })) "2" none,
          BackendOp.pending, BackendOp.pending]
        { db := exampleDb, history := [] }).2).Nodup :=
  ⟨by decide,
    (complete_polls_claim_once
      [BackendOp.pending,
        BackendOp.insert { exampleDoc with _id := "5", status := "pending" },
        BackendOp.send (WebhookOutcome.response 200 (some { success := true })) "2" none,
        BackendOp.pending, BackendOp.pending]
      { db := exampleDb, history := [] } (by decide) (by decide)).2.1⟩

/-! ## Claim on the notification queue -/

/-- C26: `addToast` appends the new notification as the last entry, leaving the existing
entries unchanged and in order, and returns the id stored in that entry; `removeToast(id)`
keeps exactly the entries whose id differs, in their order, is a no-op when no entry has
that id, and is idempotent; removing the id returned by `addToast`, when no queued entry
carries that id, gives back the queue as it was before the `addToast`. -/
theorem toast_queue_laws (id : Nat) (type : ToastType) (message : String) (s : Store) :
    (addToast id type message s).2.toasts =
        s.toasts ++ [{ id := id, type := type, message := message }] ∧
      (addToast id type message s).1 = id ∧
      (∀ rid : Nat, (removeToast rid s).toasts = s.toasts.filter (fun t => t.id != rid)) ∧
      (∀ (rid : Nat) (t : Toast),
        t ∈ (removeToast rid s).toasts ↔ t ∈ s.toasts ∧ t.id ≠ rid) ∧
      (∀ rid : Nat, (removeToast rid s).toasts.Sublist s.toasts) ∧
      (∀ rid : Nat, (∀ t ∈ s.toasts, t.id ≠ rid) → removeToast rid s = s) ∧
      (∀ rid : Nat, removeToast rid (removeToast rid s) = removeToast rid s) ∧
      ((∀ t ∈ s.toasts, t.id ≠ id) →
        removeToast (addToast id type message s).1 (addToast id type message s).2 = s) := by
  refine ⟨rfl, rfl, fun _ => rfl, ?_, ?_, ?_, ?_, ?_⟩
  · intro rid t
    simp [removeToast, List.mem_filter]
  · intro rid
    exact List.filter_sublist _
  · intro rid h
    have hf := filter_fresh s.toasts rid h
    cases s
    simp only [removeToast] at hf ⊢
    rw [hf]
  · intro rid
    simp [removeToast, List.filter_filter]
  · intro h
    have hf := filter_loading s.toasts { id := id, type := type, message := message } h
    cases s
    simp only [removeToast, addToast] at hf ⊢
    rw [hf]

theorem toast_queue_laws_witness :
    removeToast (addToast 9 ToastType.loading "Sending email..." exampleStore).1
        (addToast 9 ToastType.loading "Sending email..." exampleStore).2 = exampleStore :=
  (toast_queue_laws 9 ToastType.loading "Sending email..." exampleStore).2.2.2.2.2.2.2
    (by decide)

/-! ## Claims on the reply versions of an open review -/

/-- C21: for a ledger whose cursor is within the history and every text, the edit handler
leaves the length of the history and the cursor unchanged, makes the entry at the cursor
equal to the text, leaves every other entry unchanged, and stores the resulting history
under `reply_history_<id>`. -/
theorem handleReplyChange_overwrites (text : String) (u : Session) (selectedEmail : Email)
    (hsel : u.store.selectedEmail = some selectedEmail)
    (h0 : 0 ≤ u.currentVersionIndex)
    (h1 : u.currentVersionIndex < (u.replyHistory.length : Int)) :
    (handleReplyChange text u).replyHistory.length = u.replyHistory.length ∧
      (handleReplyChange text u).currentVersionIndex = u.currentVersionIndex ∧
      (handleReplyChange text u).replyHistory[u.currentVersionIndex.toNat]? =
        some (some text) ∧
      (∀ j : Nat, j ≠ u.currentVersionIndex.toNat →
        (handleReplyChange text u).replyHistory[j]? = u.replyHistory[j]?) ∧
      (handleReplyChange text u).localStorage (storageKey selectedEmail.id) =
        some (handleReplyChange text u).replyHistory := by
  have hlt : u.currentVersionIndex.toNat < u.replyHistory.length := by omega
  have hneg : ¬ u.currentVersionIndex < 0 := by omega
  have hhist : (handleReplyChange text u).replyHistory =
      u.replyHistory.set u.currentVersionIndex.toNat (some text) := by
    simp [handleReplyChange, hsel, jsArraySet, hneg, hlt]
  refine ⟨?_, ?_, ?_, ?_, ?_⟩
  · rw [hhist, List.length_set]
  · simp [handleReplyChange, hsel]
  · rw [hhist]
    simp [hlt]
  · intro j hj
    rw [hhist, List.getElem?_set_ne (Ne.symm hj)]
  · rw [hhist]
    simp [handleReplyChange, hsel, jsArraySet, hneg, hlt, setItem]

theorem handleReplyChange_overwrites_witness :
    (handleReplyChange "edited" exampleSession).replyHistory.length = 2 ∧
      (handleReplyChange "edited" exampleSession).replyHistory[0]? = some (some "edited") ∧
      (handleReplyChange "edited" exampleSession).replyHistory[1]? = some (some "second") :=
  have h := handleReplyChange_overwrites "edited" exampleSession exampleA rfl (by decide)
    (by decide)
  ⟨h.1, h.2.2.1, h.2.2.2.1 1 (by decide)⟩

/-- C24: opening a message for review from a closed modal.  When nothing is stored under
`reply_history_<id>` the ledger is the single entry holding the current draft, the cursor
is 0, and that ledger is stored; when a ledger is stored, the history is exactly the stored
sequence and the cursor is its last index. -/
theorem openReview_ledger (email : Email) (u : Session)
    (hclosed : u.store.selectedEmail = none) :
    (u.localStorage (storageKey email.id) = none →
        (openReview email u).replyHistory = [email.Reply_of_email] ∧
          (openReview email u).currentVersionIndex = 0 ∧
          (openReview email u).localStorage (storageKey email.id) =
            some [email.Reply_of_email]) ∧
      (∀ history : List (Option String),
        u.localStorage (storageKey email.id) = some history →
        (openReview email u).replyHistory = history ∧
          (openReview email u).currentVersionIndex = (history.length : Int) - 1 ∧
          (openReview email u).localStorage (storageKey email.id) = some history) := by
  constructor
  · intro hnone
    simp [openReview, afterRender, cleanupVersionHistory, hclosed, loadHistoryEffect, openModal,
      hnone, setItem]
  · intro history hsome
    simp [openReview, afterRender, cleanupVersionHistory, hclosed, loadHistoryEffect, openModal,
      hsome]

theorem openReview_ledger_witness :
    (openReview exampleB { exampleSession with store := exampleStore }).replyHistory =
        [some "draft B"] ∧
      (openReview exampleB { exampleSession with store := exampleStore }).currentVersionIndex =
        0 :=
  have h := (openReview_ledger exampleB { exampleSession with store := exampleStore } rfl).1 rfl
  ⟨h.1, h.2.1⟩

theorem regenerateResume_failed (toastId : Nat) (d : DraftOutcome) (hfail : d.failed = true)
    (selectedEmail : Email) (emails : List Email) (s : Store) :
    regenerateResume toastId d selectedEmail emails s =
      ({ s with toasts := s.toasts ++
          [{ id := toastId, type := ToastType.error, message := regenerateErrorMessage d }] },
        none) := by
  cases d with
  | fetchThrows => rfl
  | notOk => rfl
  | jsonThrows => rfl
  | body newReply =>
    cases newReply with
    | none => rfl
    | some t =>
      have ht : t = "" := by simpa [DraftOutcome.failed] using hfail
      subst ht
      rfl

/-- C23: for a regeneration that fails (the call throws, the status is not ok, the body
does not parse or carries no reply text), `regenerateWithBackend` returns a failure value
and enqueues exactly one notification, of kind error; the handler changes nothing else: the
history, the cursor, the stored ledger, the working set and the displayed reply are as the
other tasks left them, so unchanged when nothing else ran meanwhile. -/
theorem regenerate_failure (toastId : Nat) (d : DraftOutcome) (hfail : d.failed = true)
    (u : Session) (selectedEmail : Email)
    (hsel : u.store.selectedEmail = some selectedEmail) :
    (∀ duringFetch : Store → Store,
        regenerateWithBackend toastId d duringFetch u.store =
          ({ duringFetch u.store with
              toasts := (duringFetch u.store).toasts ++
                [{ id := toastId, type := ToastType.error,
                   message := regenerateErrorMessage d }] }, none)) ∧
      (∀ during : Session → Session,
        handleRegenerateWithCustomization toastId d during u =
          { during { u with isRegenerating := true } with
            store := { (during { u with isRegenerating := true }).store with
              toasts := (during { u with isRegenerating := true }).store.toasts ++
                [{ id := toastId, type := ToastType.error,
                   message := regenerateErrorMessage d }] },
            isRegenerating := false }) ∧
      (handleRegenerateWithCustomization toastId d (fun v => v) u).replyHistory =
        u.replyHistory ∧
      (handleRegenerateWithCustomization toastId d (fun v => v) u).currentVersionIndex =
        u.currentVersionIndex ∧
      (handleRegenerateWithCustomization toastId d (fun v => v) u).localStorage =
        u.localStorage ∧
      (handleRegenerateWithCustomization toastId d (fun v => v) u).store.emails =
        u.store.emails ∧
      (handleRegenerateWithCustomization toastId d (fun v => v) u).store.suggestedReply =
        u.store.suggestedReply ∧
      (handleRegenerateWithCustomization toastId d (fun v => v) u).store.toasts =
        u.store.toasts ++
          [{ id := toastId, type := ToastType.error,
             message := regenerateErrorMessage d }] := by
  have hgen : ∀ during : Session → Session,
      handleRegenerateWithCustomization toastId d during u =
        { during { u with isRegenerating := true } with
          store := { (during { u with isRegenerating := true }).store with
            toasts := (during { u with isRegenerating := true }).store.toasts ++
              [{ id := toastId, type := ToastType.error,
                 message := regenerateErrorMessage d }] },
          isRegenerating := false } := by
    intro during
    simp only [handleRegenerateWithCustomization, hsel, regenerateResume_failed toastId d hfail]
  refine ⟨?_, hgen, ?_, ?_, ?_, ?_, ?_, ?_⟩
  · intro duringFetch
    simp only [regenerateWithBackend, hsel, regenerateResume_failed toastId d hfail]
  all_goals rw [hgen]

theorem regenerate_failure_witness :
    (handleRegenerateWithCustomization 9 DraftOutcome.notOk (fun v => v)
        exampleSession).replyHistory = [some "draft A", some "second"] ∧
      (handleRegenerateWithCustomization 9 DraftOutcome.notOk (fun v => v)
        exampleSession).store.toasts =
        [{ id := 9, type := ToastType.error,
           message := "Error regenerating reply. Please try again." }] :=
  have h := regenerate_failure 9 DraftOutcome.notOk rfl exampleSession exampleA rfl
  ⟨h.2.2.1, h.2.2.2.2.2.2.2⟩

/-! ## Claims on the stored record and on the refresh -/

/-- C29, counterexample: the request for message 1 carries the reply text "edited" and the
delivery call throws a network error; the stored reply draft is "edited" afterwards, not the
draft stored before. -/
theorem postSendEmail_failure_keeps_edit_counterexample :
    findOne "1" [exampleDoc] = some exampleDoc ∧
      findOne "1" (postSendEmail WebhookOutcome.networkError "1" (some "edited")
        [exampleDoc]).db = some { exampleDoc with llm_reply := some "edited" } ∧
      findOne "1" (postSendEmail WebhookOutcome.networkError "1" (some "edited")
        [exampleDoc]).db ≠ findOne "1" [exampleDoc] := by
  decide

/-- C29, amended: for a send request for a message present in the store whose delivery call
throws or returns a body that does not parse, every field of the stored message other than
the reply draft is the same after the request as before it; the reply draft is the reply
text of the request when that text is non-empty, and is unchanged when the request carried
no reply text or an empty one. -/
theorem postSendEmail_failure_record (w : WebhookOutcome) (messageId : String)
    (llm_reply : Option String) (db : List Doc) (d : Doc)
    (hfind : findOne messageId db = some d) (hfail : w.parsed = false) :
    findOne messageId (postSendEmail w messageId llm_reply db).db =
      some (if truthy llm_reply then { d with llm_reply := llm_reply } else d) := by
  have hdb : (postSendEmail w messageId llm_reply db).db =
      if truthy llm_reply then
        updateOne messageId (fun d => { d with llm_reply := llm_reply }) db
      else db := by
    unfold postSendEmail
    rw [hfind]
    cases w with
    | networkError => rfl
    | response st body =>
      cases body with
      | none => rfl
      | some result => simp [WebhookOutcome.parsed] at hfail
  rw [hdb]
  by_cases ht : truthy llm_reply = true
  · rw [if_pos ht, if_pos ht,
      findOne_updateOne messageId (fun d => { d with llm_reply := llm_reply }) (fun _ => rfl),
      hfind]
    rfl
  · rw [if_neg ht, if_neg ht, hfind]

theorem postSendEmail_failure_record_witness :
    findOne "1" (postSendEmail (WebhookOutcome.response 502 none) "1" (some "")
        [exampleDoc]).db =
      some (if truthy (some "") then { exampleDoc with llm_reply := some "" }
        else exampleDoc) :=
  postSendEmail_failure_record (WebhookOutcome.response 502 none) "1" (some "") [exampleDoc]
    exampleDoc (by decide) rfl

/-- C30, the code at the failing input: the onscreen route answers with status 500 and the
body `{ error }`; the body parses, so `setEmails` writes it: afterwards `state.emails` is
that object and not the previous working set.  A list body is written as it is, and a
thrown fetch or parse leaves the working set unchanged. -/
theorem setEmails_writes_error_body :
    (setEmails (OnscreenFetch.body (EmailsValue.errorObject "connection lost"))
        (EmailsValue.list [exampleA])).1 = EmailsValue.errorObject "connection lost" ∧
      (setEmails (OnscreenFetch.body (EmailsValue.errorObject "connection lost"))
        (EmailsValue.list [exampleA])).1 ≠ EmailsValue.list [exampleA] ∧
      (setEmails (OnscreenFetch.body (EmailsValue.list [exampleB]))
        (EmailsValue.list [exampleA])).1 = EmailsValue.list [exampleB] ∧
      (setEmails OnscreenFetch.fetchThrows (EmailsValue.list [exampleA])).1 =
        EmailsValue.list [exampleA] ∧
      (setEmails OnscreenFetch.jsonThrows (EmailsValue.list [exampleA])).1 =
        EmailsValue.list [exampleA] := by
  decide

/-! ## Claim on the position of a restored message -/

theorem findIdx_append_cons (pre post : List Email) (e : Email) (hnot : e.id ∉ ids pre) :
    (pre ++ e :: post).findIdx (fun x => x.id == e.id) = pre.length := by
  induction pre with
  | nil => simp [List.findIdx_cons]
  | cons a pre ih =>
    have h2 : ¬ e.id = a.id ∧ e.id ∉ ids pre := by simpa [ids] using hnot
    have hb : (a.id == e.id) = false := by simpa using fun hc : a.id = e.id => h2.1 hc.symm
    rw [List.cons_append, List.findIdx_cons, hb]
    simp only [cond_false, List.length_cons]
    rw [ih h2.2]

theorem restoreAt_append (pre rest1 : List Email) (e : Email) :
    restoreAt pre.length e (pre ++ rest1) = pre ++ e :: rest1 := by
  simp [restoreAt]

/-- C27, counterexample: the working set is `[A, B, C]`; the send of B is in flight when a
send of A succeeds and removes A; the send of B then fails and B is re-inserted at its old
index 1 of the list `[C]`: the working set is `[C, B]`, with B behind C although it stood
before C. -/
theorem rollback_order_counterexample :
    exampleStore.emails = [exampleA, exampleB, exampleC] ∧
      (sendEmail { quietEnv Delivery.jsonThrows with duringFetch := sendADuring } "2" none
        exampleStore).1.emails = [exampleC, exampleB] := by
  decide

/-- C27, amended: for a failed send of a message of a working set with distinct ids, the
rollback inserts the message at its original index in the working set as it is when the
send fails: before the entries from that index on, or at the end of a shorter list.  When
the entries that stood before the message are unchanged at that time, whatever happened
behind them (a poll merge appending new messages, another send removing a message that
stood behind), the restored message stands right after those entries and before all the
others, so it and the surviving messages of the original working set are in their original
relative order. -/
theorem rollback_keeps_order (env : SendEnv) (e : Email) (customReplyText : Option String)
    (s : Store) (pre post cur : List Email)
    (hem : s.emails = pre ++ e :: post) (hnd : (ids s.emails).Nodup)
    (hfail : env.delivery ≠ Delivery.body true)
    (hcur : ∀ t : Store, t.emails = pre ++ post → (env.duringFetch t).emails = cur) :
    (sendEmail env e.id customReplyText s).1.emails =
        cur.take pre.length ++ [e] ++ cur.drop pre.length ∧
      ∀ rest1 : List Email, cur = pre ++ rest1 →
        (sendEmail env e.id customReplyText s).1.emails = pre ++ e :: rest1 ∧
          ∀ surv : List Email, surv.Sublist rest1 →
            (pre ++ e :: surv).Sublist (sendEmail env e.id customReplyText s).1.emails := by
  have hmem : e ∈ s.emails := by rw [hem]; simp
  have hnd2 : (ids (pre ++ e :: post)).Nodup := hem ▸ hnd
  have hnot : e.id ∉ ids pre := by
    have happ : ids (pre ++ e :: post) = ids pre ++ e.id :: ids post := by simp [ids]
    rw [happ] at hnd2
    exact fun hc => (List.nodup_append.mp hnd2).2.2 hc (List.mem_cons_self _ _)
  have hidx : s.emails.findIdx (fun x => x.id == e.id) = pre.length := by
    rw [hem]
    exact findIdx_append_cons pre post e hnot
  have hfil : s.emails.filter (fun x => x.id != e.id) = pre ++ post := by
    rw [hem]
    exact filter_ne_of_nodup pre post e hnd2
  have hgen : (sendEmail env e.id customReplyText s).1.emails = restoreAt pre.length e cur := by
    have hk := hcur (addToast env.loadingToastId ToastType.loading "Sending email..."
      { s with emails := s.emails.filter (fun x => x.id != e.id) }).2 hfil
    simp only [sendEmail, sendStart_present env.loadingToastId e customReplyText s hnd hmem,
      hidx]
    cases hd : env.delivery with
    | fetchThrows =>
      simp only [sendFinish, sendCatch, removeToast, addToast] at hk ⊢
      rw [hk]
    | jsonThrows =>
      simp only [sendFinish, sendCatch, removeToast, addToast] at hk ⊢
      rw [hk]
    | body b =>
      cases b with
      | true => exact absurd hd hfail
      | false =>
        simp only [sendFinish, sendCatch, removeToast, addToast] at hk ⊢
        rw [hk]
  refine ⟨hgen, ?_⟩
  intro rest1 hrest
  have hmain : (sendEmail env e.id customReplyText s).1.emails = pre ++ e :: rest1 := by
    rw [hgen, hrest]
    exact restoreAt_append pre rest1 e
  refine ⟨hmain, ?_⟩
  intro surv hsurv
  rw [hmain]
  exact List.Sublist.append_left (List.Sublist.cons₂ e hsurv) pre

theorem rollback_keeps_order_witness :
    (sendEmail { quietEnv Delivery.jsonThrows with
        duringFetch := fun t => (sendEmail (quietEnv (Delivery.body true)) "3" none t).1 }
      "2" none exampleStore).1.emails = [exampleA, exampleB] :=
  ((rollback_keeps_order
    { quietEnv Delivery.jsonThrows with
      duringFetch := fun t => (sendEmail (quietEnv (Delivery.body true)) "3" none t).1 }
    exampleB none exampleStore [exampleA] [exampleC] [exampleA] rfl (by decide) (by decide)
    (fun t ht => by
      show (sendEmail (quietEnv (Delivery.body true)) "3" none t).1.emails = [exampleA]
      have hnd : (ids t.emails).Nodup := by rw [ht]; decide
      have hmem : exampleC ∈ t.emails := by rw [ht]; decide
      have h := (sendEmail_present (quietEnv (Delivery.body true)) exampleC none t hnd hmem
        (fun _ => rfl)).1
      have hid : exampleC.id = "3" := rfl
      rw [hid] at h
      rw [h, ht]
      decide)).2 [] rfl).1

/-! ## Claim on a message that has been sent -/

theorem mem_ids_uniqueEmails (x : String) (l : List Email) :
    x ∈ ids (uniqueEmails l) ↔ x ∈ ids l := by
  rw [(uniqueEmails_spec l).1, mem_firstOccurrences]

theorem not_mem_ids_fetchNewEmailsWrite (id : String) (emails newMsgs : List Email) (s : Store)
    (h1 : id ∉ ids emails) (h2 : id ∉ ids newMsgs) (h3 : id ∉ ids s.emails) :
    id ∉ ids (fetchNewEmailsWrite emails newMsgs s).emails := by
  unfold fetchNewEmailsWrite
  split
  · show id ∉ ids (uniqueEmails (emails ++ newMsgs))
    rw [mem_ids_uniqueEmails]
    have happ : ids (emails ++ newMsgs) = ids emails ++ ids newMsgs := by simp [ids]
    rw [happ, List.mem_append]
    rintro (h | h)
    · exact h1 h
    · exact h2 h
  · exact h3

/-- A step keeps an id out of the working set and out of every list held by a suspended
call, when it brings no message with this id from the backend. -/
theorem step_gone (id : String) (c c1 : Client) (a : Action) (hgone : IdGone id c)
    (hstep : step c a = some c1) (hav : a.avoids id = true) : IdGone id c1 := by
  obtain ⟨h1, h2, h3, h4⟩ := hgone
  cases a with
  | refresh emails =>
    have hnot : id ∉ ids emails := by simpa [Action.avoids] using hav
    by_cases hnd : (ids emails).Nodup
    · simp only [step, hnd, if_true, Option.some.injEq] at hstep
      subst hstep
      exact ⟨hnot, h2, h3, h4⟩
    · simp [step, hnd] at hstep
  | pollRead =>
    simp only [step, Option.some.injEq] at hstep
    subst hstep
    refine ⟨h1, ?_, h3, h4⟩
    intro snapshot hs
    rcases List.mem_append.mp hs with h | h
    · exact h2 snapshot h
    · have : snapshot = c.store.emails := by simpa using h
      rw [this]
      exact h1
  | pollWrite i newMsgs =>
    have hnot : id ∉ ids newMsgs := by simpa [Action.avoids] using hav
    cases hget : c.polls[i]? with
    | none => simp [step, hget] at hstep
    | some emails =>
      simp only [step, List.get?_eq_getElem?, hget, Option.some.injEq] at hstep
      subst hstep
      have hmem : emails ∈ c.polls := List.getElem?_mem hget
      refine ⟨not_mem_ids_fetchNewEmailsWrite id emails newMsgs c.store (h2 emails hmem) hnot h1,
        ?_, h3, h4⟩
      intro snapshot hs
      exact h2 snapshot ((List.eraseIdx_sublist _ _).subset hs)
  | sendStart loadingToastId id1 customReplyText =>
    cases hs : sendStart loadingToastId id1 customReplyText c.store with
    | none =>
      simp only [step, hs, Option.some.injEq] at hstep
      subst hstep
      exact ⟨h1, h2, h3, h4⟩
    | some r =>
      obtain ⟨p, s1⟩ := r
      simp only [step, hs, Option.some.injEq] at hstep
      subst hstep
      obtain ⟨_, heid, hmem, hem⟩ := sendStart_some _ _ _ _ _ _ hs
      refine ⟨?_, h2, h3, ?_⟩
      · show id ∉ ids s1.emails
        rw [hem]
        intro hc
        obtain ⟨x, hx, rfl⟩ := List.mem_map.mp hc
        exact h1 (mem_ids_of_mem (List.mem_filter.mp hx).1)
      · intro q hq
        rcases List.mem_append.mp hq with hq1 | hq1
        · exact h4 q hq1
        · have hqp : q = p := by simpa using hq1
          subst hqp
          rw [heid]
          exact fun hc => h1 (hc ▸ hmem)
  | sendFinish i resultToastId d =>
    cases hget : c.sends[i]? with
    | none => simp [step, hget] at hstep
    | some p =>
      simp only [step, List.get?_eq_getElem?, hget, Option.some.injEq] at hstep
      subst hstep
      have hp : p ∈ c.sends := List.getElem?_mem hget
      refine ⟨?_, h2, h3, fun q hq => h4 q ((List.eraseIdx_sublist _ _).subset hq)⟩
      show id ∉ ids (sendFinish resultToastId d p c.store).1.emails
      rcases sendFinish_emails resultToastId d p c.store with he | he
      · rw [he]
        exact h1
      · rw [he, (ids_restoreAt_perm p.originalIndex p.emailToSend c.store.emails).mem_iff,
          List.mem_cons]
        rintro (hc | hc)
        · exact h4 p hp hc.symm
        · exact h1 hc
  | openModal email =>
    simp only [step, Option.some.injEq] at hstep
    subst hstep
    exact ⟨h1, h2, h3, h4⟩
  | regenRead =>
    cases hsel : c.store.selectedEmail with
    | none => simp [step, hsel] at hstep
    | some selectedEmail =>
      simp only [step, hsel, Option.some.injEq] at hstep
      subst hstep
      refine ⟨h1, h2, ?_, h4⟩
      intro r hr
      rcases List.mem_append.mp hr with hr1 | hr1
      · exact h3 r hr1
      · have hrr : r = (selectedEmail, c.store.emails) := by simpa using hr1
        subst hrr
        exact h1
  | regenWrite i toastId newReply =>
    cases hget : c.regens[i]? with
    | none => simp [step, hget] at hstep
    | some r =>
      obtain ⟨selectedEmail, emails⟩ := r
      simp only [step, List.get?_eq_getElem?, hget, Option.some.injEq] at hstep
      subst hstep
      have hmem : (selectedEmail, emails) ∈ c.regens := List.getElem?_mem hget
      refine ⟨?_, h2, ?_, h4⟩
      · show id ∉ ids (regenerateWrite toastId selectedEmail emails newReply c.store).emails
        rw [ids_regenerateWrite]
        exact h3 _ hmem
      · intro r hr
        exact h3 r ((List.eraseIdx_sublist _ _).subset hr)

theorem run_gone (id : String) (acts : List Action) :
    ∀ c c1 : Client, IdGone id c → (∀ a ∈ acts, a.avoids id = true) →
      run c acts = some c1 → IdGone id c1 := by
  induction acts with
  | nil =>
    intro c c1 hgone _ h
    simp only [run, Option.some.injEq] at h
    exact h ▸ hgone
  | cons a rest ih =>
    intro c c1 hgone hav h
    cases hs : step c a with
    | none => simp [run, hs] at h
    | some c2 =>
      simp only [run, hs] at h
      exact ih c2 c1 (step_gone id c c2 a hgone hs (hav a (List.mem_cons_self _ _)))
        (fun x hx => hav x (List.mem_cons_of_mem _ hx)) h

/-- C28, counterexample: a poll reads the working set `[A]`; the send of A removes A and
succeeds, the working set is empty; the poll then resumes with batch `[B]` and writes the
merge of the list it read, so A is an entry again.  A regeneration that read `[A]` before
the removal writes A back in the same way. -/
theorem sent_message_written_back_counterexample :
    (run initialClient
        [Action.refresh [exampleA], Action.pollRead, Action.sendStart 1 "1" none,
          Action.sendFinish 0 2 (Delivery.body true)]).map
        (fun c => ids c.store.emails) = some [] ∧
      (run initialClient
        [Action.refresh [exampleA], Action.pollRead, Action.sendStart 1 "1" none,
          Action.sendFinish 0 2 (Delivery.body true), Action.pollWrite 0 [exampleB]]).map
        (fun c => ids c.store.emails) = some ["1", "2"] ∧
      (run initialClient
        [Action.refresh [exampleA], Action.openModal exampleA, Action.regenRead,
          Action.sendStart 1 "1" none, Action.sendFinish 0 2 (Delivery.body true),
          Action.regenWrite 0 3 "new reply"]).map
        (fun c => ids c.store.emails) = some ["1"] := by
  decide

/-- C28, amended: once the id of a sent message is neither in the working set nor in a list
read by a poll or a regeneration that is still suspended, and no suspended send holds it,
the id is not an entry of the working set in any later client state, for every interleaving
of refreshes, polls, sends and regenerations in which the backend does not return the
message again.  A poll or a regeneration that read the working set before the optimistic
removal and completes after it does write the entry back. -/
theorem sent_message_stays_out (id : String) (acts : List Action) (c c1 : Client)
    (hgone : IdGone id c) (hav : ∀ a ∈ acts, a.avoids id = true)
    (hrun : run c acts = some c1) : id ∉ ids c1.store.emails :=
  (run_gone id acts c c1 hgone hav hrun).1

theorem sent_message_stays_out_witness :
    (run { initialClient with store := { initialStore with emails := [exampleB] } }
        [Action.pollRead, Action.pollWrite 0 [exampleC], Action.sendStart 1 "2" none,
          Action.sendFinish 0 2 Delivery.jsonThrows]).map (fun c => c.store.emails) =
        some [exampleB, exampleC] ∧
      "1" ∉ ids [exampleB, exampleC] :=
  ⟨by decide,
    sent_message_stays_out "1"
      [Action.pollRead, Action.pollWrite 0 [exampleC], Action.sendStart 1 "2" none,
        Action.sendFinish 0 2 Delivery.jsonThrows]
      { initialClient with store := { initialStore with emails := [exampleB] } }
      { initialClient with store :=
          { initialStore with
            emails := [exampleB, exampleC],
            toasts := [{ id := 2, type := ToastType.error,
                         message := "Failed to send email. Please try again." }] } }
      ⟨by decide, by simp [initialClient], by simp [initialClient], by simp [initialClient]⟩
      (by decide) (by decide)⟩

/-! ## The reply versions across operations -/

theorem storedNonEmpty_setItem (key : String) (value : List (Option String))
    (localStorage : String → Option (List (Option String)))
    (h : StoredNonEmpty localStorage) (hv : value ≠ []) :
    StoredNonEmpty (setItem key value localStorage) := by
  intro k history hk
  unfold setItem at hk
  by_cases hkk : k = key
  · rw [if_pos hkk] at hk
    exact (Option.some.inj hk) ▸ hv
  · rw [if_neg hkk] at hk
    exact h k history hk

theorem storedNonEmpty_removeItem (key : String)
    (localStorage : String → Option (List (Option String)))
    (h : StoredNonEmpty localStorage) : StoredNonEmpty (removeItem key localStorage) := by
  intro k history hk
  unfold removeItem at hk
  by_cases hkk : k = key
  · rw [if_pos hkk] at hk
    exact Option.noConfusion hk
  · rw [if_neg hkk] at hk
    exact h k history hk

theorem storedNonEmpty_cleanup (previous : Option Email) (u : Session)
    (h : StoredNonEmpty u.localStorage) :
    StoredNonEmpty (cleanupVersionHistory previous u).localStorage := by
  cases previous with
  | none => exact h
  | some email => exact storedNonEmpty_removeItem _ _ h

theorem ledgerInv_loadHistoryEffect (u : Session) (email : Email)
    (hopen : u.store.isModalOpen = true) (hsel : u.store.selectedEmail = some email)
    (h : StoredNonEmpty u.localStorage) : LedgerInv (loadHistoryEffect u) := by
  unfold loadHistoryEffect
  simp only [hopen, hsel]
  cases hst : u.localStorage (storageKey email.id) with
  | none =>
    refine ⟨by simp, by simp, by simp, ?_⟩
    exact storedNonEmpty_setItem _ _ _ h (by simp)
  | some history =>
    have hne : history ≠ [] := h _ _ hst
    have hlen : 0 < history.length := List.length_pos.mpr hne
    refine ⟨hne, ?_, ?_, h⟩
    · show (0 : Int) ≤ (history.length : Int) - 1
      omega
    · show (history.length : Int) - 1 < (history.length : Int)
      omega

theorem ledgerInv_openReview (email : Email) (u : Session)
    (h : StoredNonEmpty u.localStorage) : LedgerInv (openReview email u) := by
  unfold openReview afterRender
  apply ledgerInv_loadHistoryEffect _ email
  · cases hp : u.store.selectedEmail <;> simp [cleanupVersionHistory, openModal]
  · cases hp : u.store.selectedEmail <;> simp [cleanupVersionHistory, openModal]
  · exact storedNonEmpty_cleanup _ _ h

theorem ledgerInv_handleReplyChange (text : String) (u : Session) (h : LedgerInv u) :
    LedgerInv (handleReplyChange text u) := by
  obtain ⟨hne, h0, h1, hst⟩ := h
  have hlt : u.currentVersionIndex.toNat < u.replyHistory.length := by omega
  have hneg : ¬ u.currentVersionIndex < 0 := by omega
  have hset : jsArraySet u.replyHistory u.currentVersionIndex (some text) =
      u.replyHistory.set u.currentVersionIndex.toNat (some text) := by
    simp [jsArraySet, hneg, hlt]
  have hne2 : u.replyHistory.set u.currentVersionIndex.toNat (some text) ≠ [] := by
    intro hc
    have := congrArg List.length hc
    rw [List.length_set] at this
    exact hne (List.length_eq_zero.mp this)
  unfold handleReplyChange
  rw [hset]
  cases hsel : u.store.selectedEmail with
  | none =>
    refine ⟨hne2, h0, ?_, hst⟩
    show u.currentVersionIndex < ((u.replyHistory.set _ _).length : Int)
    rw [List.length_set]
    exact h1
  | some email =>
    refine ⟨hne2, h0, ?_, storedNonEmpty_setItem _ _ _ hst hne2⟩
    show u.currentVersionIndex < ((u.replyHistory.set _ _).length : Int)
    rw [List.length_set]
    exact h1

/-- The ledger after a regeneration that runs to its end: unchanged, or the history the
handler started from with the new reply appended. -/
theorem handleRegenerate_ledger (toastId : Nat) (d : DraftOutcome) (u : Session) :
    ((handleRegenerateWithCustomization toastId d (fun v => v) u).replyHistory =
          u.replyHistory ∧
        (handleRegenerateWithCustomization toastId d (fun v => v) u).currentVersionIndex =
          u.currentVersionIndex ∧
        (handleRegenerateWithCustomization toastId d (fun v => v) u).localStorage =
          u.localStorage) ∨
      ∃ (newReply : String) (selectedEmail : Email),
        (handleRegenerateWithCustomization toastId d (fun v => v) u).replyHistory =
            u.replyHistory ++ [some newReply] ∧
          (handleRegenerateWithCustomization toastId d (fun v => v) u).currentVersionIndex =
            ((u.replyHistory ++ [some newReply]).length : Int) - 1 ∧
          (handleRegenerateWithCustomization toastId d (fun v => v) u).localStorage =
            setItem (storageKey selectedEmail.id) (u.replyHistory ++ [some newReply])
              u.localStorage := by
  cases hsel : u.store.selectedEmail with
  | none =>
    left
    simp [handleRegenerateWithCustomization, hsel]
  | some email =>
    cases hr : (regenerateResume toastId d email u.store.emails u.store).2 with
    | none =>
      left
      simp [handleRegenerateWithCustomization, hsel, hr]
    | some newReply =>
      right
      refine ⟨newReply, email, ?_⟩
      simp [handleRegenerateWithCustomization, hsel, hr]

theorem ledgerInv_handleRegenerate (toastId : Nat) (d : DraftOutcome) (u : Session)
    (h : LedgerInv u) :
    LedgerInv (handleRegenerateWithCustomization toastId d (fun v => v) u) := by
  obtain ⟨hne, h0, h1, hst⟩ := h
  rcases handleRegenerate_ledger toastId d u with ⟨e1, e2, e3⟩ | ⟨newReply, email, e1, e2, e3⟩
  · unfold LedgerInv
    rw [e1, e2, e3]
    exact ⟨hne, h0, h1, hst⟩
  · have hne2 : u.replyHistory ++ [some newReply] ≠ [] := by simp
    unfold LedgerInv
    rw [e1, e2, e3]
    refine ⟨hne2, ?_, ?_, storedNonEmpty_setItem _ _ _ hst hne2⟩
    · simp
    · omega

theorem ledgerInv_applyLedgerOp (op : LedgerOp) (u : Session) (h : LedgerInv u) :
    LedgerInv (applyLedgerOp op u) := by
  cases op with
  | edit text => exact ledgerInv_handleReplyChange text u h
  | regenerate toastId d => exact ledgerInv_handleRegenerate toastId d u h
  | previous =>
    obtain ⟨hne, h0, h1, hst⟩ := h
    show LedgerInv (handlePreviousVersion u)
    unfold handlePreviousVersion
    split
    · rename_i hpos
      refine ⟨hne, ?_, ?_, hst⟩
      · show (0 : Int) ≤ u.currentVersionIndex - 1
        omega
      · show u.currentVersionIndex - 1 < (u.replyHistory.length : Int)
        omega
    · exact ⟨hne, h0, h1, hst⟩
  | next =>
    obtain ⟨hne, h0, h1, hst⟩ := h
    show LedgerInv (handleNextVersion u)
    unfold handleNextVersion
    split
    · rename_i hlt
      refine ⟨hne, ?_, ?_, hst⟩
      · show (0 : Int) ≤ u.currentVersionIndex + 1
        omega
      · show u.currentVersionIndex + 1 < (u.replyHistory.length : Int)
        omega
    · exact ⟨hne, h0, h1, hst⟩

theorem ledgerInv_runLedger (ops : List LedgerOp) :
    ∀ u : Session, LedgerInv u → LedgerInv (runLedger ops u) := by
  induction ops with
  | nil =>
    intro u h
    exact h
  | cons op rest ih =>
    intro u h
    exact ih _ (ledgerInv_applyLedgerOp op u h)

theorem jsGet_inrange (history : List (Option String)) (i : Int) (h0 : 0 ≤ i)
    (h1 : i < (history.length : Int)) : history[i.toNat]? = some (jsGet history i) := by
  have hlt : i.toNat < history.length := by omega
  have hneg : ¬ i < 0 := by omega
  have hget : history[i.toNat]? = some history[i.toNat] := List.getElem?_eq_getElem hlt
  simp [jsGet, hneg, hget]

theorem regenerateResume_selected (toastId : Nat) (d : DraftOutcome) (selectedEmail : Email)
    (emails : List Email) (s : Store) :
    (regenerateResume toastId d selectedEmail emails s).1.selectedEmail = s.selectedEmail := by
  cases d with
  | fetchThrows => rfl
  | notOk => rfl
  | jsonThrows => rfl
  | body newReply =>
    cases newReply with
    | none => rfl
    | some t =>
      by_cases ht : (t != "") = true
      · simp [regenerateResume, ht, regenerateWrite, addToast]
      · simp [regenerateResume, ht, addToast]

theorem selected_applyLedgerOp (op : LedgerOp) (u : Session) :
    (applyLedgerOp op u).store.selectedEmail = u.store.selectedEmail := by
  cases op with
  | edit text =>
    show (handleReplyChange text u).store.selectedEmail = _
    cases hsel : u.store.selectedEmail <;> simp [handleReplyChange, hsel, updateReply]
  | regenerate toastId d =>
    show (handleRegenerateWithCustomization toastId d (fun v => v) u).store.selectedEmail = _
    cases hsel : u.store.selectedEmail with
    | none => simp [handleRegenerateWithCustomization, hsel, regenerateWithBackend, addToast]
    | some email =>
      have hr := regenerateResume_selected toastId d email u.store.emails u.store
      cases hr2 : (regenerateResume toastId d email u.store.emails u.store).2 <;>
        simp [handleRegenerateWithCustomization, hsel, hr2, hr]
  | previous =>
    show (handlePreviousVersion u).store.selectedEmail = _
    unfold handlePreviousVersion
    split <;> rfl
  | next =>
    show (handleNextVersion u).store.selectedEmail = _
    unfold handleNextVersion
    split <;> rfl

theorem selected_runLedger (ops : List LedgerOp) :
    ∀ u : Session, (runLedger ops u).store.selectedEmail = u.store.selectedEmail := by
  induction ops with
  | nil =>
    intro u
    rfl
  | cons op rest ih =>
    intro u
    exact (ih _).trans (selected_applyLedgerOp op u)

theorem selected_openReview (email : Email) (u : Session) :
    (openReview email u).store.selectedEmail = some email := by
  unfold openReview afterRender loadHistoryEffect
  cases hp : u.store.selectedEmail with
  | none =>
    simp only [cleanupVersionHistory, openModal]
    cases u.localStorage (storageKey email.id) <;> rfl
  | some previous =>
    simp only [cleanupVersionHistory, openModal]
    cases removeItem (storageKey previous.id) u.localStorage (storageKey email.id) <;> rfl

/-- Closing a review leaves nothing stored under the key of the message that was open, and
no message selected, when nothing was stored under that key before the cleanup or the key is
the one the cleanup removes. -/
theorem closeReview_storage (u : Session) (key : String)
    (h : u.localStorage key = none ∨
      ∃ email, u.store.selectedEmail = some email ∧ key = storageKey email.id) :
    (closeReview u).localStorage key = none ∧ (closeReview u).store.selectedEmail = none := by
  unfold closeReview afterRender loadHistoryEffect
  cases hp : u.store.selectedEmail with
  | none =>
    rcases h with h | ⟨email, he, _⟩
    · simp [cleanupVersionHistory, closeModal, h]
    · rw [hp] at he
      exact Option.noConfusion he
  | some previous =>
    rcases h with h | ⟨email, he, hk⟩
    · by_cases hkk : key = storageKey previous.id
      · simp [cleanupVersionHistory, closeModal, removeItem, hkk]
      · simp [cleanupVersionHistory, closeModal, removeItem, hkk, h]
    · rw [hp] at he
      have : previous = email := Option.some.inj he
      subst this
      simp [cleanupVersionHistory, closeModal, removeItem, hk]

theorem openReview_fresh (email : Email) (u : Session)
    (hclosed : u.store.selectedEmail = none)
    (hnone : u.localStorage (storageKey email.id) = none) :
    (openReview email u).replyHistory = [email.Reply_of_email] ∧
      (openReview email u).currentVersionIndex = 0 := by
  simp [openReview, afterRender, cleanupVersionHistory, hclosed, loadHistoryEffect, openModal,
    hnone]

theorem confirmSend_closes (loadingToastId : Nat) (duringDelay : Session → Session)
    (u : Session) (email : Email) (hsel : u.store.selectedEmail = some email) :
    (confirmSend loadingToastId duringDelay u).1.localStorage (storageKey email.id) = none ∧
      (confirmSend loadingToastId duringDelay u).1.store.selectedEmail = none := by
  simp only [confirmSend, hsel]
  apply closeReview_storage
  left
  simp [removeItem]

/-! ## Claims on the life of the reply versions -/

/-- C22: in every ledger state reached from the opening of a message, with every stored
ledger having at least one entry, by any sequence of edits, regenerations (success or
failure), previous and next, the history is not empty and the cursor is an index of the
history.  In such a state previous and next never change the history; each moves the cursor
by exactly one when the new cursor is still an index, and then the displayed reply is the
entry at the new cursor; otherwise it leaves the session as it is. -/
theorem ledger_invariant (email : Email) (u0 : Session) (ops : List LedgerOp) (u : Session)
    (hst : StoredNonEmpty u0.localStorage)
    (hu : u = runLedger ops (openReview email u0)) :
    u.replyHistory ≠ [] ∧ 0 ≤ u.currentVersionIndex ∧
      u.currentVersionIndex < (u.replyHistory.length : Int) ∧
      (handlePreviousVersion u).replyHistory = u.replyHistory ∧
      (0 ≤ u.currentVersionIndex - 1 →
        (handlePreviousVersion u).currentVersionIndex = u.currentVersionIndex - 1 ∧
          u.replyHistory[(handlePreviousVersion u).currentVersionIndex.toNat]? =
            some (handlePreviousVersion u).store.suggestedReply) ∧
      (¬ 0 ≤ u.currentVersionIndex - 1 → handlePreviousVersion u = u) ∧
      (handleNextVersion u).replyHistory = u.replyHistory ∧
      (u.currentVersionIndex + 1 < (u.replyHistory.length : Int) →
        (handleNextVersion u).currentVersionIndex = u.currentVersionIndex + 1 ∧
          u.replyHistory[(handleNextVersion u).currentVersionIndex.toNat]? =
            some (handleNextVersion u).store.suggestedReply) ∧
      (¬ u.currentVersionIndex + 1 < (u.replyHistory.length : Int) →
        handleNextVersion u = u) := by
  have hinv : LedgerInv u := by
    rw [hu]
    exact ledgerInv_runLedger ops _ (ledgerInv_openReview email u0 hst)
  obtain ⟨hne, h0, h1, _⟩ := hinv
  refine ⟨hne, h0, h1, ?_, ?_, ?_, ?_, ?_, ?_⟩
  · unfold handlePreviousVersion
    split <;> rfl
  · intro hb
    have hpos : u.currentVersionIndex > 0 := by omega
    have heq : handlePreviousVersion u =
        { u with currentVersionIndex := u.currentVersionIndex - 1,
                 store := updateReply (jsGet u.replyHistory (u.currentVersionIndex - 1))
                   u.store } := by
      simp [handlePreviousVersion, hpos]
    rw [heq]
    exact ⟨rfl, jsGet_inrange u.replyHistory (u.currentVersionIndex - 1) hb (by omega)⟩
  · intro hb
    have hpos : ¬ u.currentVersionIndex > 0 := by omega
    simp [handlePreviousVersion, hpos]
  · unfold handleNextVersion
    split <;> rfl
  · intro hb
    have hlt : u.currentVersionIndex < (u.replyHistory.length : Int) - 1 := by omega
    have heq : handleNextVersion u =
        { u with currentVersionIndex := u.currentVersionIndex + 1,
                 store := updateReply (jsGet u.replyHistory (u.currentVersionIndex + 1))
                   u.store } := by
      simp [handleNextVersion, hlt]
    rw [heq]
    exact ⟨rfl, jsGet_inrange u.replyHistory (u.currentVersionIndex + 1) (by omega) hb⟩
  · intro hb
    have hlt : ¬ u.currentVersionIndex < (u.replyHistory.length : Int) - 1 := by omega
    simp [handleNextVersion, hlt]

theorem ledger_invariant_witness :
    (runLedger [LedgerOp.edit "edited", LedgerOp.regenerate 9 (DraftOutcome.body (some "new")),
        LedgerOp.previous, LedgerOp.previous, LedgerOp.next]
      (openReview exampleA { exampleSession with store := exampleStore })).replyHistory ≠ [] ∧
      0 ≤ (runLedger [LedgerOp.edit "edited",
          LedgerOp.regenerate 9 (DraftOutcome.body (some "new")),
          LedgerOp.previous, LedgerOp.previous, LedgerOp.next]
        (openReview exampleA
          { exampleSession with store := exampleStore })).currentVersionIndex :=
  have h := ledger_invariant exampleA { exampleSession with store := exampleStore }
    [LedgerOp.edit "edited", LedgerOp.regenerate 9 (DraftOutcome.body (some "new")),
      LedgerOp.previous, LedgerOp.previous, LedgerOp.next]
    _ (fun _ _ hk => Option.noConfusion hk) rfl
  ⟨h.1, h.2.1⟩

/-- When every ledger operation of a review has run to its end before the review is closed,
by abandoning it or by sending the reply, nothing is stored under `reply_history_<id>` of
the message afterwards, and a later opening of the message starts from the single-entry
ledger holding its current draft, with the cursor at 0. -/
theorem review_close_removes_ledger (email : Email) (u0 : Session) (ops : List LedgerOp)
    (u : Session) (loadingToastId : Nat) (duringDelay : Session → Session)
    (hu : u = runLedger ops (openReview email u0)) :
    (closeReview u).localStorage (storageKey email.id) = none ∧
      (confirmSend loadingToastId duringDelay u).1.localStorage (storageKey email.id) = none ∧
      (∀ email2 : Email, email2.id = email.id →
        (openReview email2 (closeReview u)).replyHistory = [email2.Reply_of_email] ∧
          (openReview email2 (closeReview u)).currentVersionIndex = 0) ∧
      (∀ email2 : Email, email2.id = email.id →
        (openReview email2 (confirmSend loadingToastId duringDelay u).1).replyHistory =
            [email2.Reply_of_email] ∧
          (openReview email2 (confirmSend loadingToastId duringDelay u).1).currentVersionIndex =
            0) := by
  have hsel : u.store.selectedEmail = some email := by
    rw [hu, selected_runLedger, selected_openReview]
  have hclose := closeReview_storage u (storageKey email.id) (Or.inr ⟨email, hsel, rfl⟩)
  have hsend := confirmSend_closes loadingToastId duringDelay u email hsel
  refine ⟨hclose.1, hsend.1, ?_, ?_⟩
  · intro email2 hid
    exact openReview_fresh email2 _ hclose.2 (hid ▸ hclose.1)
  · intro email2 hid
    exact openReview_fresh email2 _ hsend.2 (hid ▸ hsend.1)

theorem review_close_removes_ledger_witness :
    (closeReview (runLedger [LedgerOp.edit "edited", LedgerOp.next]
        (openReview exampleA { exampleSession with store := exampleStore }))).localStorage
        (storageKey exampleA.id) = none ∧
      (confirmSend 7 (fun v => v) (runLedger [LedgerOp.edit "edited", LedgerOp.next]
        (openReview exampleA
          { exampleSession with store := exampleStore }))).1.localStorage
        (storageKey exampleA.id) = none :=
  have h := review_close_removes_ledger exampleA { exampleSession with store := exampleStore }
    [LedgerOp.edit "edited", LedgerOp.next] _ 7 (fun v => v) rfl
  ⟨h.1, h.2.1⟩

/-- C25, the code at the failing input: message A is opened and its ledger `["draft A"]` is
stored; a regeneration is started; the operator closes the modal while the Draft Service
call is pending, and the cleanup removes the stored ledger; the call then succeeds with
"new".  The continuation of the handler stores `["draft A", "new"]` under
`reply_history_1` although the review is closed, and the next opening of message A
restores these two entries with the cursor at 1 instead of starting from a single entry. -/
theorem regeneration_after_close_stores_ledger :
    (openReview exampleA exampleClosed).localStorage "reply_history_1" =
        some [some "draft A"] ∧
      (closeReview (openReview exampleA exampleClosed)).localStorage "reply_history_1" =
        none ∧
      closedWhileRegenerating.store.isModalOpen = false ∧
      closedWhileRegenerating.store.selectedEmail = none ∧
      closedWhileRegenerating.localStorage (storageKey exampleA.id) =
        some [some "draft A", some "new"] ∧
      (openReview exampleA closedWhileRegenerating).replyHistory =
        [some "draft A", some "new"] ∧
      (openReview exampleA closedWhileRegenerating).currentVersionIndex = 1 := by
  decide

end EmailClient
